import Mathlib

/-!
Shallow embedding of the pure physics core of a single-pivot motorcycle
rear-suspension simulator (`physics.js`), together with proofs of the
specified properties of that core.

JavaScript numbers are modelled as real numbers; `Math.cos`, `Math.sin`,
`Math.sqrt`, `Math.abs`, `Math.max` become `Real.cos`, `Real.sin`,
`Real.sqrt`, `abs`, `max`.  The bounded `for`-loops of the source
(bisection: 100 iterations, sag scan: 200000 iterations) are modelled by
structural recursion on an explicit fuel counter with exactly the
source's iteration count; the tolerance-driven `while`-loop of the
golden-section search is modelled as the first iterate at which the loop
condition fails.
-/

namespace Suspension

open Real

/-- The immutable suspension parameter record (units as in the source:
mm, lbs, lbs/inch, radians). -/
structure Params where
  swingarmLength : ℝ
  lowerMountDist : ℝ
  upperMountX : ℝ
  upperMountY : ℝ
  shockFreeLength : ℝ
  shockStroke : ℝ
  springRate : ℝ
  load : ℝ
  preload : ℝ

/-- Result record of the sag solver. -/
structure SagResult where
  angle : ℝ
  sagMM : ℝ

/-- Source function `axlePosition(theta, swingarmLength)`. -/
noncomputable def axlePosition (theta swingarmLength : ℝ) : ℝ × ℝ :=
  (swingarmLength * Real.cos theta, swingarmLength * Real.sin theta)

/-- Source function `lowerMountPosition(theta, lowerMountDist)`. -/
noncomputable def lowerMountPosition (theta lowerMountDist : ℝ) : ℝ × ℝ :=
  (lowerMountDist * Real.cos theta, lowerMountDist * Real.sin theta)

/-- Source function `shockLength(theta, params)`: distance from the lower mount to the
fixed upper mount. -/
noncomputable def shockLength (theta : ℝ) (p : Params) : ℝ :=
  Real.sqrt ((p.upperMountX - (lowerMountPosition theta p.lowerMountDist).1) ^ 2 +
    (p.upperMountY - (lowerMountPosition theta p.lowerMountDist).2) ^ 2)

/-- Source function `shockCompression(theta, params)`. -/
noncomputable def shockCompression (theta : ℝ) (p : Params) : ℝ :=
  p.shockFreeLength - shockLength theta p

/-- The bisection `for`-loop of `findAngleForShockLength`.  `lenLo` is the
shock length at the original lower endpoint, computed once before the
loop (exactly as in the source, which never updates `lenLo`). -/
noncomputable def findAngleLoop (targetLength : ℝ) (p : Params) (lenLo : ℝ) :
    ℕ → ℝ → ℝ → ℝ
  | 0, lo, hi => (lo + hi) / 2
  | fuel + 1, lo, hi =>
    if |shockLength ((lo + hi) / 2) p - targetLength| < 0.001 then (lo + hi) / 2
    else if (shockLength ((lo + hi) / 2) p - targetLength) * (lenLo - targetLength) < 0 then
      findAngleLoop targetLength p lenLo fuel lo ((lo + hi) / 2)
    else
      findAngleLoop targetLength p lenLo fuel ((lo + hi) / 2) hi

/-- Source function `findAngleForShockLength(targetLength, params)`:
bisection over `[-pi/2, pi/4]`, returning the numerically closer endpoint
when the target is not bracketed (strictly positive product test). -/
noncomputable def findAngleForShockLength (targetLength : ℝ) (p : Params) : ℝ :=
  if (targetLength - shockLength (-(π / 2)) p) * (targetLength - shockLength (π / 4) p) > 0 then
    if |targetLength - shockLength (-(π / 2)) p| < |targetLength - shockLength (π / 4) p| then
      -(π / 2)
    else π / 4
  else findAngleLoop targetLength p (shockLength (-(π / 2)) p) 100 (-(π / 2)) (π / 4)

/-- Source function `fullyExtendedAngle(params)`. -/
noncomputable def fullyExtendedAngle (p : Params) : ℝ :=
  findAngleForShockLength p.shockFreeLength p

/-- Source function `fullyCompressedAngle(params)`. -/
noncomputable def fullyCompressedAngle (p : Params) : ℝ :=
  findAngleForShockLength (p.shockFreeLength - p.shockStroke) p

/-- Source function `motionRatio(theta, params)`: central difference of
axle height against shock compression with step `0.0001` rad, with the
degenerate-denominator guard. -/
noncomputable def motionRatio (theta : ℝ) (p : Params) : ℝ :=
  if |shockCompression (theta + 0.0001) p - shockCompression (theta - 0.0001) p| < 1e-10 then 0
  else
    |((axlePosition (theta + 0.0001) p.swingarmLength).2 -
        (axlePosition (theta - 0.0001) p.swingarmLength).2) /
      (shockCompression (theta + 0.0001) p - shockCompression (theta - 0.0001) p)|

/-- Source function `springForce(theta, params)`. -/
noncomputable def springForce (theta : ℝ) (p : Params) : ℝ :=
  p.springRate * max 0 ((shockCompression theta p + p.preload) / 25.4)

/-- Source function `wheelRate(theta, params)`. -/
noncomputable def wheelRate (theta : ℝ) (p : Params) : ℝ :=
  if motionRatio theta p < 1e-10 then 0
  else p.springRate / (motionRatio theta p * motionRatio theta p)

/-- The golden ratio `(sqrt 5 + 1) / 2` as used by the source. -/
noncomputable def goldenRatio : ℝ := (Real.sqrt 5 + 1) / 2

/-- One iteration of the golden-section `while` loop body of
`findPerpendicularAngle`: probe points `c = b - (b-a)/gr` and
`d = a + (b-a)/gr`, keep `(a, d)` or `(c, b)`. -/
noncomputable def goldenStep (p : Params) (ab : ℝ × ℝ) : ℝ × ℝ :=
  if motionRatio (ab.2 - (ab.2 - ab.1) / goldenRatio) p <
      motionRatio (ab.1 + (ab.2 - ab.1) / goldenRatio) p then
    (ab.1, ab.1 + (ab.2 - ab.1) / goldenRatio)
  else (ab.2 - (ab.2 - ab.1) / goldenRatio, ab.2)

/-- The state of the golden-section `while` loop after `n` tests of the
loop condition `|b - a| > 1e-8`: the body runs only while the condition
holds, so the state is frozen once the condition fails. -/
noncomputable def goldenIter (p : Params) : ℕ → ℝ × ℝ → ℝ × ℝ
  | 0, ab => ab
  | n + 1, ab => if |ab.2 - ab.1| > 1e-8 then goldenIter p n (goldenStep p ab) else ab

/-- The number of iterations after which the golden-section loop
condition first fails (the `while` loop exit stage). -/
noncomputable def goldenExitStage (p : Params) (ab : ℝ × ℝ) : ℕ :=
  sInf {n : ℕ | ¬ |(goldenIter p n ab).2 - (goldenIter p n ab).1| > 1e-8}

/-- The initial golden-section bracket
`[min(ext, comp), max(ext, comp)]` of `findPerpendicularAngle`. -/
noncomputable def perpInit (p : Params) : ℝ × ℝ :=
  (min (fullyExtendedAngle p) (fullyCompressedAngle p),
   max (fullyExtendedAngle p) (fullyCompressedAngle p))

/-- Source function `findPerpendicularAngle(params)`: golden-section
search over `[min(ext, comp), max(ext, comp)]` run until the bracket
width is at most `1e-8`; the midpoint of the final bracket is returned. -/
noncomputable def findPerpendicularAngle (p : Params) : ℝ :=
  ((goldenIter p (goldenExitStage p (perpInit p)) (perpInit p)).1 +
    (goldenIter p (goldenExitStage p (perpInit p)) (perpInit p)).2) / 2

/-- The shock direction unit vector `(dx/shockLen, dy/shockLen)` computed
inside `computeSag`'s loop (no guard against `shockLen = 0` in the
source; real division by zero yields `0` in this model). -/
noncomputable def shockUnit (theta : ℝ) (p : Params) : ℝ × ℝ :=
  ((p.upperMountX - (lowerMountPosition theta p.lowerMountDist).1) / shockLength theta p,
   (p.upperMountY - (lowerMountPosition theta p.lowerMountDist).2) / shockLength theta p)

/-- The spring torque about the pivot computed inside `computeSag`'s
loop: `|lower.x * shockUnitY - lower.y * shockUnitX| * sf`. -/
noncomputable def springTorqueAt (theta : ℝ) (p : Params) : ℝ :=
  |(lowerMountPosition theta p.lowerMountDist).1 * (shockUnit theta p).2 -
      (lowerMountPosition theta p.lowerMountDist).2 * (shockUnit theta p).1| *
    springForce theta p

/-- The load torque about the pivot computed inside `computeSag`'s loop:
`load * |axle.x|`. -/
noncomputable def loadTorqueAt (theta : ℝ) (p : Params) : ℝ :=
  p.load * |(axlePosition theta p.swingarmLength).1|

/-- The bottomed-out result returned by `computeSag` when the scan
passes the compressed limit or exhausts its iteration cap. -/
noncomputable def sagBottom (p : Params) (compAngle extAxleY : ℝ) : SagResult :=
  ⟨compAngle, (axlePosition compAngle p.swingarmLength).2 - extAxleY⟩

/-- The scan loop of `computeSag`: at each iteration the angle advances
by `step`; the loop breaks past the compressed limit, skips steps with
non-positive spring force, and returns at the first torque balance.
Fuel `0` is the 200000-iteration cap of the source. -/
noncomputable def sagScan (p : Params) (compAngle step extAxleY : ℝ) : ℕ → ℝ → SagResult
  | 0, _ => sagBottom p compAngle extAxleY
  | fuel + 1, theta =>
    if step > 0 ∧ theta + step > compAngle then sagBottom p compAngle extAxleY
    else if step < 0 ∧ theta + step < compAngle then sagBottom p compAngle extAxleY
    else if springForce (theta + step) p ≤ 0 then
      sagScan p compAngle step extAxleY fuel (theta + step)
    else if springTorqueAt (theta + step) p ≥ loadTorqueAt (theta + step) p then
      ⟨theta + step, (axlePosition (theta + step) p.swingarmLength).2 - extAxleY⟩
    else sagScan p compAngle step extAxleY fuel (theta + step)

/-- The signed scan step `extAngle < compAngle ? 0.0005 : -0.0005` of
`computeSag`. -/
noncomputable def sagStep (p : Params) : ℝ :=
  if fullyExtendedAngle p < fullyCompressedAngle p then 0.0005 else -0.0005

/-- Source function `computeSag(params)`. -/
noncomputable def computeSag (p : Params) : SagResult :=
  sagScan p (fullyCompressedAngle p) (sagStep p)
    (axlePosition (fullyExtendedAngle p) p.swingarmLength).2 200000 (fullyExtendedAngle p)

/-- Variant of `shockUnit` with an explicit guard against a zero
divisor, used to state that the unguarded division in `computeSag` is
benign whenever the mount distance is positive along the scan. -/
noncomputable def shockUnitGuarded (theta : ℝ) (p : Params) : ℝ × ℝ :=
  if shockLength theta p = 0 then (0, 0)
  else
    ((p.upperMountX - (lowerMountPosition theta p.lowerMountDist).1) / shockLength theta p,
     (p.upperMountY - (lowerMountPosition theta p.lowerMountDist).2) / shockLength theta p)

/-- Spring torque computed from the guarded unit vector. -/
noncomputable def springTorqueAtGuarded (theta : ℝ) (p : Params) : ℝ :=
  |(lowerMountPosition theta p.lowerMountDist).1 * (shockUnitGuarded theta p).2 -
      (lowerMountPosition theta p.lowerMountDist).2 * (shockUnitGuarded theta p).1| *
    springForce theta p

/-- The scan loop of `computeSag` with the guarded division. -/
noncomputable def sagScanGuarded (p : Params) (compAngle step extAxleY : ℝ) : ℕ → ℝ → SagResult
  | 0, _ => sagBottom p compAngle extAxleY
  | fuel + 1, theta =>
    if step > 0 ∧ theta + step > compAngle then sagBottom p compAngle extAxleY
    else if step < 0 ∧ theta + step < compAngle then sagBottom p compAngle extAxleY
    else if springForce (theta + step) p ≤ 0 then
      sagScanGuarded p compAngle step extAxleY fuel (theta + step)
    else if springTorqueAtGuarded (theta + step) p ≥ loadTorqueAt (theta + step) p then
      ⟨theta + step, (axlePosition (theta + step) p.swingarmLength).2 - extAxleY⟩
    else sagScanGuarded p compAngle step extAxleY fuel (theta + step)

/-- Variant of `computeSag` with the guarded division. -/
noncomputable def computeSagGuarded (p : Params) : SagResult :=
  sagScanGuarded p (fullyCompressedAngle p) (sagStep p)
    (axlePosition (fullyExtendedAngle p) p.swingarmLength).2 200000 (fullyExtendedAngle p)

/-! ### Concrete parameter family used for witnesses and counterexamples

Lower mount at radius 250 mm, upper mount fixed at `(0, 250)`: then
`shockLength(theta)^2 = 125000 * (1 - sin theta)` exactly, which makes the
shock length strictly decreasing in the swingarm angle on
`[-pi/2, pi/4]` and exactly `500` at `theta = -pi/2`. -/

/-- Witness parameter family: mounts as above, remaining fields free. -/
def geomParams (freeLength stroke rate load preload : ℝ) : Params :=
  ⟨550, 250, 0, 250, freeLength, stroke, rate, load, preload⟩

theorem shockLength_geom (freeLength stroke rate load preload theta : ℝ) :
    shockLength theta (geomParams freeLength stroke rate load preload) =
      Real.sqrt (125000 * (1 - Real.sin theta)) := by
  simp only [shockLength, lowerMountPosition, geomParams]
  congr 1
  nlinarith [Real.sin_sq_add_cos_sq theta]

theorem shockLength_geom_neg_pi_div_two (freeLength stroke rate load preload : ℝ) :
    shockLength (-(π / 2)) (geomParams freeLength stroke rate load preload) = 500 := by
  rw [shockLength_geom, Real.sin_neg, Real.sin_pi_div_two]
  rw [show (125000 : ℝ) * (1 - -1) = 500 ^ 2 by norm_num]
  exact Real.sqrt_sq (by norm_num)

/-! ### C6, C7, C10: the motion-ratio and spring-force formulas -/

/-- C6: `motionRatio(theta, p)` equals the central difference
`|(axleY(theta+eps) - axleY(theta-eps)) / (compression(theta+eps) -
compression(theta-eps))|` with `eps = 0.0001` when the compression
denominator has magnitude at least `1e-10`, and equals `0` otherwise;
consequently it is nonnegative for every input. -/
theorem C6_motionRatio_central_difference (theta : ℝ) (p : Params) :
    motionRatio theta p =
      (if |shockCompression (theta + 0.0001) p - shockCompression (theta - 0.0001) p| < 1e-10
        then 0
        else
          |((axlePosition (theta + 0.0001) p.swingarmLength).2 -
              (axlePosition (theta - 0.0001) p.swingarmLength).2) /
            (shockCompression (theta + 0.0001) p - shockCompression (theta - 0.0001) p)|) ∧
    0 ≤ motionRatio theta p := by
  refine ⟨rfl, ?_⟩
  unfold motionRatio
  split
  · exact le_refl 0
  · exact abs_nonneg _

/-- C7: `springForce(theta, p) = springRate * max 0 ((compression + preload) / 25.4)`;
it is nonnegative whenever the spring rate is, and it is exactly `0`
whenever the net compression (compression plus preload) is non-positive. -/
theorem C7_springForce_formula (theta : ℝ) (p : Params) :
    springForce theta p = p.springRate * max 0 ((shockCompression theta p + p.preload) / 25.4) ∧
    (0 ≤ p.springRate → 0 ≤ springForce theta p) ∧
    (shockCompression theta p + p.preload ≤ 0 → springForce theta p = 0) := by
  refine ⟨rfl, fun h => mul_nonneg h (le_max_left _ _), fun h => ?_⟩
  unfold springForce
  rw [max_eq_left (div_nonpos_of_nonpos_of_nonneg h (by norm_num)), mul_zero]

theorem C7_springForce_formula_witness :
    (0 : ℝ) ≤ (geomParams 100 55 600 200 0).springRate ∧
    shockCompression (-(π / 2)) (geomParams 100 55 600 200 0) +
        (geomParams 100 55 600 200 0).preload ≤ 0 ∧
    0 ≤ springForce (-(π / 2)) (geomParams 100 55 600 200 0) ∧
    springForce (-(π / 2)) (geomParams 100 55 600 200 0) = 0 := by
  have hc : shockCompression (-(π / 2)) (geomParams 100 55 600 200 0) +
      (geomParams 100 55 600 200 0).preload ≤ 0 := by
    unfold shockCompression
    rw [shockLength_geom_neg_pi_div_two]
    show (100 : ℝ) - 500 + 0 ≤ 0
    norm_num
  exact ⟨by norm_num [geomParams], hc,
    (C7_springForce_formula (-(π / 2)) (geomParams 100 55 600 200 0)).2.1 (by norm_num [geomParams]),
    (C7_springForce_formula (-(π / 2)) (geomParams 100 55 600 200 0)).2.2 hc⟩

/-- C10: with positive preload the spring force can be strictly positive
even while the shock is extended beyond its free length (negative
compression); in general the force is strictly positive whenever
`compression + preload > 0` and the spring rate is positive. -/
theorem C10_preload_force_beyond_free_length :
    (∃ p : Params, ∃ theta : ℝ,
      0 < p.preload ∧ shockCompression theta p < 0 ∧ 0 < springForce theta p) ∧
    ∀ (p : Params) (theta : ℝ), 0 < p.springRate →
      0 < shockCompression theta p + p.preload → 0 < springForce theta p := by
  constructor
  · refine ⟨geomParams 490 55 600 200 20, -(π / 2), by norm_num [geomParams], ?_, ?_⟩
    · unfold shockCompression
      rw [shockLength_geom_neg_pi_div_two]
      show (490 : ℝ) - 500 < 0
      norm_num
    · unfold springForce shockCompression
      rw [shockLength_geom_neg_pi_div_two]
      show 0 < (600 : ℝ) * max 0 ((490 - 500 + 20) / 25.4)
      rw [max_eq_right (by norm_num)]
      norm_num
  · intro p theta hrate hc
    unfold springForce
    have : max 0 ((shockCompression theta p + p.preload) / 25.4) =
        (shockCompression theta p + p.preload) / 25.4 :=
      max_eq_right (le_of_lt (div_pos hc (by norm_num)))
    rw [this]
    exact mul_pos hrate (div_pos hc (by norm_num))

theorem C10_preload_force_beyond_free_length_witness :
    0 < (geomParams 490 55 600 200 20).springRate ∧
    0 < shockCompression (-(π / 2)) (geomParams 490 55 600 200 20) +
        (geomParams 490 55 600 200 20).preload ∧
    0 < springForce (-(π / 2)) (geomParams 490 55 600 200 20) := by
  have hc : 0 < shockCompression (-(π / 2)) (geomParams 490 55 600 200 20) +
      (geomParams 490 55 600 200 20).preload := by
    unfold shockCompression
    rw [shockLength_geom_neg_pi_div_two]
    show (0 : ℝ) < 490 - 500 + 20
    norm_num
  exact ⟨by norm_num [geomParams], hc,
    C10_preload_force_beyond_free_length.2 (geomParams 490 55 600 200 20) (-(π / 2))
      (by norm_num [geomParams]) hc⟩

/-! ### Range lemmas for the bisection and the sag scan -/

theorem findAngleLoop_mem (t : ℝ) (p : Params) (lenLo : ℝ) :
    ∀ (fuel : ℕ) (lo hi : ℝ), lo ≤ hi →
      findAngleLoop t p lenLo fuel lo hi ∈ Set.Icc lo hi := by
  intro fuel
  induction fuel with
  | zero =>
    intro lo hi h
    constructor <;> simp only [findAngleLoop] <;> linarith
  | succ n ih =>
    intro lo hi h
    have hmid_lo : lo ≤ (lo + hi) / 2 := by linarith
    have hmid_hi : (lo + hi) / 2 ≤ hi := by linarith
    simp only [findAngleLoop]
    split_ifs with h1 h2
    · exact ⟨hmid_lo, hmid_hi⟩
    · have := ih lo ((lo + hi) / 2) hmid_lo
      exact ⟨this.1, this.2.trans hmid_hi⟩
    · have := ih ((lo + hi) / 2) hi hmid_hi
      exact ⟨hmid_lo.trans this.1, this.2⟩

theorem findAngleForShockLength_mem (t : ℝ) (p : Params) :
    findAngleForShockLength t p ∈ Set.Icc (-(π / 2)) (π / 4) := by
  have hle : -(π / 2) ≤ π / 4 := by linarith [Real.pi_pos]
  unfold findAngleForShockLength
  split_ifs with h1 h2
  · exact ⟨le_refl _, hle⟩
  · exact ⟨hle, le_refl _⟩
  · exact findAngleLoop_mem _ _ _ 100 _ _ hle

theorem fullyExtendedAngle_mem (p : Params) :
    fullyExtendedAngle p ∈ Set.Icc (-(π / 2)) (π / 4) :=
  findAngleForShockLength_mem _ _

theorem fullyCompressedAngle_mem (p : Params) :
    fullyCompressedAngle p ∈ Set.Icc (-(π / 2)) (π / 4) :=
  findAngleForShockLength_mem _ _

theorem sagScan_angle_bounds_pos (p : Params) (compAngle step extAxleY : ℝ)
    (hstep : 0 < step) :
    ∀ (fuel : ℕ) (theta : ℝ), theta ≤ compAngle →
      theta ≤ (sagScan p compAngle step extAxleY fuel theta).angle ∧
      (sagScan p compAngle step extAxleY fuel theta).angle ≤ compAngle := by
  intro fuel
  induction fuel with
  | zero =>
    intro theta h
    exact ⟨h, le_refl _⟩
  | succ n ih =>
    intro theta h
    simp only [sagScan]
    split_ifs with h1 h2 h3 h4
    · exact ⟨h, le_refl _⟩
    · exact ⟨h, le_refl _⟩
    · have hin : theta + step ≤ compAngle := by
        by_contra hc
        exact h1 ⟨hstep, by linarith⟩
      have := ih (theta + step) hin
      exact ⟨le_trans (by linarith) this.1, this.2⟩
    · constructor
      · show theta ≤ theta + step
        linarith
      · show theta + step ≤ compAngle
        by_contra hc
        exact h1 ⟨hstep, by linarith⟩
    · have hin : theta + step ≤ compAngle := by
        by_contra hc
        exact h1 ⟨hstep, by linarith⟩
      have := ih (theta + step) hin
      exact ⟨le_trans (by linarith) this.1, this.2⟩

theorem sagScan_angle_bounds_neg (p : Params) (compAngle step extAxleY : ℝ)
    (hstep : step < 0) :
    ∀ (fuel : ℕ) (theta : ℝ), compAngle ≤ theta →
      compAngle ≤ (sagScan p compAngle step extAxleY fuel theta).angle ∧
      (sagScan p compAngle step extAxleY fuel theta).angle ≤ theta := by
  intro fuel
  induction fuel with
  | zero =>
    intro theta h
    exact ⟨le_refl _, h⟩
  | succ n ih =>
    intro theta h
    simp only [sagScan]
    split_ifs with h1 h2 h3 h4
    · exact ⟨le_refl _, h⟩
    · exact ⟨le_refl _, h⟩
    · have hin : compAngle ≤ theta + step := by
        by_contra hc
        exact h2 ⟨hstep, by linarith⟩
      have := ih (theta + step) hin
      exact ⟨this.1, le_trans this.2 (by linarith)⟩
    · constructor
      · show compAngle ≤ theta + step
        by_contra hc
        exact h2 ⟨hstep, by linarith⟩
      · show theta + step ≤ theta
        linarith
    · have hin : compAngle ≤ theta + step := by
        by_contra hc
        exact h2 ⟨hstep, by linarith⟩
      have := ih (theta + step) hin
      exact ⟨this.1, le_trans this.2 (by linarith)⟩

/-- C4: the angle returned by `computeSag` always lies within one scan
step (`0.0005` rad) of the interval spanned by the fully-extended and
fully-compressed angles, on both return paths. -/
theorem C4_computeSag_angle_in_travel_range (p : Params) :
    min (fullyExtendedAngle p) (fullyCompressedAngle p) - 0.0005 ≤ (computeSag p).angle ∧
    (computeSag p).angle ≤ max (fullyExtendedAngle p) (fullyCompressedAngle p) + 0.0005 := by
  unfold computeSag sagStep
  by_cases h : fullyExtendedAngle p < fullyCompressedAngle p
  · rw [if_pos h]
    have := sagScan_angle_bounds_pos p (fullyCompressedAngle p) 0.0005
      (axlePosition (fullyExtendedAngle p) p.swingarmLength).2 (by norm_num) 200000
      (fullyExtendedAngle p) (le_of_lt h)
    constructor
    · calc min (fullyExtendedAngle p) (fullyCompressedAngle p) - 0.0005
          ≤ fullyExtendedAngle p := by
            have := min_le_left (fullyExtendedAngle p) (fullyCompressedAngle p)
            linarith
      _ ≤ _ := this.1
    · calc (sagScan p (fullyCompressedAngle p) 0.0005
            (axlePosition (fullyExtendedAngle p) p.swingarmLength).2 200000
            (fullyExtendedAngle p)).angle
          ≤ fullyCompressedAngle p := this.2
      _ ≤ max (fullyExtendedAngle p) (fullyCompressedAngle p) + 0.0005 := by
            have := le_max_right (fullyExtendedAngle p) (fullyCompressedAngle p)
            linarith
  · rw [if_neg h]
    push_neg at h
    have := sagScan_angle_bounds_neg p (fullyCompressedAngle p) (-0.0005)
      (axlePosition (fullyExtendedAngle p) p.swingarmLength).2 (by norm_num) 200000
      (fullyExtendedAngle p) h
    constructor
    · calc min (fullyExtendedAngle p) (fullyCompressedAngle p) - 0.0005
          ≤ fullyCompressedAngle p := by
            have := min_le_right (fullyExtendedAngle p) (fullyCompressedAngle p)
            linarith
      _ ≤ _ := this.1
    · calc (sagScan p (fullyCompressedAngle p) (-0.0005)
            (axlePosition (fullyExtendedAngle p) p.swingarmLength).2 200000
            (fullyExtendedAngle p)).angle
          ≤ fullyExtendedAngle p := this.2
      _ ≤ max (fullyExtendedAngle p) (fullyCompressedAngle p) + 0.0005 := by
            have := le_max_left (fullyExtendedAngle p) (fullyCompressedAngle p)
            linarith

/-! ### C8: termination of the golden-section search -/

theorem one_lt_goldenRatio : 1 < goldenRatio := by
  unfold goldenRatio
  nlinarith [Real.sq_sqrt (by norm_num : (0 : ℝ) ≤ 5), Real.sqrt_nonneg 5]

theorem goldenRatio_pos : 0 < goldenRatio := lt_trans one_pos one_lt_goldenRatio

theorem goldenStep_width (p : Params) (ab : ℝ × ℝ) :
    (goldenStep p ab).2 - (goldenStep p ab).1 = (ab.2 - ab.1) / goldenRatio := by
  unfold goldenStep
  split_ifs <;> simp

theorem goldenIter_width_le (p : Params) :
    ∀ (n : ℕ) (ab : ℝ × ℝ), 0 ≤ ab.2 - ab.1 →
      0 ≤ (goldenIter p n ab).2 - (goldenIter p n ab).1 ∧
      (goldenIter p n ab).2 - (goldenIter p n ab).1 ≤
        max 1e-8 ((ab.2 - ab.1) / goldenRatio ^ n) := by
  intro n
  induction n with
  | zero =>
    intro ab h
    simp only [goldenIter, pow_zero, div_one]
    exact ⟨h, le_max_of_le_right (le_refl _)⟩
  | succ m ih =>
    intro ab h
    simp only [goldenIter]
    split_ifs with hguard
    · have hw : (goldenStep p ab).2 - (goldenStep p ab).1 = (ab.2 - ab.1) / goldenRatio :=
        goldenStep_width p ab
      have hnn : 0 ≤ (goldenStep p ab).2 - (goldenStep p ab).1 := by
        rw [hw]
        exact div_nonneg h (le_of_lt goldenRatio_pos)
      obtain ⟨h1, h2⟩ := ih (goldenStep p ab) hnn
      refine ⟨h1, h2.trans ?_⟩
      rw [hw]
      apply max_le_max (le_refl _)
      rw [div_div, ← pow_succ']
    · push_neg at hguard
      exact ⟨h, le_max_of_le_left ((le_abs_self _).trans hguard)⟩

theorem goldenIter_exit_exists (p : Params) (ab : ℝ × ℝ) (h : 0 ≤ ab.2 - ab.1) :
    ∃ n : ℕ, ¬ |(goldenIter p n ab).2 - (goldenIter p n ab).1| > 1e-8 := by
  obtain ⟨n, hn⟩ :=
    exists_pow_lt_of_lt_one
      (show (0 : ℝ) < 1e-8 / (ab.2 - ab.1 + 1) by positivity)
      (show 1 / goldenRatio < 1 by
        rw [div_lt_one goldenRatio_pos]
        exact one_lt_goldenRatio)
  refine ⟨n, ?_⟩
  obtain ⟨h1, h2⟩ := goldenIter_width_le p n ab h
  have hbound : (ab.2 - ab.1) / goldenRatio ^ n ≤ 1e-8 := by
    have hgpow : (1 / goldenRatio) ^ n = 1 / goldenRatio ^ n := by
      rw [one_div, one_div, inv_pow]
    have hpowpos : (0 : ℝ) < goldenRatio ^ n := pow_pos goldenRatio_pos n
    rw [hgpow] at hn
    have := mul_le_mul_of_nonneg_left (le_of_lt hn) h
    calc (ab.2 - ab.1) / goldenRatio ^ n = (ab.2 - ab.1) * (1 / goldenRatio ^ n) := by ring
    _ ≤ (ab.2 - ab.1) * (1e-8 / (ab.2 - ab.1 + 1)) := this
    _ ≤ 1e-8 := by
        rw [div_eq_mul_inv]
        have hpos : (0 : ℝ) < ab.2 - ab.1 + 1 := by linarith
        rw [show (ab.2 - ab.1) * (1e-8 * (ab.2 - ab.1 + 1)⁻¹) =
          1e-8 * ((ab.2 - ab.1) / (ab.2 - ab.1 + 1)) by ring]
        nlinarith [div_le_one_of_le₀ (by linarith : ab.2 - ab.1 ≤ ab.2 - ab.1 + 1)
          (le_of_lt hpos)]
  intro hgt
  rw [abs_of_nonneg h1] at hgt
  have := h2.trans (max_le (le_refl _) hbound)
  linarith

/-- C8: `findPerpendicularAngle` terminates without an iteration cap:
every golden-section step shrinks the bracket width by the exact factor
`1/goldenRatio`, so the loop condition `|b - a| > 1e-8` eventually
fails, and the returned value is the midpoint of the bracket at the
first stage where it fails. -/
theorem C8_findPerpendicularAngle_terminates (p : Params) :
    (∀ ab : ℝ × ℝ, (goldenStep p ab).2 - (goldenStep p ab).1 = (ab.2 - ab.1) / goldenRatio) ∧
    ∃ n : ℕ,
      ¬ |(goldenIter p n (perpInit p)).2 - (goldenIter p n (perpInit p)).1| > 1e-8 ∧
      (∀ m : ℕ, m < n → |(goldenIter p m (perpInit p)).2 - (goldenIter p m (perpInit p)).1| > 1e-8) ∧
      findPerpendicularAngle p =
        ((goldenIter p n (perpInit p)).1 + (goldenIter p n (perpInit p)).2) / 2 := by
  refine ⟨goldenStep_width p, goldenExitStage p (perpInit p), ?_, ?_, rfl⟩
  · have hnn : 0 ≤ (perpInit p).2 - (perpInit p).1 := by
      unfold perpInit
      simp only
      have := min_le_max (a := fullyExtendedAngle p) (b := fullyCompressedAngle p)
      linarith
    exact Nat.sInf_mem (goldenIter_exit_exists p (perpInit p) hnn)
  · intro m hm
    by_contra hc
    exact absurd (Nat.sInf_le hc) (not_le.mpr hm)

/-! ### Lipschitz bound and convergence of the bisection -/

theorem sqrt_add_sq_triangle (x1 y1 x2 y2 : ℝ) :
    Real.sqrt (x1 ^ 2 + y1 ^ 2) ≤
      Real.sqrt (x2 ^ 2 + y2 ^ 2) + Real.sqrt ((x1 - x2) ^ 2 + (y1 - y2) ^ 2) := by
  have hB : (0 : ℝ) ≤ x2 ^ 2 + y2 ^ 2 := by positivity
  have hC : (0 : ℝ) ≤ (x1 - x2) ^ 2 + (y1 - y2) ^ 2 := by positivity
  have hsB := Real.sq_sqrt hB
  have hsC := Real.sq_sqrt hC
  have hBnn := Real.sqrt_nonneg (x2 ^ 2 + y2 ^ 2)
  have hCnn := Real.sqrt_nonneg ((x1 - x2) ^ 2 + (y1 - y2) ^ 2)
  have hs2 : (Real.sqrt (x2 ^ 2 + y2 ^ 2) * Real.sqrt ((x1 - x2) ^ 2 + (y1 - y2) ^ 2)) ^ 2 =
      (x2 ^ 2 + y2 ^ 2) * ((x1 - x2) ^ 2 + (y1 - y2) ^ 2) := by
    rw [mul_pow, hsB, hsC]
  have hCS : (x2 * (x1 - x2) + y2 * (y1 - y2)) ^ 2 ≤
      (x2 ^ 2 + y2 ^ 2) * ((x1 - x2) ^ 2 + (y1 - y2) ^ 2) := by
    nlinarith [sq_nonneg (x2 * (y1 - y2) - y2 * (x1 - x2))]
  have hdot : x2 * (x1 - x2) + y2 * (y1 - y2) ≤
      Real.sqrt (x2 ^ 2 + y2 ^ 2) * Real.sqrt ((x1 - x2) ^ 2 + (y1 - y2) ^ 2) := by
    nlinarith [mul_nonneg hBnn hCnn,
      sq_nonneg (x2 * (x1 - x2) + y2 * (y1 - y2) -
        Real.sqrt (x2 ^ 2 + y2 ^ 2) * Real.sqrt ((x1 - x2) ^ 2 + (y1 - y2) ^ 2)),
      sq_nonneg (x2 * (x1 - x2) + y2 * (y1 - y2) +
        Real.sqrt (x2 ^ 2 + y2 ^ 2) * Real.sqrt ((x1 - x2) ^ 2 + (y1 - y2) ^ 2))]
  have hle : x1 ^ 2 + y1 ^ 2 ≤
      (Real.sqrt (x2 ^ 2 + y2 ^ 2) + Real.sqrt ((x1 - x2) ^ 2 + (y1 - y2) ^ 2)) ^ 2 := by
    nlinarith
  calc Real.sqrt (x1 ^ 2 + y1 ^ 2)
      ≤ Real.sqrt ((Real.sqrt (x2 ^ 2 + y2 ^ 2) +
          Real.sqrt ((x1 - x2) ^ 2 + (y1 - y2) ^ 2)) ^ 2) := Real.sqrt_le_sqrt hle
    _ = _ := Real.sqrt_sq (by positivity)

theorem cos_sin_chord_le (a b : ℝ) :
    (Real.cos a - Real.cos b) ^ 2 + (Real.sin a - Real.sin b) ^ 2 ≤ (a - b) ^ 2 := by
  have h1 : (Real.cos a - Real.cos b) ^ 2 + (Real.sin a - Real.sin b) ^ 2 =
      2 - 2 * Real.cos (a - b) := by
    rw [Real.cos_sub]
    nlinarith [Real.sin_sq_add_cos_sq a, Real.sin_sq_add_cos_sq b]
  rw [h1]
  nlinarith [Real.one_sub_sq_div_two_le_cos (x := a - b)]

theorem shockLength_lipschitz (p : Params) (a b : ℝ) :
    |shockLength a p - shockLength b p| ≤ |p.lowerMountDist| * |a - b| := by
  have hD : Real.sqrt ((p.lowerMountDist * Real.cos a - p.lowerMountDist * Real.cos b) ^ 2 +
      (p.lowerMountDist * Real.sin a - p.lowerMountDist * Real.sin b) ^ 2) ≤
      |p.lowerMountDist| * |a - b| := by
    have hfac : (p.lowerMountDist * Real.cos a - p.lowerMountDist * Real.cos b) ^ 2 +
        (p.lowerMountDist * Real.sin a - p.lowerMountDist * Real.sin b) ^ 2 =
        p.lowerMountDist ^ 2 *
          ((Real.cos a - Real.cos b) ^ 2 + (Real.sin a - Real.sin b) ^ 2) := by ring
    have hchord := cos_sin_chord_le a b
    calc Real.sqrt ((p.lowerMountDist * Real.cos a - p.lowerMountDist * Real.cos b) ^ 2 +
          (p.lowerMountDist * Real.sin a - p.lowerMountDist * Real.sin b) ^ 2)
        ≤ Real.sqrt (p.lowerMountDist ^ 2 * (a - b) ^ 2) := by
          apply Real.sqrt_le_sqrt
          rw [hfac]
          nlinarith [sq_nonneg p.lowerMountDist]
      _ = |p.lowerMountDist| * |a - b| := by
          rw [show p.lowerMountDist ^ 2 * (a - b) ^ 2 = (p.lowerMountDist * (a - b)) ^ 2 by ring,
            Real.sqrt_sq_eq_abs, abs_mul]
  have tri1 := sqrt_add_sq_triangle
    (p.upperMountX - p.lowerMountDist * Real.cos a)
    (p.upperMountY - p.lowerMountDist * Real.sin a)
    (p.upperMountX - p.lowerMountDist * Real.cos b)
    (p.upperMountY - p.lowerMountDist * Real.sin b)
  have tri2 := sqrt_add_sq_triangle
    (p.upperMountX - p.lowerMountDist * Real.cos b)
    (p.upperMountY - p.lowerMountDist * Real.sin b)
    (p.upperMountX - p.lowerMountDist * Real.cos a)
    (p.upperMountY - p.lowerMountDist * Real.sin a)
  have e1 : ((p.upperMountX - p.lowerMountDist * Real.cos a) -
        (p.upperMountX - p.lowerMountDist * Real.cos b)) ^ 2 +
      ((p.upperMountY - p.lowerMountDist * Real.sin a) -
        (p.upperMountY - p.lowerMountDist * Real.sin b)) ^ 2 =
      (p.lowerMountDist * Real.cos a - p.lowerMountDist * Real.cos b) ^ 2 +
      (p.lowerMountDist * Real.sin a - p.lowerMountDist * Real.sin b) ^ 2 := by ring
  have e2 : ((p.upperMountX - p.lowerMountDist * Real.cos b) -
        (p.upperMountX - p.lowerMountDist * Real.cos a)) ^ 2 +
      ((p.upperMountY - p.lowerMountDist * Real.sin b) -
        (p.upperMountY - p.lowerMountDist * Real.sin a)) ^ 2 =
      (p.lowerMountDist * Real.cos a - p.lowerMountDist * Real.cos b) ^ 2 +
      (p.lowerMountDist * Real.sin a - p.lowerMountDist * Real.sin b) ^ 2 := by ring
  rw [e1] at tri1
  rw [e2] at tri2
  have hla : shockLength a p = Real.sqrt ((p.upperMountX - p.lowerMountDist * Real.cos a) ^ 2 +
      (p.upperMountY - p.lowerMountDist * Real.sin a) ^ 2) := rfl
  have hlb : shockLength b p = Real.sqrt ((p.upperMountX - p.lowerMountDist * Real.cos b) ^ 2 +
      (p.upperMountY - p.lowerMountDist * Real.sin b) ^ 2) := rfl
  rw [abs_sub_le_iff, hla, hlb]
  constructor <;> linarith

theorem continuous_shockLength (p : Params) : Continuous fun theta => shockLength theta p := by
  unfold shockLength lowerMountPosition
  have h : Continuous fun theta : ℝ =>
      (p.upperMountX - p.lowerMountDist * Real.cos theta) ^ 2 +
      (p.upperMountY - p.lowerMountDist * Real.sin theta) ^ 2 := by fun_prop
  exact Real.continuous_sqrt.comp h

theorem findAngleLoop_conv (t : ℝ) (p : Params) (lenLo : ℝ) (hne : lenLo ≠ t) :
    ∀ (fuel : ℕ) (lo hi : ℝ), lo ≤ hi →
      0 ≤ (shockLength lo p - t) * (lenLo - t) →
      (shockLength hi p - t) * (lenLo - t) ≤ 0 →
      |shockLength (findAngleLoop t p lenLo fuel lo hi) p - t| ≤
        max 0.001 (|p.lowerMountDist| * ((hi - lo) / 2 ^ fuel)) := by
  intro fuel
  induction fuel with
  | zero =>
    intro lo hi hle hlo hhi
    have hroot : ∃ xi ∈ Set.Icc lo hi, shockLength xi p = t := by
      rcases lt_or_gt_of_ne hne with hs | hs
      · have h1 : shockLength lo p ≤ t := by
          by_contra hc
          push_neg at hc
          nlinarith
        have h2 : t ≤ shockLength hi p := by
          by_contra hc
          push_neg at hc
          nlinarith
        have := intermediate_value_Icc hle ((continuous_shockLength p).continuousOn)
        obtain ⟨xi, hxi, hfxi⟩ := this ⟨h1, h2⟩
        exact ⟨xi, hxi, hfxi⟩
      · have h1 : t ≤ shockLength lo p := by
          by_contra hc
          push_neg at hc
          nlinarith
        have h2 : shockLength hi p ≤ t := by
          by_contra hc
          push_neg at hc
          nlinarith
        have := intermediate_value_Icc' hle ((continuous_shockLength p).continuousOn)
        obtain ⟨xi, hxi, hfxi⟩ := this ⟨h2, h1⟩
        exact ⟨xi, hxi, hfxi⟩
    obtain ⟨xi, ⟨hxi1, hxi2⟩, hfxi⟩ := hroot
    have hmid : findAngleLoop t p lenLo 0 lo hi = (lo + hi) / 2 := rfl
    rw [hmid]
    apply le_max_of_le_right
    calc |shockLength ((lo + hi) / 2) p - t|
        = |shockLength ((lo + hi) / 2) p - shockLength xi p| := by rw [hfxi]
      _ ≤ |p.lowerMountDist| * |(lo + hi) / 2 - xi| := shockLength_lipschitz p _ _
      _ ≤ |p.lowerMountDist| * ((hi - lo) / 2 ^ 0) := by
          apply mul_le_mul_of_nonneg_left _ (abs_nonneg _)
          rw [pow_zero, div_one, abs_le]
          constructor <;> linarith
  | succ n ih =>
    intro lo hi hle hlo hhi
    have hmlo : lo ≤ (lo + hi) / 2 := by linarith
    have hmhi : (lo + hi) / 2 ≤ hi := by linarith
    simp only [findAngleLoop]
    split_ifs with htol hsign
    · exact le_max_of_le_left (le_of_lt htol)
    · have h := ih lo ((lo + hi) / 2) hmlo hlo (le_of_lt hsign)
      refine h.trans (le_of_eq ?_)
      congr 1
      rw [show (lo + hi) / 2 - lo = (hi - lo) / 2 by ring, div_div, ← pow_succ']
    · push_neg at hsign
      have h := ih ((lo + hi) / 2) hi hmhi hsign hhi
      refine h.trans (le_of_eq ?_)
      congr 1
      rw [show hi - (lo + hi) / 2 = (hi - lo) / 2 by ring, div_div, ← pow_succ']

theorem findAngle_conv (t : ℝ) (p : Params)
    (hbr : (t - shockLength (-(π / 2)) p) * (t - shockLength (π / 4) p) < 0) :
    |shockLength (findAngleForShockLength t p) p - t| ≤
      max 0.001 (|p.lowerMountDist| * ((π / 4 - -(π / 2)) / 2 ^ 100)) := by
  have hne : shockLength (-(π / 2)) p ≠ t := by
    intro h
    rw [h] at hbr
    simp at hbr
  unfold findAngleForShockLength
  rw [if_neg (not_lt.mpr (le_of_lt hbr))]
  apply findAngleLoop_conv t p _ hne 100 _ _ (by linarith [Real.pi_pos])
  · nlinarith
  · nlinarith

theorem findAngle_tol (t : ℝ) (p : Params)
    (hbr : (t - shockLength (-(π / 2)) p) * (t - shockLength (π / 4) p) < 0)
    (hR : |p.lowerMountDist| ≤ 1e6) :
    |shockLength (findAngleForShockLength t p) p - t| ≤ 0.001 := by
  have h := findAngle_conv t p hbr
  have hsmall : |p.lowerMountDist| * ((π / 4 - -(π / 2)) / 2 ^ 100) ≤ 0.001 := by
    have hpi4 := Real.pi_le_four
    have hpipos := Real.pi_pos
    have hpow : (0 : ℝ) < 2 ^ 100 := by positivity
    have h3 : (π / 4 - -(π / 2)) / 2 ^ 100 ≤ 3 / 2 ^ 100 :=
      (div_le_div_iff_of_pos_right hpow).mpr (by linarith)
    calc |p.lowerMountDist| * ((π / 4 - -(π / 2)) / 2 ^ 100)
        ≤ 1e6 * (3 / 2 ^ 100) :=
          mul_le_mul hR h3 (div_nonneg (by linarith) (by positivity)) (by norm_num)
      _ ≤ 0.001 := by norm_num
  exact h.trans (max_le (by norm_num) hsmall)

/-- C1 (amended): for parameter sets whose travel-limit targets are both
strictly bracketed by the shock length on `[-pi/2, pi/4]` and whose
lower-mount radius is at most `10^6` mm in magnitude, the travel-limit
round trip holds: `shockCompression(fullyExtendedAngle(p), p)` is within
0.1 mm of 0 and `shockCompression(fullyCompressedAngle(p), p)` is within
0.5 mm of `shockStroke`. -/
theorem C1_travel_limit_round_trip_amended (p : Params)
    (hbr1 : (p.shockFreeLength - shockLength (-(π / 2)) p) *
      (p.shockFreeLength - shockLength (π / 4) p) < 0)
    (hbr2 : (p.shockFreeLength - p.shockStroke - shockLength (-(π / 2)) p) *
      (p.shockFreeLength - p.shockStroke - shockLength (π / 4) p) < 0)
    (hR : |p.lowerMountDist| ≤ 1e6) :
    |shockCompression (fullyExtendedAngle p) p| ≤ 0.1 ∧
    |shockCompression (fullyCompressedAngle p) p - p.shockStroke| ≤ 0.5 := by
  have h1 := findAngle_tol p.shockFreeLength p hbr1 hR
  have h2 := findAngle_tol (p.shockFreeLength - p.shockStroke) p hbr2 hR
  constructor
  · have he : shockCompression (fullyExtendedAngle p) p =
        -(shockLength (findAngleForShockLength p.shockFreeLength p) p - p.shockFreeLength) := by
      unfold shockCompression fullyExtendedAngle
      ring
    rw [he, abs_neg]
    linarith
  · have hc : shockCompression (fullyCompressedAngle p) p - p.shockStroke =
        -(shockLength (findAngleForShockLength (p.shockFreeLength - p.shockStroke) p) p -
          (p.shockFreeLength - p.shockStroke)) := by
      unfold shockCompression fullyCompressedAngle
      ring
    rw [hc, abs_neg]
    linarith

theorem geom_shockLength_pi_div_four_lt (freeLength stroke rate load preload : ℝ) :
    shockLength (π / 4) (geomParams freeLength stroke rate load preload) < 225 := by
  rw [shockLength_geom, Real.sin_pi_div_four]
  rw [Real.sqrt_lt' (by norm_num : (0 : ℝ) < 225)]
  nlinarith [Real.sq_sqrt (by norm_num : (0 : ℝ) ≤ 2), Real.sqrt_nonneg 2]

theorem C1_travel_limit_round_trip_amended_witness :
    ((geomParams 280 55 600 200 0).shockFreeLength -
        shockLength (-(π / 2)) (geomParams 280 55 600 200 0)) *
      ((geomParams 280 55 600 200 0).shockFreeLength -
        shockLength (π / 4) (geomParams 280 55 600 200 0)) < 0 ∧
    ((geomParams 280 55 600 200 0).shockFreeLength - (geomParams 280 55 600 200 0).shockStroke -
        shockLength (-(π / 2)) (geomParams 280 55 600 200 0)) *
      ((geomParams 280 55 600 200 0).shockFreeLength - (geomParams 280 55 600 200 0).shockStroke -
        shockLength (π / 4) (geomParams 280 55 600 200 0)) < 0 ∧
    |(geomParams 280 55 600 200 0).lowerMountDist| ≤ 1e6 ∧
    |shockCompression (fullyExtendedAngle (geomParams 280 55 600 200 0))
        (geomParams 280 55 600 200 0)| ≤ 0.1 ∧
    |shockCompression (fullyCompressedAngle (geomParams 280 55 600 200 0))
        (geomParams 280 55 600 200 0) - (geomParams 280 55 600 200 0).shockStroke| ≤ 0.5 := by
  have hlen4 := geom_shockLength_pi_div_four_lt 280 55 600 200 0
  have hlen4nn : 0 ≤ shockLength (π / 4) (geomParams 280 55 600 200 0) := by
    rw [shockLength_geom]
    exact Real.sqrt_nonneg _
  have hbr1 : ((geomParams 280 55 600 200 0).shockFreeLength -
      shockLength (-(π / 2)) (geomParams 280 55 600 200 0)) *
      ((geomParams 280 55 600 200 0).shockFreeLength -
      shockLength (π / 4) (geomParams 280 55 600 200 0)) < 0 := by
    rw [shockLength_geom_neg_pi_div_two]
    show ((280 : ℝ) - 500) * (280 - shockLength (π / 4) (geomParams 280 55 600 200 0)) < 0
    nlinarith
  have hbr2 : ((geomParams 280 55 600 200 0).shockFreeLength -
      (geomParams 280 55 600 200 0).shockStroke -
      shockLength (-(π / 2)) (geomParams 280 55 600 200 0)) *
      ((geomParams 280 55 600 200 0).shockFreeLength -
      (geomParams 280 55 600 200 0).shockStroke -
      shockLength (π / 4) (geomParams 280 55 600 200 0)) < 0 := by
    rw [shockLength_geom_neg_pi_div_two]
    show ((280 : ℝ) - 55 - 500) * (280 - 55 - shockLength (π / 4) (geomParams 280 55 600 200 0)) < 0
    nlinarith
  have hR : |(geomParams 280 55 600 200 0).lowerMountDist| ≤ 1e6 := by
    show |(250 : ℝ)| ≤ 1e6
    rw [abs_of_nonneg] <;> norm_num
  obtain ⟨hA, hB⟩ := C1_travel_limit_round_trip_amended (geomParams 280 55 600 200 0) hbr1 hbr2 hR
  exact ⟨hbr1, hbr2, hR, hA, hB⟩

/-! ### Unfolding and invariance lemmas for the sag scan -/

/-- The equilibrium condition tested by `computeSag`'s loop at a scanned
angle: positive spring force and spring torque at least the load torque. -/
noncomputable def sagTrigger (theta : ℝ) (p : Params) : Prop :=
  0 < springForce theta p ∧ loadTorqueAt theta p ≤ springTorqueAt theta p

theorem sagScan_succ_break (p : Params) (c s e : ℝ) (fuel : ℕ) (theta : ℝ)
    (h : (s > 0 ∧ theta + s > c) ∨ (s < 0 ∧ theta + s < c)) :
    sagScan p c s e (fuel + 1) theta = sagBottom p c e := by
  simp only [sagScan]
  rcases h with h | h
  · rw [if_pos h]
  · rcases Classical.em (s > 0 ∧ theta + s > c) with h1 | h1
    · rw [if_pos h1]
    · rw [if_neg h1, if_pos h]

theorem sagScan_succ_trigger (p : Params) (c s e : ℝ) (fuel : ℕ) (theta : ℝ)
    (hb1 : ¬(s > 0 ∧ theta + s > c)) (hb2 : ¬(s < 0 ∧ theta + s < c))
    (htr : sagTrigger (theta + s) p) :
    sagScan p c s e (fuel + 1) theta =
      ⟨theta + s, (axlePosition (theta + s) p.swingarmLength).2 - e⟩ := by
  simp only [sagScan]
  rw [if_neg hb1, if_neg hb2, if_neg (not_le.mpr htr.1), if_pos htr.2]

theorem sagScan_succ_recurse (p : Params) (c s e : ℝ) (fuel : ℕ) (theta : ℝ)
    (hb1 : ¬(s > 0 ∧ theta + s > c)) (hb2 : ¬(s < 0 ∧ theta + s < c))
    (htr : ¬ sagTrigger (theta + s) p) :
    sagScan p c s e (fuel + 1) theta = sagScan p c s e fuel (theta + s) := by
  simp only [sagScan]
  rw [if_neg hb1, if_neg hb2]
  rcases Classical.em (springForce (theta + s) p ≤ 0) with hsf | hsf
  · rw [if_pos hsf]
  · rw [if_neg hsf]
    have : ¬ springTorqueAt (theta + s) p ≥ loadTorqueAt (theta + s) p := by
      intro hge
      exact htr ⟨not_le.mp hsf, hge⟩
    rw [if_neg this]

theorem sagScan_sagMM (p : Params) (c s e : ℝ) :
    ∀ (fuel : ℕ) (theta : ℝ),
      (sagScan p c s e fuel theta).sagMM =
        (axlePosition (sagScan p c s e fuel theta).angle p.swingarmLength).2 - e := by
  intro fuel
  induction fuel with
  | zero => intro theta; rfl
  | succ n ih =>
    intro theta
    simp only [sagScan]
    split_ifs <;> first | rfl | exact ih (theta + s)

theorem sagScan_no_trigger (p : Params) (c s e : ℝ) :
    ∀ (fuel : ℕ) (theta : ℝ),
      (∀ j : ℕ, 1 ≤ j → j ≤ fuel →
        (0 < s → theta + j * s ≤ c) → (s < 0 → c ≤ theta + j * s) →
        ¬ sagTrigger (theta + j * s) p) →
      sagScan p c s e fuel theta = sagBottom p c e := by
  intro fuel
  induction fuel with
  | zero => intro theta _; rfl
  | succ n ih =>
    intro theta H
    rcases Classical.em ((s > 0 ∧ theta + s > c) ∨ (s < 0 ∧ theta + s < c)) with hb | hb
    · exact sagScan_succ_break p c s e n theta hb
    · rw [not_or] at hb
      obtain ⟨hb1, hb2⟩ := hb
      have hnt : ¬ sagTrigger (theta + s) p := by
        have := H 1 (le_refl 1) (by omega) (fun hs => by
          push_neg at hb1
          push_cast
          rcases Classical.em (s > 0) with h | h
          · linarith [hb1 h]
          · exact absurd hs h) (fun hs => by
          push_neg at hb2
          push_cast
          linarith [hb2 hs])
        simpa using this
      rw [sagScan_succ_recurse p c s e n theta hb1 hb2 hnt]
      apply ih
      intro j hj1 hj2 hr1 hr2
      have heq : theta + s + j * s = theta + (j + 1 : ℕ) * s := by push_cast; ring
      rw [heq]
      apply H (j + 1) (by omega) (by omega)
      · intro hs
        have := hr1 hs
        rw [heq] at this
        exact this
      · intro hs
        have := hr2 hs
        rw [heq] at this
        exact this

theorem sagScan_angle_le_of_trigger_imp (p1 p2 : Params) (c s e1 e2 : ℝ) (hs : 0 < s)
    (himp : ∀ theta : ℝ, sagTrigger theta p1 → sagTrigger theta p2) :
    ∀ (fuel : ℕ) (theta : ℝ), theta ≤ c →
      (sagScan p2 c s e2 fuel theta).angle ≤ (sagScan p1 c s e1 fuel theta).angle := by
  intro fuel
  induction fuel with
  | zero => intro theta _; exact le_refl c
  | succ n ih =>
    intro theta htc
    rcases Classical.em (s > 0 ∧ theta + s > c) with hb | hb
    · rw [sagScan_succ_break p1 c s e1 n theta (Or.inl hb),
        sagScan_succ_break p2 c s e2 n theta (Or.inl hb)]
      exact le_refl c
    · have hb2 : ¬(s < 0 ∧ theta + s < c) := by
        intro h
        linarith [h.1]
      have hin : theta + s ≤ c := by
        rcases Classical.em (theta + s ≤ c) with h | h
        · exact h
        · exact absurd ⟨hs, not_le.mp h⟩ hb
      rcases Classical.em (sagTrigger (theta + s) p1) with ht1 | ht1
      · rw [sagScan_succ_trigger p1 c s e1 n theta hb hb2 ht1,
          sagScan_succ_trigger p2 c s e2 n theta hb hb2 (himp _ ht1)]
      · rw [sagScan_succ_recurse p1 c s e1 n theta hb hb2 ht1]
        rcases Classical.em (sagTrigger (theta + s) p2) with ht2 | ht2
        · rw [sagScan_succ_trigger p2 c s e2 n theta hb hb2 ht2]
          exact (sagScan_angle_bounds_pos p1 c s e1 hs n (theta + s) hin).1
        · rw [sagScan_succ_recurse p2 c s e2 n theta hb hb2 ht2]
          exact ih (theta + s) hin

/-- C5: if the sag scan passes the fully-compressed limit or exhausts
its 200000-iteration cap without any scanned step satisfying
`springTorque >= loadTorque`, then `computeSag` returns the
fully-compressed angle with `sagMM = axleY(comp) - axleY(ext)` — a
defined terminal result, not an error. -/
theorem C5_bottom_out_result (p : Params)
    (H : ∀ k : ℕ, 1 ≤ k → k ≤ 200000 →
      (0 < sagStep p → fullyExtendedAngle p + k * sagStep p ≤ fullyCompressedAngle p) →
      (sagStep p < 0 → fullyCompressedAngle p ≤ fullyExtendedAngle p + k * sagStep p) →
      ¬ loadTorqueAt (fullyExtendedAngle p + k * sagStep p) p ≤
          springTorqueAt (fullyExtendedAngle p + k * sagStep p) p) :
    computeSag p = ⟨fullyCompressedAngle p,
      (axlePosition (fullyCompressedAngle p) p.swingarmLength).2 -
        (axlePosition (fullyExtendedAngle p) p.swingarmLength).2⟩ := by
  unfold computeSag
  exact sagScan_no_trigger p _ _ _ 200000 (fullyExtendedAngle p)
    (fun j hj1 hj2 hr1 hr2 htr => H j hj1 hj2 hr1 hr2 htr.2)

/-! ### Locating the travel-limit angles of the witness geometry -/

theorem geom_len_anti (freeLength stroke rate load preload : ℝ) {a b : ℝ}
    (ha : -(π / 2) ≤ a) (hb : b ≤ π / 4) (hab : a ≤ b) :
    shockLength b (geomParams freeLength stroke rate load preload) ≤
      shockLength a (geomParams freeLength stroke rate load preload) := by
  rw [shockLength_geom, shockLength_geom]
  apply Real.sqrt_le_sqrt
  have hpi := Real.pi_pos
  have hsin : Real.sin a ≤ Real.sin b := by
    apply Real.strictMonoOn_sin.monotoneOn ⟨ha, by linarith⟩ ⟨by linarith, by linarith⟩ hab
  nlinarith

theorem geom_bracket_280 (rate load preload : ℝ) :
    ((280 : ℝ) - shockLength (-(π / 2)) (geomParams 280 55 rate load preload)) *
      (280 - shockLength (π / 4) (geomParams 280 55 rate load preload)) < 0 := by
  rw [shockLength_geom_neg_pi_div_two]
  nlinarith [geom_shockLength_pi_div_four_lt 280 55 rate load preload,
    Real.sqrt_nonneg (125000 * (1 - Real.sin (π / 4))),
    (shockLength_geom 280 55 rate load preload (π / 4)).symm ▸
      Real.sqrt_nonneg (125000 * (1 - Real.sin (π / 4)))]

theorem geom_bracket_225 (rate load preload : ℝ) :
    ((225 : ℝ) - shockLength (-(π / 2)) (geomParams 280 55 rate load preload)) *
      (225 - shockLength (π / 4) (geomParams 280 55 rate load preload)) < 0 := by
  rw [shockLength_geom_neg_pi_div_two]
  have h4 := geom_shockLength_pi_div_four_lt 280 55 rate load preload
  have hnn : 0 ≤ shockLength (π / 4) (geomParams 280 55 rate load preload) := by
    rw [shockLength_geom]
    exact Real.sqrt_nonneg _
  nlinarith

theorem geom_len_03_gt (rate load preload : ℝ) :
    (280.001 : ℝ) < shockLength 0.3 (geomParams 280 55 rate load preload) := by
  rw [shockLength_geom, Real.lt_sqrt (by norm_num)]
  nlinarith [Real.sin_lt (show (0 : ℝ) < 0.3 by norm_num)]

theorem geom_len_05_lt (rate load preload : ℝ) :
    shockLength 0.5 (geomParams 280 55 rate load preload) < 279.999 := by
  rw [shockLength_geom, Real.sqrt_lt' (by norm_num)]
  nlinarith [Real.sin_gt_sub_cube (show (0 : ℝ) < 0.5 by norm_num) (by norm_num)]

theorem geom_len_05_gt (rate load preload : ℝ) :
    (225.001 : ℝ) < shockLength 0.5 (geomParams 280 55 rate load preload) := by
  rw [shockLength_geom, Real.lt_sqrt (by norm_num)]
  nlinarith [Real.sin_lt (show (0 : ℝ) < 0.5 by norm_num)]

theorem geom_len_075_lt (rate load preload : ℝ) :
    shockLength 0.75 (geomParams 280 55 rate load preload) < 224.999 := by
  rw [shockLength_geom, Real.sqrt_lt' (by norm_num)]
  nlinarith [Real.sin_gt_sub_cube (show (0 : ℝ) < 0.75 by norm_num) (by norm_num)]

theorem geom_lowerMountDist_le (freeLength stroke rate load preload : ℝ) :
    |(geomParams freeLength stroke rate load preload).lowerMountDist| ≤ 1e6 := by
  show |(250 : ℝ)| ≤ 1e6
  rw [abs_of_nonneg] <;> norm_num

theorem geom_ext_bounds (rate load preload : ℝ) :
    0.3 < fullyExtendedAngle (geomParams 280 55 rate load preload) ∧
    fullyExtendedAngle (geomParams 280 55 rate load preload) < 0.5 := by
  have htol := findAngle_tol 280 (geomParams 280 55 rate load preload)
    (geom_bracket_280 rate load preload) (geom_lowerMountDist_le 280 55 rate load preload)
  have hmem := findAngleForShockLength_mem 280 (geomParams 280 55 rate load preload)
  have habs := abs_le.mp htol
  have hpi3 := Real.pi_gt_three
  have hext : fullyExtendedAngle (geomParams 280 55 rate load preload) =
      findAngleForShockLength 280 (geomParams 280 55 rate load preload) := rfl
  rw [hext]
  constructor
  · by_contra hc
    push_neg at hc
    have := geom_len_anti 280 55 rate load preload hmem.1 (by linarith) hc
    linarith [geom_len_03_gt rate load preload]
  · by_contra hc
    push_neg at hc
    have := geom_len_anti 280 55 rate load preload (by linarith) hmem.2 hc
    linarith [geom_len_05_lt rate load preload]

theorem geom_comp_bounds (rate load preload : ℝ) :
    0.5 < fullyCompressedAngle (geomParams 280 55 rate load preload) ∧
    fullyCompressedAngle (geomParams 280 55 rate load preload) < 0.75 := by
  have htol := findAngle_tol 225 (geomParams 280 55 rate load preload)
    (geom_bracket_225 rate load preload) (geom_lowerMountDist_le 280 55 rate load preload)
  have hmem := findAngleForShockLength_mem 225 (geomParams 280 55 rate load preload)
  have habs := abs_le.mp htol
  have hpi3 := Real.pi_gt_three
  have hcomp : fullyCompressedAngle (geomParams 280 55 rate load preload) =
      findAngleForShockLength 225 (geomParams 280 55 rate load preload) := by
    show findAngleForShockLength ((280 : ℝ) - 55) _ = _
    norm_num
  rw [hcomp]
  constructor
  · by_contra hc
    push_neg at hc
    have := geom_len_anti 280 55 rate load preload hmem.1 (by linarith) hc
    linarith [geom_len_05_gt rate load preload]
  · by_contra hc
    push_neg at hc
    have := geom_len_anti 280 55 rate load preload (by linarith) hmem.2 hc
    linarith [geom_len_075_lt rate load preload]

theorem geom_ext_lt_comp (rate load preload : ℝ) :
    fullyExtendedAngle (geomParams 280 55 rate load preload) <
      fullyCompressedAngle (geomParams 280 55 rate load preload) :=
  lt_trans (geom_ext_bounds rate load preload).2 (geom_comp_bounds rate load preload).1

/-! ### A load so large the suspension bottoms out -/

theorem geom_no_trigger (rate load preload theta : ℝ)
    (hrate0 : 0 ≤ rate) (hrate : rate ≤ 601) (hload : 1e9 ≤ load) (hpre : preload ≤ 0)
    (h1 : 0.3 ≤ theta) (h2 : theta ≤ 0.75) :
    springTorqueAt theta (geomParams 280 55 rate load preload) <
      loadTorqueAt theta (geomParams 280 55 rate load preload) := by
  have hθpos : (0 : ℝ) < theta := by linarith
  have hsinlt : Real.sin theta < 0.75 := lt_of_lt_of_le (Real.sin_lt hθpos) h2
  have hsinle1 : Real.sin theta ≤ 1 := Real.sin_le_one theta
  have hlen_eq : shockLength theta (geomParams 280 55 rate load preload) =
      Real.sqrt (125000 * (1 - Real.sin theta)) := shockLength_geom _ _ _ _ _ _
  have hlen_gt : (176 : ℝ) < shockLength theta (geomParams 280 55 rate load preload) := by
    rw [hlen_eq, Real.lt_sqrt (by norm_num)]
    nlinarith
  have hlen_pos : (0 : ℝ) < shockLength theta (geomParams 280 55 rate load preload) := by
    linarith
  have hcos_ge : (0.71875 : ℝ) ≤ Real.cos theta := by
    have := Real.one_sub_sq_div_two_le_cos (x := theta)
    nlinarith
  have hcos_le1 : Real.cos theta ≤ 1 := Real.cos_le_one theta
  have hsf_nn : 0 ≤ springForce theta (geomParams 280 55 rate load preload) :=
    mul_nonneg hrate0 (le_max_left _ _)
  have hsf_le : springForce theta (geomParams 280 55 rate load preload) ≤ 601 * (280 / 25.4) := by
    have hmax : max 0 ((shockCompression theta (geomParams 280 55 rate load preload) +
        (geomParams 280 55 rate load preload).preload) / 25.4) ≤ 280 / 25.4 := by
      apply max_le (by norm_num)
      show (280 - shockLength theta (geomParams 280 55 rate load preload) + preload) / 25.4 ≤
        280 / 25.4
      apply (div_le_div_iff_of_pos_right (by norm_num : (0 : ℝ) < 25.4)).mpr
      linarith
    unfold springForce
    exact mul_le_mul hrate hmax (le_max_left _ _) (by norm_num)
  have hcross : (lowerMountPosition theta
        (geomParams 280 55 rate load preload).lowerMountDist).1 *
        (shockUnit theta (geomParams 280 55 rate load preload)).2 -
      (lowerMountPosition theta (geomParams 280 55 rate load preload).lowerMountDist).2 *
        (shockUnit theta (geomParams 280 55 rate load preload)).1 =
      62500 * Real.cos theta / shockLength theta (geomParams 280 55 rate load preload) := by
    unfold shockUnit lowerMountPosition
    show (250 : ℝ) * Real.cos theta *
        ((250 - 250 * Real.sin theta) / shockLength theta (geomParams 280 55 rate load preload)) -
      250 * Real.sin theta *
        ((0 - 250 * Real.cos theta) / shockLength theta (geomParams 280 55 rate load preload)) = _
    field_simp
    ring
  have hA_nn : (0 : ℝ) ≤ 62500 * Real.cos theta /
      shockLength theta (geomParams 280 55 rate load preload) :=
    div_nonneg (by nlinarith) (le_of_lt hlen_pos)
  have hA_le : 62500 * Real.cos theta /
      shockLength theta (geomParams 280 55 rate load preload) ≤ 62500 / 176 := by
    apply div_le_div₀ (by norm_num) (by nlinarith) (by norm_num) (le_of_lt hlen_gt)
  have hst : springTorqueAt theta (geomParams 280 55 rate load preload) ≤
      (62500 / 176) * (601 * (280 / 25.4)) := by
    unfold springTorqueAt
    rw [hcross, abs_of_nonneg hA_nn]
    exact mul_le_mul hA_le hsf_le hsf_nn (by norm_num)
  have hlt : loadTorqueAt theta (geomParams 280 55 rate load preload) ≥
      1e9 * (550 * 0.71875) := by
    unfold loadTorqueAt axlePosition
    show 1e9 * (550 * 0.71875) ≤ load * |(550 : ℝ) * Real.cos theta|
    rw [abs_of_nonneg (by nlinarith : (0 : ℝ) ≤ 550 * Real.cos theta)]
    have h550 : (550 : ℝ) * 0.71875 ≤ 550 * Real.cos theta := by nlinarith
    calc (1e9 : ℝ) * (550 * 0.71875) ≤ load * (550 * 0.71875) := by nlinarith
      _ ≤ load * (550 * Real.cos theta) := by nlinarith
  calc springTorqueAt theta (geomParams 280 55 rate load preload)
      ≤ (62500 / 176) * (601 * (280 / 25.4)) := hst
    _ < 1e9 * (550 * 0.71875) := by norm_num
    _ ≤ loadTorqueAt theta (geomParams 280 55 rate load preload) := hlt

/-! ### Congruence of the root finder in the force-model fields -/

theorem findAngleLoop_congr (t lenLo : ℝ) (p1 p2 : Params)
    (h : ∀ theta : ℝ, shockLength theta p1 = shockLength theta p2) :
    ∀ (fuel : ℕ) (lo hi : ℝ),
      findAngleLoop t p1 lenLo fuel lo hi = findAngleLoop t p2 lenLo fuel lo hi := by
  intro fuel
  induction fuel with
  | zero => intro lo hi; rfl
  | succ n ih =>
    intro lo hi
    simp only [findAngleLoop, h]
    split_ifs
    · rfl
    · exact ih lo ((lo + hi) / 2)
    · exact ih ((lo + hi) / 2) hi

theorem findAngleForShockLength_congr (t : ℝ) (p1 p2 : Params)
    (h : ∀ theta : ℝ, shockLength theta p1 = shockLength theta p2) :
    findAngleForShockLength t p1 = findAngleForShockLength t p2 := by
  unfold findAngleForShockLength
  simp only [h]
  split_ifs
  · rfl
  · rfl
  · exact findAngleLoop_congr t _ p1 p2 h 100 _ _

theorem geom_shockLength_rate_irrel (freeLength stroke r1 l1 pre1 r2 l2 pre2 theta : ℝ) :
    shockLength theta (geomParams freeLength stroke r1 l1 pre1) =
      shockLength theta (geomParams freeLength stroke r2 l2 pre2) := by
  rw [shockLength_geom, shockLength_geom]

theorem geom_no_trigger_grid (rate load : ℝ) (hrate0 : 0 ≤ rate) (hrate : rate ≤ 601)
    (hload : 1e9 ≤ load) :
    ∀ k : ℕ, 1 ≤ k → k ≤ 200000 →
      (0 < sagStep (geomParams 280 55 rate load 0) →
        fullyExtendedAngle (geomParams 280 55 rate load 0) +
          k * sagStep (geomParams 280 55 rate load 0) ≤
          fullyCompressedAngle (geomParams 280 55 rate load 0)) →
      (sagStep (geomParams 280 55 rate load 0) < 0 →
        fullyCompressedAngle (geomParams 280 55 rate load 0) ≤
          fullyExtendedAngle (geomParams 280 55 rate load 0) +
          k * sagStep (geomParams 280 55 rate load 0)) →
      ¬ loadTorqueAt (fullyExtendedAngle (geomParams 280 55 rate load 0) +
            k * sagStep (geomParams 280 55 rate load 0)) (geomParams 280 55 rate load 0) ≤
          springTorqueAt (fullyExtendedAngle (geomParams 280 55 rate load 0) +
            k * sagStep (geomParams 280 55 rate load 0)) (geomParams 280 55 rate load 0) := by
  intro k hk1 hk2 hr1 hr2
  have hstep : sagStep (geomParams 280 55 rate load 0) = 0.0005 :=
    if_pos (geom_ext_lt_comp rate load 0)
  rw [hstep] at hr1 hr2 ⊢
  have hk1' : (1 : ℝ) ≤ (k : ℝ) := by exact_mod_cast hk1
  have hext := geom_ext_bounds rate load 0
  have hcomp := geom_comp_bounds rate load 0
  have hθlo : (0.3 : ℝ) ≤ fullyExtendedAngle (geomParams 280 55 rate load 0) + k * 0.0005 := by
    nlinarith [hext.1]
  have hθhi : fullyExtendedAngle (geomParams 280 55 rate load 0) + k * 0.0005 ≤ 0.75 := by
    have := hr1 (by norm_num)
    linarith [hcomp.2]
  exact not_le.mpr
    (geom_no_trigger rate load 0 (fullyExtendedAngle (geomParams 280 55 rate load 0) + k * 0.0005)
      hrate0 hrate hload (le_refl 0) hθlo hθhi)

theorem geom_bottoms_out (rate load : ℝ) (hrate0 : 0 ≤ rate) (hrate : rate ≤ 601)
    (hload : 1e9 ≤ load) :
    computeSag (geomParams 280 55 rate load 0) =
      ⟨fullyCompressedAngle (geomParams 280 55 rate load 0),
        (axlePosition (fullyCompressedAngle (geomParams 280 55 rate load 0))
          (geomParams 280 55 rate load 0).swingarmLength).2 -
        (axlePosition (fullyExtendedAngle (geomParams 280 55 rate load 0))
          (geomParams 280 55 rate load 0).swingarmLength).2⟩ := by
  unfold computeSag
  exact sagScan_no_trigger (geomParams 280 55 rate load 0) _ _ _ 200000
    (fullyExtendedAngle (geomParams 280 55 rate load 0))
    (fun j hj1 hj2 hr1 hr2 htr =>
      geom_no_trigger_grid rate load hrate0 hrate hload j hj1 hj2 hr1 hr2 htr.2)

theorem C5_bottom_out_result_witness :
    (∀ k : ℕ, 1 ≤ k → k ≤ 200000 →
      (0 < sagStep (geomParams 280 55 600 1e9 0) →
        fullyExtendedAngle (geomParams 280 55 600 1e9 0) +
          k * sagStep (geomParams 280 55 600 1e9 0) ≤
          fullyCompressedAngle (geomParams 280 55 600 1e9 0)) →
      (sagStep (geomParams 280 55 600 1e9 0) < 0 →
        fullyCompressedAngle (geomParams 280 55 600 1e9 0) ≤
          fullyExtendedAngle (geomParams 280 55 600 1e9 0) +
          k * sagStep (geomParams 280 55 600 1e9 0)) →
      ¬ loadTorqueAt (fullyExtendedAngle (geomParams 280 55 600 1e9 0) +
            k * sagStep (geomParams 280 55 600 1e9 0)) (geomParams 280 55 600 1e9 0) ≤
          springTorqueAt (fullyExtendedAngle (geomParams 280 55 600 1e9 0) +
            k * sagStep (geomParams 280 55 600 1e9 0)) (geomParams 280 55 600 1e9 0)) ∧
    computeSag (geomParams 280 55 600 1e9 0) =
      ⟨fullyCompressedAngle (geomParams 280 55 600 1e9 0),
        (axlePosition (fullyCompressedAngle (geomParams 280 55 600 1e9 0))
          (geomParams 280 55 600 1e9 0).swingarmLength).2 -
        (axlePosition (fullyExtendedAngle (geomParams 280 55 600 1e9 0))
          (geomParams 280 55 600 1e9 0).swingarmLength).2⟩ :=
  ⟨geom_no_trigger_grid 600 1e9 (by norm_num) (by norm_num) (by norm_num),
    C5_bottom_out_result (geomParams 280 55 600 1e9 0)
      (geom_no_trigger_grid 600 1e9 (by norm_num) (by norm_num) (by norm_num))⟩

theorem geom_ext_congr (rate load preload : ℝ) :
    fullyExtendedAngle (geomParams 280 55 rate load preload) =
      fullyExtendedAngle (geomParams 280 55 600 1e9 0) :=
  findAngleForShockLength_congr _ _ _
    (fun theta => geom_shockLength_rate_irrel 280 55 rate load preload 600 1e9 0 theta)

theorem geom_comp_congr (rate load preload : ℝ) :
    fullyCompressedAngle (geomParams 280 55 rate load preload) =
      fullyCompressedAngle (geomParams 280 55 600 1e9 0) :=
  findAngleForShockLength_congr _ _ _
    (fun theta => geom_shockLength_rate_irrel 280 55 rate load preload 600 1e9 0 theta)

theorem geom_bottom_sagMM (rate load : ℝ) (hrate0 : 0 ≤ rate) (hrate : rate ≤ 601)
    (hload : 1e9 ≤ load) :
    (computeSag (geomParams 280 55 rate load 0)).sagMM =
      550 * Real.sin (fullyCompressedAngle (geomParams 280 55 600 1e9 0)) -
      550 * Real.sin (fullyExtendedAngle (geomParams 280 55 600 1e9 0)) := by
  rw [geom_bottoms_out rate load hrate0 hrate hload]
  show (axlePosition (fullyCompressedAngle (geomParams 280 55 rate load 0))
      (geomParams 280 55 rate load 0).swingarmLength).2 -
    (axlePosition (fullyExtendedAngle (geomParams 280 55 rate load 0))
      (geomParams 280 55 rate load 0).swingarmLength).2 = _
  rw [geom_ext_congr rate load 0, geom_comp_congr rate load 0]
  rfl

/-! ### Weak monotonicity of the sag in spring rate and load -/

theorem sagTrigger_mono_rate (p : Params) (r1 r2 : ℝ) (hr : r1 ≤ r2) (theta : ℝ)
    (h : sagTrigger theta { p with springRate := r1 }) :
    sagTrigger theta { p with springRate := r2 } := by
  obtain ⟨hsf, htq⟩ := h
  have hM : (0 : ℝ) ≤ max 0 ((shockCompression theta p + p.preload) / 25.4) := le_max_left _ _
  have hsf1 : springForce theta { p with springRate := r1 } =
      r1 * max 0 ((shockCompression theta p + p.preload) / 25.4) := rfl
  have hsf2 : springForce theta { p with springRate := r2 } =
      r2 * max 0 ((shockCompression theta p + p.preload) / 25.4) := rfl
  rw [hsf1] at hsf
  have hsfle : r1 * max 0 ((shockCompression theta p + p.preload) / 25.4) ≤
      r2 * max 0 ((shockCompression theta p + p.preload) / 25.4) :=
    mul_le_mul_of_nonneg_right hr hM
  have habs : (0 : ℝ) ≤ |(lowerMountPosition theta p.lowerMountDist).1 * (shockUnit theta p).2 -
      (lowerMountPosition theta p.lowerMountDist).2 * (shockUnit theta p).1| := abs_nonneg _
  have ht1 : springTorqueAt theta { p with springRate := r1 } =
      |(lowerMountPosition theta p.lowerMountDist).1 * (shockUnit theta p).2 -
        (lowerMountPosition theta p.lowerMountDist).2 * (shockUnit theta p).1| *
      (r1 * max 0 ((shockCompression theta p + p.preload) / 25.4)) := rfl
  have ht2 : springTorqueAt theta { p with springRate := r2 } =
      |(lowerMountPosition theta p.lowerMountDist).1 * (shockUnit theta p).2 -
        (lowerMountPosition theta p.lowerMountDist).2 * (shockUnit theta p).1| *
      (r2 * max 0 ((shockCompression theta p + p.preload) / 25.4)) := rfl
  have hload : loadTorqueAt theta { p with springRate := r2 } =
      loadTorqueAt theta { p with springRate := r1 } := rfl
  constructor
  · rw [hsf2]
    linarith
  · rw [hload, ht2]
    rw [ht1] at htq
    calc loadTorqueAt theta { p with springRate := r1 }
        ≤ _ := htq
      _ ≤ _ := mul_le_mul_of_nonneg_left hsfle habs

theorem sagTrigger_anti_load (p : Params) (l1 l2 : ℝ) (hl : l1 ≤ l2) (theta : ℝ)
    (h : sagTrigger theta { p with load := l2 }) :
    sagTrigger theta { p with load := l1 } := by
  obtain ⟨hsf, htq⟩ := h
  refine ⟨hsf, ?_⟩
  have h1 : loadTorqueAt theta { p with load := l1 } =
      l1 * |(axlePosition theta p.swingarmLength).1| := rfl
  have h2 : loadTorqueAt theta { p with load := l2 } =
      l2 * |(axlePosition theta p.swingarmLength).1| := rfl
  rw [h1]
  rw [h2] at htq
  calc l1 * |(axlePosition theta p.swingarmLength).1|
      ≤ l2 * |(axlePosition theta p.swingarmLength).1| :=
        mul_le_mul_of_nonneg_right hl (abs_nonneg _)
    _ ≤ springTorqueAt theta { p with load := l2 } := htq
    _ = springTorqueAt theta { p with load := l1 } := rfl

theorem computeSag_sagMM_le (p1 p2 : Params)
    (hsw : p1.swingarmLength = p2.swingarmLength)
    (hswnn : 0 ≤ p1.swingarmLength)
    (hlen : ∀ theta : ℝ, shockLength theta p1 = shockLength theta p2)
    (hfree : p1.shockFreeLength = p2.shockFreeLength)
    (hstroke : p1.shockStroke = p2.shockStroke)
    (hle : fullyExtendedAngle p1 ≤ fullyCompressedAngle p1)
    (himp : ∀ theta : ℝ, sagTrigger theta p1 → sagTrigger theta p2) :
    (computeSag p2).sagMM ≤ (computeSag p1).sagMM := by
  have hext : fullyExtendedAngle p1 = fullyExtendedAngle p2 := by
    unfold fullyExtendedAngle
    rw [hfree]
    exact findAngleForShockLength_congr _ p1 p2 hlen
  have hcomp : fullyCompressedAngle p1 = fullyCompressedAngle p2 := by
    unfold fullyCompressedAngle
    rw [hfree, hstroke]
    exact findAngleForShockLength_congr _ p1 p2 hlen
  have hmemE := fullyExtendedAngle_mem p1
  have hmemC := fullyCompressedAngle_mem p1
  have hpi := Real.pi_pos
  by_cases hstrict : fullyExtendedAngle p1 < fullyCompressedAngle p1
  · have hstep1 : sagStep p1 = 0.0005 := if_pos hstrict
    have hstep2 : sagStep p2 = 0.0005 := if_pos (hext ▸ hcomp ▸ hstrict)
    unfold computeSag
    rw [hstep1, hstep2, ← hext, ← hcomp, ← hsw]
    rw [sagScan_sagMM, sagScan_sagMM, ← hsw]
    have hang := sagScan_angle_le_of_trigger_imp p1 p2 (fullyCompressedAngle p1) 0.0005
      (p1.swingarmLength * Real.sin (fullyExtendedAngle p1))
      (p1.swingarmLength * Real.sin (fullyExtendedAngle p1))
      (by norm_num) himp 200000 (fullyExtendedAngle p1) hle
    have hb1 := sagScan_angle_bounds_pos p1 (fullyCompressedAngle p1) 0.0005
      (p1.swingarmLength * Real.sin (fullyExtendedAngle p1))
      (by norm_num) 200000 (fullyExtendedAngle p1) hle
    have hb2 := sagScan_angle_bounds_pos p2 (fullyCompressedAngle p1) 0.0005
      (p1.swingarmLength * Real.sin (fullyExtendedAngle p1))
      (by norm_num) 200000 (fullyExtendedAngle p1) hle
    have hsin : Real.sin ((sagScan p2 (fullyCompressedAngle p1) 0.0005
        (p1.swingarmLength * Real.sin (fullyExtendedAngle p1)) 200000
        (fullyExtendedAngle p1)).angle) ≤
        Real.sin ((sagScan p1 (fullyCompressedAngle p1) 0.0005
        (p1.swingarmLength * Real.sin (fullyExtendedAngle p1)) 200000
        (fullyExtendedAngle p1)).angle) := by
      apply Real.strictMonoOn_sin.monotoneOn ⟨?_, ?_⟩ ⟨?_, ?_⟩ hang
      · linarith [hb2.1, hmemE.1]
      · linarith [hb2.2, hmemC.2]
      · linarith [hb1.1, hmemE.1]
      · linarith [hb1.2, hmemC.2]
    have hax : ∀ a : ℝ, (axlePosition a p1.swingarmLength).2 =
        p1.swingarmLength * Real.sin a := fun a => rfl
    rw [hax, hax, hax]
    nlinarith [hsin]
  · have heq : fullyExtendedAngle p1 = fullyCompressedAngle p1 :=
      le_antisymm hle (not_lt.mp hstrict)
    have hstep1 : sagStep p1 = -0.0005 := if_neg hstrict
    have hstep2 : sagStep p2 = -0.0005 := if_neg (by rw [← hext, ← hcomp]; exact hstrict)
    unfold computeSag
    rw [hstep1, hstep2, ← hext, ← hcomp]
    rw [show (200000 : ℕ) = 199999 + 1 from rfl]
    rw [sagScan_succ_break p1 (fullyCompressedAngle p1) (-0.0005) _ 199999
        (fullyExtendedAngle p1) (Or.inr ⟨by norm_num, by rw [← heq]; norm_num⟩),
      sagScan_succ_break p2 (fullyCompressedAngle p1) (-0.0005) _ 199999
        (fullyExtendedAngle p1) (Or.inr ⟨by norm_num, by rw [← heq]; norm_num⟩)]
    show (axlePosition (fullyCompressedAngle p1) p2.swingarmLength).2 -
        (axlePosition (fullyExtendedAngle p1) p2.swingarmLength).2 ≤
      (axlePosition (fullyCompressedAngle p1) p1.swingarmLength).2 -
        (axlePosition (fullyExtendedAngle p1) p1.swingarmLength).2
    rw [← heq]
    simp

/-! ### Placement of the scan's first torque-balance step against a grid index -/

/-- Source loop fact (ascending scan): if the `k`-th scanned grid point is
within the travel range and satisfies the torque-balance test, the scan
returns no later than that grid point. -/
theorem sagScan_angle_le_grid (p : Params) (c s e : ℝ) (hs : 0 < s) :
    ∀ (fuel k : ℕ) (theta : ℝ), 1 ≤ k → k ≤ fuel →
      theta + k * s ≤ c → sagTrigger (theta + k * s) p →
      (sagScan p c s e fuel theta).angle ≤ theta + k * s := by
  intro fuel
  induction fuel with
  | zero =>
    intro k theta hk1 hk2 _ _
    exact (Nat.not_succ_le_zero 0 (hk1.trans hk2)).elim
  | succ n ih =>
    intro k theta hk1 hk2 hkc htr
    have hkR : (1 : ℝ) ≤ (k : ℝ) := by exact_mod_cast hk1
    have hsk : theta + s ≤ theta + k * s := by nlinarith
    have hb1 : ¬(s > 0 ∧ theta + s > c) := by
      rintro ⟨_, h⟩
      linarith
    have hb2 : ¬(s < 0 ∧ theta + s < c) := by
      rintro ⟨h, _⟩
      linarith
    rcases Classical.em (sagTrigger (theta + s) p) with ht | ht
    · rw [sagScan_succ_trigger p c s e n theta hb1 hb2 ht]
      exact hsk
    · have hk2' : 2 ≤ k := by
        by_contra hlt
        have hk1'' : k = 1 := by omega
        subst hk1''
        apply ht
        have hc1 : theta + (1 : ℕ) * s = theta + s := by push_cast; ring
        rw [hc1] at htr
        exact htr
      rw [sagScan_succ_recurse p c s e n theta hb1 hb2 ht]
      have heq : theta + s + ((k - 1 : ℕ) : ℝ) * s = theta + k * s := by
        have hcast : ((k - 1 : ℕ) : ℝ) = (k : ℝ) - 1 := by
          have h1k : (1 : ℕ) ≤ k := hk1
          push_cast [h1k]
          ring
        rw [hcast]
        ring
      have := ih (k - 1) (theta + s) (by omega) (by omega)
        (by rw [heq]; exact hkc) (by rw [heq]; exact htr)
      rw [heq] at this
      exact this

/-- Source loop fact (descending scan): if the `k`-th scanned grid point is
within the travel range and satisfies the torque-balance test, the scan
returns no earlier than that grid point. -/
theorem sagScan_angle_ge_grid (p : Params) (c s e : ℝ) (hs : s < 0) :
    ∀ (fuel k : ℕ) (theta : ℝ), 1 ≤ k → k ≤ fuel →
      c ≤ theta + k * s → sagTrigger (theta + k * s) p →
      theta + k * s ≤ (sagScan p c s e fuel theta).angle := by
  intro fuel
  induction fuel with
  | zero =>
    intro k theta hk1 hk2 _ _
    exact (Nat.not_succ_le_zero 0 (hk1.trans hk2)).elim
  | succ n ih =>
    intro k theta hk1 hk2 hkc htr
    have hkR : (1 : ℝ) ≤ (k : ℝ) := by exact_mod_cast hk1
    have hsk : theta + k * s ≤ theta + s := by nlinarith
    have hb1 : ¬(s > 0 ∧ theta + s > c) := by
      rintro ⟨h, _⟩
      linarith
    have hb2 : ¬(s < 0 ∧ theta + s < c) := by
      rintro ⟨_, h⟩
      linarith
    rcases Classical.em (sagTrigger (theta + s) p) with ht | ht
    · rw [sagScan_succ_trigger p c s e n theta hb1 hb2 ht]
      exact hsk
    · have hk2' : 2 ≤ k := by
        by_contra hlt
        have hk1'' : k = 1 := by omega
        subst hk1''
        apply ht
        have hc1 : theta + (1 : ℕ) * s = theta + s := by push_cast; ring
        rw [hc1] at htr
        exact htr
      rw [sagScan_succ_recurse p c s e n theta hb1 hb2 ht]
      have heq : theta + s + ((k - 1 : ℕ) : ℝ) * s = theta + k * s := by
        have hcast : ((k - 1 : ℕ) : ℝ) = (k : ℝ) - 1 := by
          have h1k : (1 : ℕ) ≤ k := hk1
          push_cast [h1k]
          ring
        rw [hcast]
        ring
      have := ih (k - 1) (theta + s) (by omega) (by omega)
        (by rw [heq]; exact hkc) (by rw [heq]; exact htr)
      rw [heq] at this
      exact this

/-- Source loop fact (ascending scan): if no angle up to a threshold
`beta` short of the compressed limit satisfies the torque-balance test,
the scan returns an angle strictly beyond `beta` (possibly the
bottomed-out compressed limit). -/
theorem sagScan_angle_gt_pos (p : Params) (c s e beta : ℝ) (hs : 0 < s) (hbc : beta < c) :
    ∀ (fuel : ℕ) (theta : ℝ),
      (∀ x : ℝ, theta < x → x ≤ beta → ¬ sagTrigger x p) →
      beta < (sagScan p c s e fuel theta).angle := by
  intro fuel
  induction fuel with
  | zero =>
    intro theta _
    exact hbc
  | succ n ih =>
    intro theta H
    rcases Classical.em (s > 0 ∧ theta + s > c) with hb | hb
    · rw [sagScan_succ_break p c s e n theta (Or.inl hb)]
      exact hbc
    · have hb2 : ¬(s < 0 ∧ theta + s < c) := by
        rintro ⟨h, _⟩
        linarith
      have hin : theta + s ≤ c := by
        rcases Classical.em (theta + s ≤ c) with h | h
        · exact h
        · exact absurd ⟨hs, not_le.mp h⟩ hb
      rcases Classical.em (sagTrigger (theta + s) p) with ht | ht
      · rw [sagScan_succ_trigger p c s e n theta hb hb2 ht]
        show beta < theta + s
        by_contra hc
        push_neg at hc
        exact H (theta + s) (by linarith) hc ht
      · rw [sagScan_succ_recurse p c s e n theta hb hb2 ht]
        rcases le_or_lt (theta + s) beta with hcase | hcase
        · exact ih (theta + s) (fun x hx1 hx2 => H x (by linarith) hx2)
        · calc beta < theta + s := hcase
            _ ≤ _ := (sagScan_angle_bounds_pos p c s e hs n (theta + s) hin).1

/-! ### The section-6 DEFAULTS geometry

Swingarm `550`, lower mount radius `250`, upper mount `(160, 240)`,
shock `280`/`55`, preload `0` — the `DEFAULTS` record of `constants.js` —
with `springRate` and `load` left free so the default monotonicity chains
can be stated.  Here `shockLength(theta)^2 =
145700 - 80000 cos theta - 120000 sin theta`. -/

/-- The `DEFAULTS` parameter record of `constants.js`, with `springRate`
and `load` as the two varied fields. -/
def defaultsParams (rate load : ℝ) : Params :=
  ⟨550, 250, 160, 240, 280, 55, rate, load, 0⟩

theorem shockLength_defaults (rate load theta : ℝ) :
    shockLength theta (defaultsParams rate load) =
      Real.sqrt (145700 - 80000 * Real.cos theta - 120000 * Real.sin theta) := by
  simp only [shockLength, lowerMountPosition, defaultsParams]
  congr 1
  nlinarith [Real.sin_sq_add_cos_sq theta]

theorem defaults_arg_nonneg (theta : ℝ) :
    0 ≤ 145700 - 80000 * Real.cos theta - 120000 * Real.sin theta := by
  nlinarith [Real.sin_sq_add_cos_sq theta, sq_nonneg (160 - 250 * Real.cos theta),
    sq_nonneg (240 - 250 * Real.sin theta)]

/-- The mount-geometry combination `80000 cos + 120000 sin` is strictly
increasing on the bisection interval, so the DEFAULTS shock length is
strictly decreasing there. -/
theorem defaults_mix_strictMono :
    StrictMonoOn (fun x : ℝ => 80000 * Real.cos x + 120000 * Real.sin x)
      (Set.Icc (-(π / 2)) (π / 4)) := by
  have hpi := Real.pi_pos
  apply strictMonoOn_of_deriv_pos (convex_Icc _ _)
  · exact ((continuous_const.mul Real.continuous_cos).add
      (continuous_const.mul Real.continuous_sin)).continuousOn
  · intro x hx
    rw [interior_Icc] at hx
    obtain ⟨hx1, hx2⟩ := hx
    have hD : HasDerivAt (fun x : ℝ => 80000 * Real.cos x + 120000 * Real.sin x)
        (80000 * (-Real.sin x) + 120000 * Real.cos x) x :=
      ((Real.hasDerivAt_cos x).const_mul 80000).add ((Real.hasDerivAt_sin x).const_mul 120000)
    rw [hD.deriv]
    have hcos : 0 < Real.cos x :=
      Real.cos_pos_of_mem_Ioo ⟨hx1, lt_trans hx2 (by linarith)⟩
    rcases le_or_lt (Real.sin x) 0 with hsin | hsin
    · nlinarith
    · have hx0 : 0 < x := by
        by_contra hx0
        push_neg at hx0
        have hns : 0 ≤ Real.sin (-x) :=
          Real.sin_nonneg_of_nonneg_of_le_pi (by linarith) (by linarith)
        rw [Real.sin_neg] at hns
        linarith
      have hsin4 : Real.sin x ≤ Real.sin (π / 4) :=
        Real.strictMonoOn_sin.monotoneOn ⟨by linarith, by linarith⟩
          ⟨by linarith, by linarith⟩ (le_of_lt hx2)
      have hcos4 : Real.cos (π / 4) ≤ Real.cos x :=
        Real.strictAntiOn_cos.antitoneOn ⟨by linarith, by linarith⟩
          ⟨by linarith, by linarith⟩ (le_of_lt hx2)
      rw [Real.sin_pi_div_four] at hsin4
      rw [Real.cos_pi_div_four] at hcos4
      have h2 : 0 < Real.sqrt 2 := Real.sqrt_pos.mpr (by norm_num)
      linarith

theorem defaults_len_anti_strict (rate load : ℝ) {a b : ℝ}
    (ha : -(π / 2) ≤ a) (hb : b ≤ π / 4) (hab : a < b) :
    shockLength b (defaultsParams rate load) < shockLength a (defaultsParams rate load) := by
  rw [shockLength_defaults, shockLength_defaults]
  have hg := defaults_mix_strictMono (a := a) (b := b) ⟨ha, by linarith⟩ ⟨by linarith, hb⟩ hab
  simp only at hg
  apply Real.sqrt_lt_sqrt (defaults_arg_nonneg b)
  linarith

theorem defaults_len_anti (rate load : ℝ) {a b : ℝ}
    (ha : -(π / 2) ≤ a) (hb : b ≤ π / 4) (hab : a ≤ b) :
    shockLength b (defaultsParams rate load) ≤ shockLength a (defaultsParams rate load) := by
  rcases eq_or_lt_of_le hab with h | h
  · rw [h]
  · exact le_of_lt (defaults_len_anti_strict rate load ha hb h)

theorem defaults_len_neg_pi_div_two (rate load : ℝ) :
    (280 : ℝ) < shockLength (-(π / 2)) (defaultsParams rate load) := by
  rw [shockLength_defaults, Real.cos_neg, Real.sin_neg, Real.cos_pi_div_two,
    Real.sin_pi_div_two]
  rw [Real.lt_sqrt (by norm_num)]
  norm_num

theorem defaults_len_pi_div_four (rate load : ℝ) :
    shockLength (π / 4) (defaultsParams rate load) < 225 := by
  rw [shockLength_defaults, Real.cos_pi_div_four, Real.sin_pi_div_four]
  rw [Real.sqrt_lt' (by norm_num : (0 : ℝ) < 225)]
  have h2 : (1 : ℝ) < Real.sqrt 2 := by
    rw [show (1 : ℝ) = Real.sqrt 1 from (Real.sqrt_one).symm]
    exact Real.sqrt_lt_sqrt (by norm_num) (by norm_num)
  linarith

theorem defaults_bracket_280 (rate load : ℝ) :
    ((280 : ℝ) - shockLength (-(π / 2)) (defaultsParams rate load)) *
      (280 - shockLength (π / 4) (defaultsParams rate load)) < 0 := by
  have h1 := defaults_len_neg_pi_div_two rate load
  have h2 := defaults_len_pi_div_four rate load
  nlinarith

theorem defaults_bracket_225 (rate load : ℝ) :
    ((225 : ℝ) - shockLength (-(π / 2)) (defaultsParams rate load)) *
      (225 - shockLength (π / 4) (defaultsParams rate load)) < 0 := by
  have h1 := defaults_len_neg_pi_div_two rate load
  have h2 := defaults_len_pi_div_four rate load
  nlinarith

theorem defaults_lowerMountDist_le (rate load : ℝ) :
    |(defaultsParams rate load).lowerMountDist| ≤ 1e6 := by
  show |(250 : ℝ)| ≤ 1e6
  rw [abs_of_nonneg] <;> norm_num

/-- Fourth-order upper bound on the cosine, from the half-angle identity
and the cubic lower bound on the sine. -/
theorem cos_lt_one_sub_sq_add_pow (x : ℝ) (h0 : 0 < x) (h1 : x ≤ 1) :
    Real.cos x < 1 - x ^ 2 / 2 + x ^ 4 / 16 := by
  have hhalf : Real.sin (x / 2) ^ 2 = (1 - Real.cos x) / 2 := by
    have hc := Real.cos_sq (x / 2)
    have h2 : 2 * (x / 2) = x := by ring
    rw [h2] at hc
    have hs := Real.sin_sq_add_cos_sq (x / 2)
    linarith
  have hs := Real.sin_gt_sub_cube (by linarith : (0 : ℝ) < x / 2) (by linarith : x / 2 ≤ 1)
  have hxx : x * x ≤ 1 := by nlinarith
  have hcube : x * (x * x) ≤ x * 1 := mul_le_mul_of_nonneg_left hxx (le_of_lt h0)
  have hpos : 0 < x / 2 - (x / 2) ^ 3 / 4 := by nlinarith
  have hsq : (x / 2 - (x / 2) ^ 3 / 4) ^ 2 < Real.sin (x / 2) ^ 2 :=
    pow_lt_pow_left₀ hs (le_of_lt hpos) (by norm_num)
  nlinarith [pow_pos h0 6]

theorem defaults_len_neg_0103 (rate load : ℝ) :
    (280.001 : ℝ) < shockLength (-0.103) (defaultsParams rate load) := by
  rw [shockLength_defaults, Real.cos_neg, Real.sin_neg]
  rw [Real.lt_sqrt (by norm_num)]
  have hc := cos_lt_one_sub_sq_add_pow 0.103 (by norm_num) (by norm_num)
  have hs := Real.sin_gt_sub_cube (show (0 : ℝ) < 0.103 by norm_num) (by norm_num)
  nlinarith

theorem defaults_len_neg_0102 (rate load : ℝ) :
    shockLength (-0.102) (defaultsParams rate load) < 279.999 := by
  rw [shockLength_defaults, Real.cos_neg, Real.sin_neg]
  rw [Real.sqrt_lt' (by norm_num : (0 : ℝ) < 279.999)]
  have hc := Real.one_sub_sq_div_two_le_cos (x := (0.102 : ℝ))
  have hs := Real.sin_lt (show (0 : ℝ) < 0.102 by norm_num)
  nlinarith

theorem defaults_len_012 (rate load : ℝ) :
    (225.001 : ℝ) < shockLength 0.12 (defaultsParams rate load) := by
  rw [shockLength_defaults]
  rw [Real.lt_sqrt (by norm_num)]
  have hc := Real.cos_le_one (0.12 : ℝ)
  have hs := Real.sin_lt (show (0 : ℝ) < 0.12 by norm_num)
  nlinarith

theorem defaults_len_015 (rate load : ℝ) :
    shockLength 0.15 (defaultsParams rate load) < 224.999 := by
  rw [shockLength_defaults]
  rw [Real.sqrt_lt' (by norm_num : (0 : ℝ) < 224.999)]
  have hc := Real.one_sub_sq_div_two_le_cos (x := (0.15 : ℝ))
  have hs := Real.sin_gt_sub_cube (show (0 : ℝ) < 0.15 by norm_num) (by norm_num)
  nlinarith

theorem defaults_ext_bounds (rate load : ℝ) :
    -0.103 < fullyExtendedAngle (defaultsParams rate load) ∧
    fullyExtendedAngle (defaultsParams rate load) < -0.102 := by
  have htol := findAngle_tol 280 (defaultsParams rate load)
    (defaults_bracket_280 rate load) (defaults_lowerMountDist_le rate load)
  have hmem := findAngleForShockLength_mem 280 (defaultsParams rate load)
  have habs := abs_le.mp htol
  have hpi3 := Real.pi_gt_three
  have hext : fullyExtendedAngle (defaultsParams rate load) =
      findAngleForShockLength 280 (defaultsParams rate load) := rfl
  rw [hext]
  constructor
  · by_contra hc
    push_neg at hc
    have hanti := defaults_len_anti rate load hmem.1 (by linarith) hc
    linarith [defaults_len_neg_0103 rate load]
  · by_contra hc
    push_neg at hc
    have hanti := defaults_len_anti rate load (by linarith) hmem.2 hc
    linarith [defaults_len_neg_0102 rate load]

theorem defaults_comp_bounds (rate load : ℝ) :
    0.12 < fullyCompressedAngle (defaultsParams rate load) ∧
    fullyCompressedAngle (defaultsParams rate load) < 0.15 := by
  have htol := findAngle_tol 225 (defaultsParams rate load)
    (defaults_bracket_225 rate load) (defaults_lowerMountDist_le rate load)
  have hmem := findAngleForShockLength_mem 225 (defaultsParams rate load)
  have habs := abs_le.mp htol
  have hpi3 := Real.pi_gt_three
  have hcomp : fullyCompressedAngle (defaultsParams rate load) =
      findAngleForShockLength 225 (defaultsParams rate load) := by
    show findAngleForShockLength ((280 : ℝ) - 55) _ = _
    norm_num
  rw [hcomp]
  constructor
  · by_contra hc
    push_neg at hc
    have hanti := defaults_len_anti rate load hmem.1 (by linarith) hc
    linarith [defaults_len_012 rate load]
  · by_contra hc
    push_neg at hc
    have hanti := defaults_len_anti rate load (by linarith) hmem.2 hc
    linarith [defaults_len_015 rate load]

theorem defaults_shockLength_irrel (r1 l1 r2 l2 theta : ℝ) :
    shockLength theta (defaultsParams r1 l1) = shockLength theta (defaultsParams r2 l2) := by
  rw [shockLength_defaults, shockLength_defaults]

theorem defaults_ext_congr (rate load : ℝ) :
    fullyExtendedAngle (defaultsParams rate load) =
      fullyExtendedAngle (defaultsParams 600 200) :=
  findAngleForShockLength_congr _ _ _
    (fun theta => defaults_shockLength_irrel rate load 600 200 theta)

theorem defaults_comp_congr (rate load : ℝ) :
    fullyCompressedAngle (defaultsParams rate load) =
      fullyCompressedAngle (defaultsParams 600 200) :=
  findAngleForShockLength_congr _ _ _
    (fun theta => defaults_shockLength_irrel rate load 600 200 theta)

/-! ### Torque bounds along the DEFAULTS scan -/

/-- The unnormalised shock-lever cross product of the DEFAULTS geometry:
`lower.x * unitY - lower.y * unitX = (60000 cos - 40000 sin) / shockLength`. -/
theorem defaults_cross (rate load theta : ℝ) :
    (lowerMountPosition theta (defaultsParams rate load).lowerMountDist).1 *
        (shockUnit theta (defaultsParams rate load)).2 -
      (lowerMountPosition theta (defaultsParams rate load).lowerMountDist).2 *
        (shockUnit theta (defaultsParams rate load)).1 =
      (60000 * Real.cos theta - 40000 * Real.sin theta) /
        shockLength theta (defaultsParams rate load) := by
  unfold shockUnit lowerMountPosition
  show (250 : ℝ) * Real.cos theta *
      ((240 - 250 * Real.sin theta) / shockLength theta (defaultsParams rate load)) -
    250 * Real.sin theta *
      ((160 - 250 * Real.cos theta) / shockLength theta (defaultsParams rate load)) = _
  rw [← mul_div_assoc, ← mul_div_assoc, div_sub_div_same]
  congr 1
  ring

/-- Sufficient numeric condition for the torque-balance test of the sag
scan to hold at an angle of the DEFAULTS geometry. -/
theorem defaults_trigger_of_bounds (rate load theta numlo uhi : ℝ)
    (hr : 0 < rate) (hl : 0 ≤ load)
    (hlenpos : 0 < shockLength theta (defaultsParams rate load))
    (hlenhi : shockLength theta (defaultsParams rate load) ≤ uhi)
    (hnumlo0 : 0 ≤ numlo)
    (hnumlo : numlo ≤ 60000 * Real.cos theta - 40000 * Real.sin theta)
    (huhi : uhi < 280)
    (hfinal : load * 550 ≤ numlo / uhi * (rate * ((280 - uhi) / 25.4))) :
    sagTrigger theta (defaultsParams rate load) := by
  have hsf_ge : rate * ((280 - uhi) / 25.4) ≤ springForce theta (defaultsParams rate load) := by
    unfold springForce
    apply mul_le_mul_of_nonneg_left _ (le_of_lt hr)
    have h2 : (280 - uhi) / 25.4 ≤ (shockCompression theta (defaultsParams rate load) +
        (defaultsParams rate load).preload) / 25.4 := by
      show (280 - uhi) / 25.4 ≤ (280 - shockLength theta (defaultsParams rate load) + 0) / 25.4
      apply (div_le_div_iff_of_pos_right (by norm_num : (0 : ℝ) < 25.4)).mpr
      linarith
    exact le_trans h2 (le_max_right _ _)
  have hsfpos : 0 < springForce theta (defaultsParams rate load) :=
    lt_of_lt_of_le (mul_pos hr (div_pos (by linarith) (by norm_num))) hsf_ge
  have hnum_nn : 0 ≤ 60000 * Real.cos theta - 40000 * Real.sin theta :=
    le_trans hnumlo0 hnumlo
  have hA_nn : 0 ≤ (60000 * Real.cos theta - 40000 * Real.sin theta) /
      shockLength theta (defaultsParams rate load) :=
    div_nonneg hnum_nn (le_of_lt hlenpos)
  have hA_ge : numlo / uhi ≤ (60000 * Real.cos theta - 40000 * Real.sin theta) /
      shockLength theta (defaultsParams rate load) :=
    div_le_div₀ hnum_nn hnumlo hlenpos hlenhi
  have hst : numlo / uhi * (rate * ((280 - uhi) / 25.4)) ≤
      springTorqueAt theta (defaultsParams rate load) := by
    unfold springTorqueAt
    rw [defaults_cross rate load theta, abs_of_nonneg hA_nn]
    exact mul_le_mul hA_ge hsf_ge
      (mul_nonneg (le_of_lt hr) (div_nonneg (by linarith) (by norm_num))) hA_nn
  have hload_le : loadTorqueAt theta (defaultsParams rate load) ≤ load * 550 := by
    unfold loadTorqueAt axlePosition
    show load * |(550 : ℝ) * Real.cos theta| ≤ load * 550
    apply mul_le_mul_of_nonneg_left _ hl
    rw [abs_mul, abs_of_nonneg (by norm_num : (0 : ℝ) ≤ 550)]
    nlinarith [Real.abs_cos_le_one theta, abs_nonneg (Real.cos theta)]
  refine ⟨hsfpos, ?_⟩
  calc loadTorqueAt theta (defaultsParams rate load) ≤ load * 550 := hload_le
    _ ≤ numlo / uhi * (rate * ((280 - uhi) / 25.4)) := hfinal
    _ ≤ springTorqueAt theta (defaultsParams rate load) := hst

/-- Sufficient numeric condition for the torque-balance test of the sag
scan to fail at an angle of the DEFAULTS geometry. -/
theorem defaults_no_trigger_of_bounds (rate load theta numhi ulo clo : ℝ)
    (hr : 0 ≤ rate) (hl : 0 ≤ load)
    (hulo : 0 < ulo) (hulo280 : ulo ≤ 280)
    (hlenlo : ulo ≤ shockLength theta (defaultsParams rate load))
    (hnum0 : 0 ≤ 60000 * Real.cos theta - 40000 * Real.sin theta)
    (hnumhi : 60000 * Real.cos theta - 40000 * Real.sin theta ≤ numhi)
    (hclo0 : 0 ≤ clo) (hclo : clo ≤ Real.cos theta)
    (hfinal : numhi / ulo * (rate * ((280 - ulo) / 25.4)) < load * 550 * clo) :
    ¬ sagTrigger theta (defaultsParams rate load) := by
  have hlenpos : 0 < shockLength theta (defaultsParams rate load) :=
    lt_of_lt_of_le hulo hlenlo
  have hA_le : (60000 * Real.cos theta - 40000 * Real.sin theta) /
      shockLength theta (defaultsParams rate load) ≤ numhi / ulo :=
    div_le_div₀ (le_trans hnum0 hnumhi) hnumhi hulo hlenlo
  have hA_nn : 0 ≤ (60000 * Real.cos theta - 40000 * Real.sin theta) /
      shockLength theta (defaultsParams rate load) :=
    div_nonneg hnum0 (le_of_lt hlenpos)
  have hsf_nn : 0 ≤ springForce theta (defaultsParams rate load) :=
    mul_nonneg hr (le_max_left _ _)
  have hsf_le : springForce theta (defaultsParams rate load) ≤
      rate * ((280 - ulo) / 25.4) := by
    unfold springForce
    apply mul_le_mul_of_nonneg_left _ hr
    apply max_le (div_nonneg (by linarith) (by norm_num))
    show (280 - shockLength theta (defaultsParams rate load) + 0) / 25.4 ≤ (280 - ulo) / 25.4
    apply (div_le_div_iff_of_pos_right (by norm_num : (0 : ℝ) < 25.4)).mpr
    linarith
  have hst : springTorqueAt theta (defaultsParams rate load) ≤
      numhi / ulo * (rate * ((280 - ulo) / 25.4)) := by
    unfold springTorqueAt
    rw [defaults_cross rate load theta, abs_of_nonneg hA_nn]
    exact mul_le_mul hA_le hsf_le hsf_nn
      (div_nonneg (le_trans hnum0 hnumhi) (le_of_lt hulo))
  have hload_ge : load * 550 * clo ≤ loadTorqueAt theta (defaultsParams rate load) := by
    unfold loadTorqueAt axlePosition
    show load * 550 * clo ≤ load * |(550 : ℝ) * Real.cos theta|
    have habs : 550 * clo ≤ |(550 : ℝ) * Real.cos theta| := by
      calc (550 : ℝ) * clo ≤ 550 * Real.cos theta := by linarith
        _ ≤ |(550 : ℝ) * Real.cos theta| := le_abs_self _
    calc load * 550 * clo = load * (550 * clo) := by ring
      _ ≤ load * |(550 : ℝ) * Real.cos theta| := mul_le_mul_of_nonneg_left habs hl
  intro htr
  have hlt : springTorqueAt theta (defaultsParams rate load) <
      loadTorqueAt theta (defaultsParams rate load) :=
    lt_of_le_of_lt hst (lt_of_lt_of_le hfinal hload_ge)
  linarith [htr.2]

/-- The scanned band `[-0.013, -0.012]` of grid index 180 triggers at
`springRate 600`, `load 200`. -/
theorem defaults_trig_180 (theta : ℝ) (h1 : (-0.013 : ℝ) ≤ theta) (h2 : theta ≤ -0.012) :
    sagTrigger theta (defaultsParams 600 200) := by
  have hpi := Real.pi_gt_three
  have hcos_lo : (0.999915 : ℝ) ≤ Real.cos theta := by
    have h := Real.one_sub_sq_div_two_le_cos (x := theta)
    nlinarith
  have hsin_hi : Real.sin theta ≤ -0.011999 := by
    have hmono : Real.sin theta ≤ Real.sin (-0.012) :=
      Real.strictMonoOn_sin.monotoneOn ⟨by linarith, by linarith⟩
        ⟨by linarith, by linarith⟩ h2
    have hlb := Real.sin_gt_sub_cube (show (0 : ℝ) < 0.012 by norm_num) (by norm_num)
    rw [Real.sin_neg] at hmono
    linarith
  have hnumlo : (60474 : ℝ) ≤ 60000 * Real.cos theta - 40000 * Real.sin theta := by nlinarith
  have hlen_le : shockLength theta (defaultsParams 600 200) ≤
      shockLength (-0.013) (defaultsParams 600 200) :=
    defaults_len_anti 600 200 (by linarith) (by linarith) h1
  have hlen_013 : shockLength (-0.013) (defaultsParams 600 200) < 259.37 := by
    rw [shockLength_defaults, Real.cos_neg, Real.sin_neg]
    rw [Real.sqrt_lt' (by norm_num : (0 : ℝ) < 259.37)]
    have hc := Real.one_sub_sq_div_two_le_cos (x := (0.013 : ℝ))
    have hs := Real.sin_lt (show (0 : ℝ) < 0.013 by norm_num)
    nlinarith
  have hlen_pos : (0 : ℝ) < shockLength theta (defaultsParams 600 200) := by
    rw [shockLength_defaults]
    apply Real.sqrt_pos.mpr
    have hc1 := Real.cos_le_one theta
    nlinarith
  exact defaults_trigger_of_bounds 600 200 theta 60474 259.37 (by norm_num) (by norm_num)
    hlen_pos (by linarith) (by norm_num) hnumlo (by norm_num) (by norm_num)

/-- The scanned band `[-0.033, -0.032]` of grid index 140 triggers at
`springRate 800`, `load 200`. -/
theorem defaults_trig_140 (theta : ℝ) (h1 : (-0.033 : ℝ) ≤ theta) (h2 : theta ≤ -0.032) :
    sagTrigger theta (defaultsParams 800 200) := by
  have hpi := Real.pi_gt_three
  have hcos_lo : (0.999455 : ℝ) ≤ Real.cos theta := by
    have h := Real.one_sub_sq_div_two_le_cos (x := theta)
    nlinarith
  have hsin_hi : Real.sin theta ≤ -0.031991 := by
    have hmono : Real.sin theta ≤ Real.sin (-0.032) :=
      Real.strictMonoOn_sin.monotoneOn ⟨by linarith, by linarith⟩
        ⟨by linarith, by linarith⟩ h2
    have hlb := Real.sin_gt_sub_cube (show (0 : ℝ) < 0.032 by norm_num) (by norm_num)
    rw [Real.sin_neg] at hmono
    linarith
  have hnumlo : (61246 : ℝ) ≤ 60000 * Real.cos theta - 40000 * Real.sin theta := by nlinarith
  have hlen_le : shockLength theta (defaultsParams 800 200) ≤
      shockLength (-0.033) (defaultsParams 800 200) :=
    defaults_len_anti 800 200 (by linarith) (by linarith) h1
  have hlen_033 : shockLength (-0.033) (defaultsParams 800 200) < 264.02 := by
    rw [shockLength_defaults, Real.cos_neg, Real.sin_neg]
    rw [Real.sqrt_lt' (by norm_num : (0 : ℝ) < 264.02)]
    have hc := Real.one_sub_sq_div_two_le_cos (x := (0.033 : ℝ))
    have hs := Real.sin_lt (show (0 : ℝ) < 0.033 by norm_num)
    nlinarith
  have hlen_pos : (0 : ℝ) < shockLength theta (defaultsParams 800 200) := by
    rw [shockLength_defaults]
    apply Real.sqrt_pos.mpr
    have hc1 := Real.cos_le_one theta
    nlinarith
  exact defaults_trigger_of_bounds 800 200 theta 61246 264.02 (by norm_num) (by norm_num)
    hlen_pos (by linarith) (by norm_num) hnumlo (by norm_num) (by norm_num)

/-- The scanned band `[-0.047, -0.046]` of grid index 112 triggers at
`springRate 1000`, `load 200`. -/
theorem defaults_trig_112 (theta : ℝ) (h1 : (-0.047 : ℝ) ≤ theta) (h2 : theta ≤ -0.046) :
    sagTrigger theta (defaultsParams 1000 200) := by
  have hpi := Real.pi_gt_three
  have hcos_lo : (0.998895 : ℝ) ≤ Real.cos theta := by
    have h := Real.one_sub_sq_div_two_le_cos (x := theta)
    nlinarith
  have hsin_hi : Real.sin theta ≤ -0.045975 := by
    have hmono : Real.sin theta ≤ Real.sin (-0.046) :=
      Real.strictMonoOn_sin.monotoneOn ⟨by linarith, by linarith⟩
        ⟨by linarith, by linarith⟩ h2
    have hlb := Real.sin_gt_sub_cube (show (0 : ℝ) < 0.046 by norm_num) (by norm_num)
    rw [Real.sin_neg] at hmono
    linarith
  have hnumlo : (61772 : ℝ) ≤ 60000 * Real.cos theta - 40000 * Real.sin theta := by nlinarith
  have hlen_le : shockLength theta (defaultsParams 1000 200) ≤
      shockLength (-0.047) (defaultsParams 1000 200) :=
    defaults_len_anti 1000 200 (by linarith) (by linarith) h1
  have hlen_047 : shockLength (-0.047) (defaultsParams 1000 200) < 267.27 := by
    rw [shockLength_defaults, Real.cos_neg, Real.sin_neg]
    rw [Real.sqrt_lt' (by norm_num : (0 : ℝ) < 267.27)]
    have hc := Real.one_sub_sq_div_two_le_cos (x := (0.047 : ℝ))
    have hs := Real.sin_lt (show (0 : ℝ) < 0.047 by norm_num)
    nlinarith
  have hlen_pos : (0 : ℝ) < shockLength theta (defaultsParams 1000 200) := by
    rw [shockLength_defaults]
    apply Real.sqrt_pos.mpr
    have hc1 := Real.cos_le_one theta
    nlinarith
  exact defaults_trigger_of_bounds 1000 200 theta 61772 267.27 (by norm_num) (by norm_num)
    hlen_pos (by linarith) (by norm_num) hnumlo (by norm_num) (by norm_num)

/-- The scanned band `[-0.055, -0.054]` of grid index 96 triggers at
`springRate 600`, `load 100`. -/
theorem defaults_trig_96 (theta : ℝ) (h1 : (-0.055 : ℝ) ≤ theta) (h2 : theta ≤ -0.054) :
    sagTrigger theta (defaultsParams 600 100) := by
  have hpi := Real.pi_gt_three
  have hcos_lo : (0.998487 : ℝ) ≤ Real.cos theta := by
    have h := Real.one_sub_sq_div_two_le_cos (x := theta)
    nlinarith
  have hsin_hi : Real.sin theta ≤ -0.05396 := by
    have hmono : Real.sin theta ≤ Real.sin (-0.054) :=
      Real.strictMonoOn_sin.monotoneOn ⟨by linarith, by linarith⟩
        ⟨by linarith, by linarith⟩ h2
    have hlb := Real.sin_gt_sub_cube (show (0 : ℝ) < 0.054 by norm_num) (by norm_num)
    rw [Real.sin_neg] at hmono
    linarith
  have hnumlo : (62067 : ℝ) ≤ 60000 * Real.cos theta - 40000 * Real.sin theta := by nlinarith
  have hlen_le : shockLength theta (defaultsParams 600 100) ≤
      shockLength (-0.055) (defaultsParams 600 100) :=
    defaults_len_anti 600 100 (by linarith) (by linarith) h1
  have hlen_055 : shockLength (-0.055) (defaultsParams 600 100) < 269.12 := by
    rw [shockLength_defaults, Real.cos_neg, Real.sin_neg]
    rw [Real.sqrt_lt' (by norm_num : (0 : ℝ) < 269.12)]
    have hc := Real.one_sub_sq_div_two_le_cos (x := (0.055 : ℝ))
    have hs := Real.sin_lt (show (0 : ℝ) < 0.055 by norm_num)
    nlinarith
  have hlen_pos : (0 : ℝ) < shockLength theta (defaultsParams 600 100) := by
    rw [shockLength_defaults]
    apply Real.sqrt_pos.mpr
    have hc1 := Real.cos_le_one theta
    nlinarith
  exact defaults_trigger_of_bounds 600 100 theta 62067 269.12 (by norm_num) (by norm_num)
    hlen_pos (by linarith) (by norm_num) hnumlo (by norm_num) (by norm_num)

/-- The scanned band `[-0.035, -0.034]` of grid index 136 triggers at
`springRate 600`, `load 150`. -/
theorem defaults_trig_136 (theta : ℝ) (h1 : (-0.035 : ℝ) ≤ theta) (h2 : theta ≤ -0.034) :
    sagTrigger theta (defaultsParams 600 150) := by
  have hpi := Real.pi_gt_three
  have hcos_lo : (0.999387 : ℝ) ≤ Real.cos theta := by
    have h := Real.one_sub_sq_div_two_le_cos (x := theta)
    nlinarith
  have hsin_hi : Real.sin theta ≤ -0.03399 := by
    have hmono : Real.sin theta ≤ Real.sin (-0.034) :=
      Real.strictMonoOn_sin.monotoneOn ⟨by linarith, by linarith⟩
        ⟨by linarith, by linarith⟩ h2
    have hlb := Real.sin_gt_sub_cube (show (0 : ℝ) < 0.034 by norm_num) (by norm_num)
    rw [Real.sin_neg] at hmono
    linarith
  have hnumlo : (61322 : ℝ) ≤ 60000 * Real.cos theta - 40000 * Real.sin theta := by nlinarith
  have hlen_le : shockLength theta (defaultsParams 600 150) ≤
      shockLength (-0.035) (defaultsParams 600 150) :=
    defaults_len_anti 600 150 (by linarith) (by linarith) h1
  have hlen_035 : shockLength (-0.035) (defaultsParams 600 150) < 264.49 := by
    rw [shockLength_defaults, Real.cos_neg, Real.sin_neg]
    rw [Real.sqrt_lt' (by norm_num : (0 : ℝ) < 264.49)]
    have hc := Real.one_sub_sq_div_two_le_cos (x := (0.035 : ℝ))
    have hs := Real.sin_lt (show (0 : ℝ) < 0.035 by norm_num)
    nlinarith
  have hlen_pos : (0 : ℝ) < shockLength theta (defaultsParams 600 150) := by
    rw [shockLength_defaults]
    apply Real.sqrt_pos.mpr
    have hc1 := Real.cos_le_one theta
    nlinarith
  exact defaults_trigger_of_bounds 600 150 theta 61322 264.49 (by norm_num) (by norm_num)
    hlen_pos (by linarith) (by norm_num) hnumlo (by norm_num) (by norm_num)

/-- No scanned angle up to `-0.012` triggers at `springRate 400`,
`load 200`. -/
theorem defaults_notrig_400_200 (theta : ℝ) (h1 : (-0.103 : ℝ) < theta)
    (h2 : theta ≤ -0.012) : ¬ sagTrigger theta (defaultsParams 400 200) := by
  have hpi := Real.pi_gt_three
  have hsin_le : Real.sin theta ≤ 0 := by
    have h := Real.sin_nonneg_of_nonneg_of_le_pi (show (0 : ℝ) ≤ -theta by linarith)
      (by linarith)
    rw [Real.sin_neg] at h
    linarith
  have hsin_ge : (-0.103 : ℝ) ≤ Real.sin theta := by
    have h := Real.sin_lt (show (0 : ℝ) < -theta by linarith)
    rw [Real.sin_neg] at h
    linarith
  have hcos_lo : (0.9946 : ℝ) ≤ Real.cos theta := by
    have h := Real.one_sub_sq_div_two_le_cos (x := theta)
    nlinarith
  have hcos_hi := Real.cos_le_one theta
  have hlen_ge : shockLength (-0.012) (defaultsParams 400 200) ≤
      shockLength theta (defaultsParams 400 200) :=
    defaults_len_anti 400 200 (by linarith) (by linarith) h2
  have hlen_012 : (259.12 : ℝ) < shockLength (-0.012) (defaultsParams 400 200) := by
    rw [shockLength_defaults, Real.cos_neg, Real.sin_neg]
    rw [Real.lt_sqrt (by norm_num)]
    have hc := cos_lt_one_sub_sq_add_pow 0.012 (by norm_num) (by norm_num)
    have hs := Real.sin_gt_sub_cube (show (0 : ℝ) < 0.012 by norm_num) (by norm_num)
    nlinarith
  exact defaults_no_trigger_of_bounds 400 200 theta 64120 259.12 0.9946
    (by norm_num) (by norm_num) (by norm_num) (by norm_num) (by linarith)
    (by nlinarith) (by nlinarith) (by norm_num) hcos_lo (by norm_num)

/-- No scanned angle up to `-0.032` triggers at `springRate 600`,
`load 200`. -/
theorem defaults_notrig_600_200 (theta : ℝ) (h1 : (-0.103 : ℝ) < theta)
    (h2 : theta ≤ -0.032) : ¬ sagTrigger theta (defaultsParams 600 200) := by
  have hpi := Real.pi_gt_three
  have hsin_le : Real.sin theta ≤ 0 := by
    have h := Real.sin_nonneg_of_nonneg_of_le_pi (show (0 : ℝ) ≤ -theta by linarith)
      (by linarith)
    rw [Real.sin_neg] at h
    linarith
  have hsin_ge : (-0.103 : ℝ) ≤ Real.sin theta := by
    have h := Real.sin_lt (show (0 : ℝ) < -theta by linarith)
    rw [Real.sin_neg] at h
    linarith
  have hcos_lo : (0.9946 : ℝ) ≤ Real.cos theta := by
    have h := Real.one_sub_sq_div_two_le_cos (x := theta)
    nlinarith
  have hcos_hi := Real.cos_le_one theta
  have hlen_ge : shockLength (-0.032) (defaultsParams 600 200) ≤
      shockLength theta (defaultsParams 600 200) :=
    defaults_len_anti 600 200 (by linarith) (by linarith) h2
  have hlen_032 : (263.77 : ℝ) < shockLength (-0.032) (defaultsParams 600 200) := by
    rw [shockLength_defaults, Real.cos_neg, Real.sin_neg]
    rw [Real.lt_sqrt (by norm_num)]
    have hc := cos_lt_one_sub_sq_add_pow 0.032 (by norm_num) (by norm_num)
    have hs := Real.sin_gt_sub_cube (show (0 : ℝ) < 0.032 by norm_num) (by norm_num)
    nlinarith
  exact defaults_no_trigger_of_bounds 600 200 theta 64120 263.77 0.9946
    (by norm_num) (by norm_num) (by norm_num) (by norm_num) (by linarith)
    (by nlinarith) (by nlinarith) (by norm_num) hcos_lo (by norm_num)

/-- No scanned angle up to `-0.046` triggers at `springRate 800`,
`load 200`. -/
theorem defaults_notrig_800_200 (theta : ℝ) (h1 : (-0.103 : ℝ) < theta)
    (h2 : theta ≤ -0.046) : ¬ sagTrigger theta (defaultsParams 800 200) := by
  have hpi := Real.pi_gt_three
  have hsin_le : Real.sin theta ≤ 0 := by
    have h := Real.sin_nonneg_of_nonneg_of_le_pi (show (0 : ℝ) ≤ -theta by linarith)
      (by linarith)
    rw [Real.sin_neg] at h
    linarith
  have hsin_ge : (-0.103 : ℝ) ≤ Real.sin theta := by
    have h := Real.sin_lt (show (0 : ℝ) < -theta by linarith)
    rw [Real.sin_neg] at h
    linarith
  have hcos_lo : (0.9946 : ℝ) ≤ Real.cos theta := by
    have h := Real.one_sub_sq_div_two_le_cos (x := theta)
    nlinarith
  have hcos_hi := Real.cos_le_one theta
  have hlen_ge : shockLength (-0.046) (defaultsParams 800 200) ≤
      shockLength theta (defaultsParams 800 200) :=
    defaults_len_anti 800 200 (by linarith) (by linarith) h2
  have hlen_046 : (267.0 : ℝ) < shockLength (-0.046) (defaultsParams 800 200) := by
    rw [shockLength_defaults, Real.cos_neg, Real.sin_neg]
    rw [Real.lt_sqrt (by norm_num)]
    have hc := cos_lt_one_sub_sq_add_pow 0.046 (by norm_num) (by norm_num)
    have hs := Real.sin_gt_sub_cube (show (0 : ℝ) < 0.046 by norm_num) (by norm_num)
    nlinarith
  exact defaults_no_trigger_of_bounds 800 200 theta 64120 267.0 0.9946
    (by norm_num) (by norm_num) (by norm_num) (by norm_num) (by linarith)
    (by nlinarith) (by nlinarith) (by norm_num) hcos_lo (by norm_num)

/-- No scanned angle up to `-0.054` triggers at `springRate 600`,
`load 150`. -/
theorem defaults_notrig_600_150 (theta : ℝ) (h1 : (-0.103 : ℝ) < theta)
    (h2 : theta ≤ -0.054) : ¬ sagTrigger theta (defaultsParams 600 150) := by
  have hpi := Real.pi_gt_three
  have hsin_le : Real.sin theta ≤ 0 := by
    have h := Real.sin_nonneg_of_nonneg_of_le_pi (show (0 : ℝ) ≤ -theta by linarith)
      (by linarith)
    rw [Real.sin_neg] at h
    linarith
  have hsin_ge : (-0.103 : ℝ) ≤ Real.sin theta := by
    have h := Real.sin_lt (show (0 : ℝ) < -theta by linarith)
    rw [Real.sin_neg] at h
    linarith
  have hcos_lo : (0.9946 : ℝ) ≤ Real.cos theta := by
    have h := Real.one_sub_sq_div_two_le_cos (x := theta)
    nlinarith
  have hcos_hi := Real.cos_le_one theta
  have hlen_ge : shockLength (-0.054) (defaultsParams 600 150) ≤
      shockLength theta (defaultsParams 600 150) :=
    defaults_len_anti 600 150 (by linarith) (by linarith) h2
  have hlen_054 : (268.8 : ℝ) < shockLength (-0.054) (defaultsParams 600 150) := by
    rw [shockLength_defaults, Real.cos_neg, Real.sin_neg]
    rw [Real.lt_sqrt (by norm_num)]
    have hc := cos_lt_one_sub_sq_add_pow 0.054 (by norm_num) (by norm_num)
    have hs := Real.sin_gt_sub_cube (show (0 : ℝ) < 0.054 by norm_num) (by norm_num)
    nlinarith
  exact defaults_no_trigger_of_bounds 600 150 theta 64120 268.8 0.9946
    (by norm_num) (by norm_num) (by norm_num) (by norm_num) (by linarith)
    (by nlinarith) (by nlinarith) (by norm_num) hcos_lo (by norm_num)

/-- No scanned angle up to `-0.012` triggers at `springRate 600`,
`load 250`. -/
theorem defaults_notrig_600_250 (theta : ℝ) (h1 : (-0.103 : ℝ) < theta)
    (h2 : theta ≤ -0.012) : ¬ sagTrigger theta (defaultsParams 600 250) := by
  have hpi := Real.pi_gt_three
  have hsin_le : Real.sin theta ≤ 0 := by
    have h := Real.sin_nonneg_of_nonneg_of_le_pi (show (0 : ℝ) ≤ -theta by linarith)
      (by linarith)
    rw [Real.sin_neg] at h
    linarith
  have hsin_ge : (-0.103 : ℝ) ≤ Real.sin theta := by
    have h := Real.sin_lt (show (0 : ℝ) < -theta by linarith)
    rw [Real.sin_neg] at h
    linarith
  have hcos_lo : (0.9946 : ℝ) ≤ Real.cos theta := by
    have h := Real.one_sub_sq_div_two_le_cos (x := theta)
    nlinarith
  have hcos_hi := Real.cos_le_one theta
  have hlen_ge : shockLength (-0.012) (defaultsParams 600 250) ≤
      shockLength theta (defaultsParams 600 250) :=
    defaults_len_anti 600 250 (by linarith) (by linarith) h2
  have hlen_012 : (259.12 : ℝ) < shockLength (-0.012) (defaultsParams 600 250) := by
    rw [shockLength_defaults, Real.cos_neg, Real.sin_neg]
    rw [Real.lt_sqrt (by norm_num)]
    have hc := cos_lt_one_sub_sq_add_pow 0.012 (by norm_num) (by norm_num)
    have hs := Real.sin_gt_sub_cube (show (0 : ℝ) < 0.012 by norm_num) (by norm_num)
    nlinarith
  exact defaults_no_trigger_of_bounds 600 250 theta 64120 259.12 0.9946
    (by norm_num) (by norm_num) (by norm_num) (by norm_num) (by linarith)
    (by nlinarith) (by nlinarith) (by norm_num) hcos_lo (by norm_num)

/-- Strict sag comparison for two DEFAULTS configurations: if the
stronger configuration's torque test holds throughout the band containing
its `k`-th scanned grid point, below a threshold `beta` up to which the
weaker configuration's test always fails, the stronger scan stops
strictly earlier and its sag is strictly smaller. -/
theorem defaults_sag_lt (rS lS rW lW beta : ℝ) (k : ℕ) (hk1 : 1 ≤ k) (hk2 : k ≤ 200000)
    (hkb : -0.102 + (k : ℝ) * 0.0005 ≤ beta) (hb : beta < 0.12)
    (hS : ∀ theta : ℝ, -0.103 + (k : ℝ) * 0.0005 ≤ theta →
      theta ≤ -0.102 + (k : ℝ) * 0.0005 → sagTrigger theta (defaultsParams rS lS))
    (hW : ∀ theta : ℝ, (-0.103 : ℝ) < theta → theta ≤ beta →
      ¬ sagTrigger theta (defaultsParams rW lW)) :
    (computeSag (defaultsParams rS lS)).sagMM < (computeSag (defaultsParams rW lW)).sagMM := by
  have hpi := Real.pi_gt_three
  have hextS := defaults_ext_bounds rS lS
  have hcompS := defaults_comp_bounds rS lS
  have hextW := defaults_ext_bounds rW lW
  have hcompW := defaults_comp_bounds rW lW
  have hltS : fullyExtendedAngle (defaultsParams rS lS) <
      fullyCompressedAngle (defaultsParams rS lS) := by linarith [hextS.2, hcompS.1]
  have hltW : fullyExtendedAngle (defaultsParams rW lW) <
      fullyCompressedAngle (defaultsParams rW lW) := by linarith [hextW.2, hcompW.1]
  have hstepS : sagStep (defaultsParams rS lS) = 0.0005 := if_pos hltS
  have hstepW : sagStep (defaultsParams rW lW) = 0.0005 := if_pos hltW
  have hee : fullyExtendedAngle (defaultsParams rS lS) =
      fullyExtendedAngle (defaultsParams rW lW) := by
    rw [defaults_ext_congr rS lS, defaults_ext_congr rW lW]
  have hθk_lo : -0.103 + (k : ℝ) * 0.0005 ≤
      fullyExtendedAngle (defaultsParams rS lS) + k * 0.0005 := by
    linarith [hextS.1]
  have hθk_hi : fullyExtendedAngle (defaultsParams rS lS) + k * 0.0005 ≤
      -0.102 + (k : ℝ) * 0.0005 := by
    linarith [hextS.2]
  have htrigk : sagTrigger (fullyExtendedAngle (defaultsParams rS lS) + k * 0.0005)
      (defaultsParams rS lS) := hS _ hθk_lo hθk_hi
  have hkc : fullyExtendedAngle (defaultsParams rS lS) + k * 0.0005 ≤
      fullyCompressedAngle (defaultsParams rS lS) := by
    linarith [hcompS.1]
  have hangS : (computeSag (defaultsParams rS lS)).angle ≤
      fullyExtendedAngle (defaultsParams rS lS) + k * 0.0005 := by
    unfold computeSag
    rw [hstepS]
    exact sagScan_angle_le_grid (defaultsParams rS lS) _ 0.0005 _ (by norm_num) 200000 k
      (fullyExtendedAngle (defaultsParams rS lS)) hk1 hk2 hkc htrigk
  have hangW : beta < (computeSag (defaultsParams rW lW)).angle := by
    unfold computeSag
    rw [hstepW]
    apply sagScan_angle_gt_pos (defaultsParams rW lW) _ 0.0005 _ beta (by norm_num)
      (by linarith [hcompW.1]) 200000 (fullyExtendedAngle (defaultsParams rW lW))
    intro x hx1 hx2
    exact hW x (by linarith [hextW.1]) hx2
  have hbndS : fullyExtendedAngle (defaultsParams rS lS) ≤
      (computeSag (defaultsParams rS lS)).angle ∧
      (computeSag (defaultsParams rS lS)).angle ≤
        fullyCompressedAngle (defaultsParams rS lS) := by
    unfold computeSag
    rw [hstepS]
    exact sagScan_angle_bounds_pos _ _ _ _ (by norm_num) 200000 _ (le_of_lt hltS)
  have hbndW : fullyExtendedAngle (defaultsParams rW lW) ≤
      (computeSag (defaultsParams rW lW)).angle ∧
      (computeSag (defaultsParams rW lW)).angle ≤
        fullyCompressedAngle (defaultsParams rW lW) := by
    unfold computeSag
    rw [hstepW]
    exact sagScan_angle_bounds_pos _ _ _ _ (by norm_num) 200000 _ (le_of_lt hltW)
  have hsagS : (computeSag (defaultsParams rS lS)).sagMM =
      550 * Real.sin ((computeSag (defaultsParams rS lS)).angle) -
        550 * Real.sin (fullyExtendedAngle (defaultsParams rS lS)) := by
    unfold computeSag
    rw [sagScan_sagMM]
    rfl
  have hsagW : (computeSag (defaultsParams rW lW)).sagMM =
      550 * Real.sin ((computeSag (defaultsParams rW lW)).angle) -
        550 * Real.sin (fullyExtendedAngle (defaultsParams rW lW)) := by
    unfold computeSag
    rw [sagScan_sagMM]
    rfl
  have hsinlt : Real.sin ((computeSag (defaultsParams rS lS)).angle) <
      Real.sin ((computeSag (defaultsParams rW lW)).angle) := by
    apply Real.strictMonoOn_sin ⟨?_, ?_⟩ ⟨?_, ?_⟩
      (lt_of_le_of_lt (hangS.trans (le_trans hθk_hi hkb)) hangW)
    · linarith [hbndS.1, hextS.1]
    · linarith [hbndS.2, hcompS.2]
    · linarith [hbndW.1, hextW.1]
    · linarith [hbndW.2, hcompW.2]
  rw [hsagS, hsagW, hee]
  linarith [hsinlt]

/-- DEFAULTS chain: raising `springRate` from 400 to 600 (load 200)
strictly decreases the sag. -/
theorem defaults_chain_600_400 :
    (computeSag (defaultsParams 600 200)).sagMM <
      (computeSag (defaultsParams 400 200)).sagMM := by
  apply defaults_sag_lt 600 200 400 200 (-0.012) 180 (by norm_num) (by norm_num)
    (by push_cast; norm_num) (by norm_num)
  · intro theta ht1 ht2
    apply defaults_trig_180 theta
    · push_cast at ht1
      linarith
    · push_cast at ht2
      linarith
  · intro theta ht1 ht2
    exact defaults_notrig_400_200 theta ht1 ht2

/-- DEFAULTS chain: raising `springRate` from 600 to 800 (load 200)
strictly decreases the sag. -/
theorem defaults_chain_800_600 :
    (computeSag (defaultsParams 800 200)).sagMM <
      (computeSag (defaultsParams 600 200)).sagMM := by
  apply defaults_sag_lt 800 200 600 200 (-0.032) 140 (by norm_num) (by norm_num)
    (by push_cast; norm_num) (by norm_num)
  · intro theta ht1 ht2
    apply defaults_trig_140 theta
    · push_cast at ht1
      linarith
    · push_cast at ht2
      linarith
  · intro theta ht1 ht2
    exact defaults_notrig_600_200 theta ht1 ht2

/-- DEFAULTS chain: raising `springRate` from 800 to 1000 (load 200)
strictly decreases the sag. -/
theorem defaults_chain_1000_800 :
    (computeSag (defaultsParams 1000 200)).sagMM <
      (computeSag (defaultsParams 800 200)).sagMM := by
  apply defaults_sag_lt 1000 200 800 200 (-0.046) 112 (by norm_num) (by norm_num)
    (by push_cast; norm_num) (by norm_num)
  · intro theta ht1 ht2
    apply defaults_trig_112 theta
    · push_cast at ht1
      linarith
    · push_cast at ht2
      linarith
  · intro theta ht1 ht2
    exact defaults_notrig_800_200 theta ht1 ht2

/-- DEFAULTS chain: raising `load` from 100 to 150 (springRate 600)
strictly increases the sag. -/
theorem defaults_chain_100_150 :
    (computeSag (defaultsParams 600 100)).sagMM <
      (computeSag (defaultsParams 600 150)).sagMM := by
  apply defaults_sag_lt 600 100 600 150 (-0.054) 96 (by norm_num) (by norm_num)
    (by push_cast; norm_num) (by norm_num)
  · intro theta ht1 ht2
    apply defaults_trig_96 theta
    · push_cast at ht1
      linarith
    · push_cast at ht2
      linarith
  · intro theta ht1 ht2
    exact defaults_notrig_600_150 theta ht1 ht2

/-- DEFAULTS chain: raising `load` from 150 to 200 (springRate 600)
strictly increases the sag. -/
theorem defaults_chain_150_200 :
    (computeSag (defaultsParams 600 150)).sagMM <
      (computeSag (defaultsParams 600 200)).sagMM := by
  apply defaults_sag_lt 600 150 600 200 (-0.034) 136 (by norm_num) (by norm_num)
    (by push_cast; norm_num) (by norm_num)
  · intro theta ht1 ht2
    apply defaults_trig_136 theta
    · push_cast at ht1
      linarith
    · push_cast at ht2
      linarith
  · intro theta ht1 ht2
    exact defaults_notrig_600_200 theta ht1 (by linarith)

/-- DEFAULTS chain: raising `load` from 200 to 250 (springRate 600)
strictly increases the sag. -/
theorem defaults_chain_200_250 :
    (computeSag (defaultsParams 600 200)).sagMM <
      (computeSag (defaultsParams 600 250)).sagMM := by
  apply defaults_sag_lt 600 200 600 250 (-0.012) 180 (by norm_num) (by norm_num)
    (by push_cast; norm_num) (by norm_num)
  · intro theta ht1 ht2
    apply defaults_trig_180 theta
    · push_cast at ht1
      linarith
    · push_cast at ht2
      linarith
  · intro theta ht1 ht2
    exact defaults_notrig_600_250 theta ht1 ht2

/-! ### A reversed-travel geometry: the scan direction flips the monotonicity

Upper mount at `(0, -250)`, free length `300`: the shock length grows with
the swingarm angle, so the fully-compressed angle lies below the
fully-extended one and the scan steps downward.  There a stiffer spring
(or a lighter load) triggers closer to the extended end, i.e. at a larger
angle, and the sag moves the other way. -/

/-- Reversed-travel parameter family: upper mount `(0, -250)`, free
length `300`, stroke `55`, swingarm `550`, preload `0`. -/
def revParams (rate load : ℝ) : Params :=
  ⟨550, 250, 0, -250, 300, 55, rate, load, 0⟩

theorem shockLength_rev (rate load theta : ℝ) :
    shockLength theta (revParams rate load) =
      Real.sqrt (125000 * (1 + Real.sin theta)) := by
  simp only [shockLength, lowerMountPosition, revParams]
  congr 1
  nlinarith [Real.sin_sq_add_cos_sq theta]

theorem rev_len_mono (rate load : ℝ) {a b : ℝ}
    (ha : -(π / 2) ≤ a) (hb : b ≤ π / 2) (hab : a ≤ b) :
    shockLength a (revParams rate load) ≤ shockLength b (revParams rate load) := by
  rw [shockLength_rev, shockLength_rev]
  apply Real.sqrt_le_sqrt
  have hsin : Real.sin a ≤ Real.sin b :=
    Real.strictMonoOn_sin.monotoneOn ⟨ha, by linarith⟩ ⟨by linarith, hb⟩ hab
  linarith

theorem rev_len_neg_pi_div_two (rate load : ℝ) :
    shockLength (-(π / 2)) (revParams rate load) = 0 := by
  rw [shockLength_rev, Real.sin_neg, Real.sin_pi_div_two]
  rw [show (125000 : ℝ) * (1 + -1) = 0 by norm_num, Real.sqrt_zero]

theorem rev_len_pi_div_four_gt (rate load : ℝ) :
    (300 : ℝ) < shockLength (π / 4) (revParams rate load) := by
  rw [shockLength_rev, Real.sin_pi_div_four]
  rw [Real.lt_sqrt (by norm_num)]
  have h2 := Real.sqrt_nonneg 2
  nlinarith

theorem rev_bracket_300 (rate load : ℝ) :
    ((300 : ℝ) - shockLength (-(π / 2)) (revParams rate load)) *
      (300 - shockLength (π / 4) (revParams rate load)) < 0 := by
  rw [rev_len_neg_pi_div_two]
  nlinarith [rev_len_pi_div_four_gt rate load]

theorem rev_bracket_245 (rate load : ℝ) :
    ((245 : ℝ) - shockLength (-(π / 2)) (revParams rate load)) *
      (245 - shockLength (π / 4) (revParams rate load)) < 0 := by
  rw [rev_len_neg_pi_div_two]
  nlinarith [rev_len_pi_div_four_gt rate load]

theorem rev_lowerMountDist_le (rate load : ℝ) :
    |(revParams rate load).lowerMountDist| ≤ 1e6 := by
  show |(250 : ℝ)| ≤ 1e6
  rw [abs_of_nonneg] <;> norm_num

theorem rev_len_neg_030 (rate load : ℝ) :
    shockLength (-0.30) (revParams rate load) < 299.999 := by
  rw [shockLength_rev, Real.sin_neg]
  rw [Real.sqrt_lt' (by norm_num : (0 : ℝ) < 299.999)]
  have hs := Real.sin_gt_sub_cube (show (0 : ℝ) < 0.30 by norm_num) (by norm_num)
  nlinarith

theorem rev_len_neg_027 (rate load : ℝ) :
    (300.001 : ℝ) < shockLength (-0.27) (revParams rate load) := by
  rw [shockLength_rev, Real.sin_neg]
  rw [Real.lt_sqrt (by norm_num)]
  have hs := Real.sin_lt (show (0 : ℝ) < 0.27 by norm_num)
  nlinarith

theorem rev_len_neg_058 (rate load : ℝ) :
    shockLength (-0.58) (revParams rate load) < 244.999 := by
  rw [shockLength_rev, Real.sin_neg]
  rw [Real.sqrt_lt' (by norm_num : (0 : ℝ) < 244.999)]
  have hs := Real.sin_gt_sub_cube (show (0 : ℝ) < 0.58 by norm_num) (by norm_num)
  nlinarith

theorem rev_len_neg_051 (rate load : ℝ) :
    (245.001 : ℝ) < shockLength (-0.51) (revParams rate load) := by
  rw [shockLength_rev, Real.sin_neg]
  rw [Real.lt_sqrt (by norm_num)]
  have hs := Real.sin_lt (show (0 : ℝ) < 0.51 by norm_num)
  nlinarith

theorem rev_ext_bounds (rate load : ℝ) :
    -0.30 < fullyExtendedAngle (revParams rate load) ∧
    fullyExtendedAngle (revParams rate load) < -0.27 := by
  have htol := findAngle_tol 300 (revParams rate load)
    (rev_bracket_300 rate load) (rev_lowerMountDist_le rate load)
  have hmem := findAngleForShockLength_mem 300 (revParams rate load)
  have habs := abs_le.mp htol
  have hpi3 := Real.pi_gt_three
  have hext : fullyExtendedAngle (revParams rate load) =
      findAngleForShockLength 300 (revParams rate load) := rfl
  rw [hext]
  constructor
  · by_contra hc
    push_neg at hc
    have hmono := rev_len_mono rate load hmem.1 (by linarith) hc
    linarith [rev_len_neg_030 rate load]
  · by_contra hc
    push_neg at hc
    have hmono := rev_len_mono rate load (by linarith) (by linarith [hmem.2]) hc
    linarith [rev_len_neg_027 rate load]

theorem rev_comp_bounds (rate load : ℝ) :
    -0.58 < fullyCompressedAngle (revParams rate load) ∧
    fullyCompressedAngle (revParams rate load) < -0.51 := by
  have htol := findAngle_tol 245 (revParams rate load)
    (rev_bracket_245 rate load) (rev_lowerMountDist_le rate load)
  have hmem := findAngleForShockLength_mem 245 (revParams rate load)
  have habs := abs_le.mp htol
  have hpi3 := Real.pi_gt_three
  have hcomp : fullyCompressedAngle (revParams rate load) =
      findAngleForShockLength 245 (revParams rate load) := by
    show findAngleForShockLength ((300 : ℝ) - 55) _ = _
    norm_num
  rw [hcomp]
  constructor
  · by_contra hc
    push_neg at hc
    have hmono := rev_len_mono rate load hmem.1 (by linarith) hc
    linarith [rev_len_neg_058 rate load]
  · by_contra hc
    push_neg at hc
    have hmono := rev_len_mono rate load (by linarith) (by linarith [hmem.2]) hc
    linarith [rev_len_neg_051 rate load]

theorem rev_comp_lt_ext (rate load : ℝ) :
    fullyCompressedAngle (revParams rate load) < fullyExtendedAngle (revParams rate load) := by
  linarith [(rev_comp_bounds rate load).2, (rev_ext_bounds rate load).1]

theorem rev_step (rate load : ℝ) : sagStep (revParams rate load) = -0.0005 :=
  if_neg (not_lt.mpr (le_of_lt (rev_comp_lt_ext rate load)))

theorem rev_shockLength_irrel (r1 l1 r2 l2 theta : ℝ) :
    shockLength theta (revParams r1 l1) = shockLength theta (revParams r2 l2) := by
  rw [shockLength_rev, shockLength_rev]

theorem rev_ext_congr (rate load : ℝ) :
    fullyExtendedAngle (revParams rate load) = fullyExtendedAngle (revParams 1e9 200) :=
  findAngleForShockLength_congr _ _ _
    (fun theta => rev_shockLength_irrel rate load 1e9 200 theta)

theorem rev_comp_congr (rate load : ℝ) :
    fullyCompressedAngle (revParams rate load) = fullyCompressedAngle (revParams 1e9 200) :=
  findAngleForShockLength_congr _ _ _
    (fun theta => rev_shockLength_irrel rate load 1e9 200 theta)

/-- The shock-lever cross product of the reversed-travel geometry. -/
theorem rev_cross (rate load theta : ℝ) :
    (lowerMountPosition theta (revParams rate load).lowerMountDist).1 *
        (shockUnit theta (revParams rate load)).2 -
      (lowerMountPosition theta (revParams rate load).lowerMountDist).2 *
        (shockUnit theta (revParams rate load)).1 =
      (-(62500 * Real.cos theta)) / shockLength theta (revParams rate load) := by
  unfold shockUnit lowerMountPosition
  show (250 : ℝ) * Real.cos theta *
      ((-250 - 250 * Real.sin theta) / shockLength theta (revParams rate load)) -
    250 * Real.sin theta *
      ((0 - 250 * Real.cos theta) / shockLength theta (revParams rate load)) = _
  rw [← mul_div_assoc, ← mul_div_assoc, div_sub_div_same]
  congr 1
  ring

/-- On the whole reversed-travel scan range the spring torque stays below
the load torque whenever the configuration satisfies the stated numeric
bound, so the scan bottoms out. -/
theorem rev_no_trigger_of_bounds (rate load theta : ℝ) (hr : 0 ≤ rate) (hl : 0 ≤ load)
    (h1 : (-0.58 : ℝ) ≤ theta) (h2 : theta ≤ -0.27)
    (hfinal : 62500 / 229 * (rate * (300 / 25.4)) < load * 550 * 0.8318) :
    ¬ sagTrigger theta (revParams rate load) := by
  have hcos_lo : (0.8318 : ℝ) ≤ Real.cos theta := by
    have h := Real.one_sub_sq_div_two_le_cos (x := theta)
    nlinarith
  have hsin_ge : (-0.58 : ℝ) ≤ Real.sin theta := by
    have h := Real.sin_lt (show (0 : ℝ) < -theta by linarith)
    rw [Real.sin_neg] at h
    linarith
  have hlen_gt : (229 : ℝ) < shockLength theta (revParams rate load) := by
    rw [shockLength_rev, Real.lt_sqrt (by norm_num)]
    nlinarith
  have hlen_pos : (0 : ℝ) < shockLength theta (revParams rate load) := by linarith
  have hA_eq : |(lowerMountPosition theta (revParams rate load).lowerMountDist).1 *
        (shockUnit theta (revParams rate load)).2 -
      (lowerMountPosition theta (revParams rate load).lowerMountDist).2 *
        (shockUnit theta (revParams rate load)).1| =
      62500 * Real.cos theta / shockLength theta (revParams rate load) := by
    rw [rev_cross rate load theta, abs_div, abs_neg,
      abs_of_nonneg (by nlinarith : (0 : ℝ) ≤ 62500 * Real.cos theta),
      abs_of_pos hlen_pos]
  have hA_le : 62500 * Real.cos theta / shockLength theta (revParams rate load) ≤
      62500 / 229 := by
    apply div_le_div₀ (by norm_num) (by nlinarith [Real.cos_le_one theta]) (by norm_num)
      (le_of_lt hlen_gt)
  have hA_nn : 0 ≤ 62500 * Real.cos theta / shockLength theta (revParams rate load) :=
    div_nonneg (by nlinarith) (le_of_lt hlen_pos)
  have hsf_nn : 0 ≤ springForce theta (revParams rate load) :=
    mul_nonneg hr (le_max_left _ _)
  have hsf_le : springForce theta (revParams rate load) ≤ rate * (300 / 25.4) := by
    unfold springForce
    apply mul_le_mul_of_nonneg_left _ hr
    apply max_le (by norm_num)
    show (300 - shockLength theta (revParams rate load) + 0) / 25.4 ≤ 300 / 25.4
    apply (div_le_div_iff_of_pos_right (by norm_num : (0 : ℝ) < 25.4)).mpr
    linarith
  have hst : springTorqueAt theta (revParams rate load) ≤
      62500 / 229 * (rate * (300 / 25.4)) := by
    unfold springTorqueAt
    rw [hA_eq]
    exact mul_le_mul hA_le hsf_le hsf_nn (by norm_num)
  have hload_ge : load * 550 * 0.8318 ≤ loadTorqueAt theta (revParams rate load) := by
    unfold loadTorqueAt axlePosition
    show load * 550 * 0.8318 ≤ load * |(550 : ℝ) * Real.cos theta|
    have habs : (550 : ℝ) * 0.8318 ≤ |(550 : ℝ) * Real.cos theta| := by
      calc (550 : ℝ) * 0.8318 ≤ 550 * Real.cos theta := by linarith
        _ ≤ |(550 : ℝ) * Real.cos theta| := le_abs_self _
    calc load * 550 * 0.8318 = load * (550 * 0.8318) := by ring
      _ ≤ load * |(550 : ℝ) * Real.cos theta| := mul_le_mul_of_nonneg_left habs hl
  intro htr
  have hlt : springTorqueAt theta (revParams rate load) <
      loadTorqueAt theta (revParams rate load) :=
    lt_of_le_of_lt hst (lt_of_lt_of_le hfinal hload_ge)
  linarith [htr.2]

/-- No in-range scanned grid point of the reversed-travel geometry
triggers, for configurations meeting the numeric bound. -/
theorem rev_no_trigger_grid (rate load : ℝ) (hr : 0 ≤ rate) (hl : 0 ≤ load)
    (hfinal : 62500 / 229 * (rate * (300 / 25.4)) < load * 550 * 0.8318) :
    ∀ j : ℕ, 1 ≤ j → j ≤ 200000 →
      (0 < sagStep (revParams rate load) → fullyExtendedAngle (revParams rate load) +
        j * sagStep (revParams rate load) ≤ fullyCompressedAngle (revParams rate load)) →
      (sagStep (revParams rate load) < 0 → fullyCompressedAngle (revParams rate load) ≤
        fullyExtendedAngle (revParams rate load) + j * sagStep (revParams rate load)) →
      ¬ sagTrigger (fullyExtendedAngle (revParams rate load) +
          j * sagStep (revParams rate load)) (revParams rate load) := by
  intro j hj1 hj2 hr1 hr2
  have hstep := rev_step rate load
  rw [hstep] at hr1 hr2 ⊢
  have hj1R : (1 : ℝ) ≤ (j : ℝ) := by exact_mod_cast hj1
  have hext := rev_ext_bounds rate load
  have hcomp := rev_comp_bounds rate load
  have hrange := hr2 (by norm_num)
  have hθ1 : (-0.58 : ℝ) ≤ fullyExtendedAngle (revParams rate load) + j * (-0.0005) := by
    linarith [hcomp.1]
  have hθ2 : fullyExtendedAngle (revParams rate load) + j * (-0.0005) ≤ -0.27 := by
    linarith [hext.2]
  exact rev_no_trigger_of_bounds rate load _ hr hl hθ1 hθ2 hfinal

/-- Configurations meeting the numeric bound bottom out on the
reversed-travel geometry. -/
theorem rev_bottoms_out (rate load : ℝ) (hr : 0 ≤ rate) (hl : 0 ≤ load)
    (hfinal : 62500 / 229 * (rate * (300 / 25.4)) < load * 550 * 0.8318) :
    computeSag (revParams rate load) =
      ⟨fullyCompressedAngle (revParams rate load),
        (axlePosition (fullyCompressedAngle (revParams rate load))
          (revParams rate load).swingarmLength).2 -
        (axlePosition (fullyExtendedAngle (revParams rate load))
          (revParams rate load).swingarmLength).2⟩ := by
  unfold computeSag
  exact sagScan_no_trigger (revParams rate load) _ _ _ 200000
    (fullyExtendedAngle (revParams rate load))
    (fun j hj1 hj2 hr1 hr2 =>
      rev_no_trigger_grid rate load hr hl hfinal j hj1 hj2 hr1 hr2)

/-- The bottomed-out reversed-travel sag, normalised to the canonical
travel-limit angles of the family. -/
theorem rev_bottom_sagMM (rate load : ℝ) (hr : 0 ≤ rate) (hl : 0 ≤ load)
    (hfinal : 62500 / 229 * (rate * (300 / 25.4)) < load * 550 * 0.8318) :
    (computeSag (revParams rate load)).sagMM =
      550 * Real.sin (fullyCompressedAngle (revParams 1e9 200)) -
      550 * Real.sin (fullyExtendedAngle (revParams 1e9 200)) := by
  rw [rev_bottoms_out rate load hr hl hfinal]
  show (axlePosition (fullyCompressedAngle (revParams rate load))
      (revParams rate load).swingarmLength).2 -
    (axlePosition (fullyExtendedAngle (revParams rate load))
      (revParams rate load).swingarmLength).2 = _
  rw [rev_ext_congr rate load, rev_comp_congr rate load]
  rfl

set_option maxHeartbeats 1000000 in
/-- Quantitative growth of the reversed-travel shock length near the
fully-extended angle. -/
theorem rev_len_gap (rate load : ℝ) {a b : ℝ}
    (ha : (-0.3105 : ℝ) ≤ a) (hb : b ≤ -0.26) (hab : a < b) :
    100 * (b - a) ≤
      shockLength b (revParams rate load) - shockLength a (revParams rate load) := by
  have harga : (0 : ℝ) ≤ 125000 * (1 + Real.sin a) := by
    nlinarith [Real.neg_one_le_sin a]
  have hargb : (0 : ℝ) ≤ 125000 * (1 + Real.sin b) := by
    nlinarith [Real.neg_one_le_sin b]
  have hla : shockLength a (revParams rate load) = Real.sqrt (125000 * (1 + Real.sin a)) :=
    shockLength_rev rate load a
  have hlb : shockLength b (revParams rate load) = Real.sqrt (125000 * (1 + Real.sin b)) :=
    shockLength_rev rate load b
  have hsqa : shockLength a (revParams rate load) ^ 2 = 125000 * (1 + Real.sin a) := by
    rw [hla]
    exact Real.sq_sqrt harga
  have hsqb : shockLength b (revParams rate load) ^ 2 = 125000 * (1 + Real.sin b) := by
    rw [hlb]
    exact Real.sq_sqrt hargb
  have hpi := Real.pi_gt_three
  have hmono : shockLength a (revParams rate load) ≤ shockLength b (revParams rate load) :=
    rev_len_mono rate load (by linarith) (by linarith) (le_of_lt hab)
  -- lower bound on the sine increment
  have hsub : Real.sin b - Real.sin a =
      2 * Real.sin ((b - a) / 2) * Real.cos ((b + a) / 2) := Real.sin_sub_sin b a
  have hh1 : (0 : ℝ) < (b - a) / 2 := by linarith
  have hh2 : (b - a) / 2 ≤ 0.02525 := by linarith
  have hsinh := Real.sin_gt_sub_cube hh1 (by linarith : (b - a) / 2 ≤ 1)
  have hsq : ((b - a) / 2) * ((b - a) / 2) ≤ 0.02525 * 0.02525 := by nlinarith
  have hcube : ((b - a) / 2) ^ 3 ≤ ((b - a) / 2) * (0.02525 * 0.02525) := by
    nlinarith [mul_le_mul_of_nonneg_left hsq (le_of_lt hh1)]
  have hsinh' : 0.999 * ((b - a) / 2) ≤ Real.sin ((b - a) / 2) := by nlinarith
  have hmid : (0.9517 : ℝ) ≤ Real.cos ((b + a) / 2) := by
    have h := Real.one_sub_sq_div_two_le_cos (x := (b + a) / 2)
    nlinarith
  have hsinc : 118800 * (b - a) ≤ 125000 * (Real.sin b - Real.sin a) := by
    rw [hsub]
    have hs_nn : 0 ≤ Real.sin ((b - a) / 2) := by nlinarith
    nlinarith [mul_le_mul hsinh' hmid (by norm_num) hs_nn]
  -- upper bound on the sum of the two lengths
  have hlb26 : shockLength b (revParams rate load) < 305.05 := by
    have hmono2 : shockLength b (revParams rate load) ≤
        shockLength (-0.26) (revParams rate load) :=
      rev_len_mono rate load (by linarith) (by linarith) hb
    have h26 : shockLength (-0.26) (revParams rate load) < 305.05 := by
      rw [shockLength_rev, Real.sin_neg]
      rw [Real.sqrt_lt' (by norm_num : (0 : ℝ) < 305.05)]
      have hs := Real.sin_gt_sub_cube (show (0 : ℝ) < 0.26 by norm_num) (by norm_num)
      nlinarith
    linarith
  have hla_nn : 0 ≤ shockLength a (revParams rate load) := by
    rw [hla]
    exact Real.sqrt_nonneg _
  have hsum : shockLength b (revParams rate load) + shockLength a (revParams rate load) ≤
      611 := by linarith
  have hdiff_nn : 0 ≤ shockLength b (revParams rate load) -
      shockLength a (revParams rate load) := by linarith
  have hfact : (shockLength b (revParams rate load) - shockLength a (revParams rate load)) *
      (shockLength b (revParams rate load) + shockLength a (revParams rate load)) =
      125000 * (Real.sin b - Real.sin a) := by
    have : (shockLength b (revParams rate load) - shockLength a (revParams rate load)) *
        (shockLength b (revParams rate load) + shockLength a (revParams rate load)) =
        shockLength b (revParams rate load) ^ 2 - shockLength a (revParams rate load) ^ 2 := by
      ring
    rw [this, hsqa, hsqb]
    ring
  have h611 : 118800 * (b - a) ≤
      (shockLength b (revParams rate load) - shockLength a (revParams rate load)) * 611 := by
    calc 118800 * (b - a) ≤ 125000 * (Real.sin b - Real.sin a) := hsinc
      _ = (shockLength b (revParams rate load) - shockLength a (revParams rate load)) *
          (shockLength b (revParams rate load) + shockLength a (revParams rate load)) :=
            hfact.symm
      _ ≤ (shockLength b (revParams rate load) - shockLength a (revParams rate load)) * 611 :=
            mul_le_mul_of_nonneg_left hsum hdiff_nn
  nlinarith [h611]

/-- The 21st scanned grid step of the reversed-travel geometry triggers at
`springRate 10^9`, `load 200`. -/
theorem rev_trig (theta : ℝ) (h1 : (-0.3105 : ℝ) ≤ theta) (h2 : theta ≤ -0.2805)
    (hlen : shockLength theta (revParams 1e9 200) ≤ 298.98) :
    sagTrigger theta (revParams 1e9 200) := by
  have hcos_lo : (0.9517 : ℝ) ≤ Real.cos theta := by
    have h := Real.one_sub_sq_div_two_le_cos (x := theta)
    nlinarith
  have hsin_ge : (-0.3105 : ℝ) ≤ Real.sin theta := by
    have h := Real.sin_lt (show (0 : ℝ) < -theta by linarith)
    rw [Real.sin_neg] at h
    linarith
  have hlen_pos : (0 : ℝ) < shockLength theta (revParams 1e9 200) := by
    rw [shockLength_rev, Real.lt_sqrt (by norm_num)]
    nlinarith
  have hsf_ge : (1e9 : ℝ) * (1.02 / 25.4) ≤ springForce theta (revParams 1e9 200) := by
    unfold springForce
    apply mul_le_mul_of_nonneg_left _ (by norm_num : (0 : ℝ) ≤ 1e9)
    have h2' : (1.02 : ℝ) / 25.4 ≤ (shockCompression theta (revParams 1e9 200) +
        (revParams 1e9 200).preload) / 25.4 := by
      show (1.02 : ℝ) / 25.4 ≤ (300 - shockLength theta (revParams 1e9 200) + 0) / 25.4
      apply (div_le_div_iff_of_pos_right (by norm_num : (0 : ℝ) < 25.4)).mpr
      linarith
    exact le_trans h2' (le_max_right _ _)
  have hsfpos : 0 < springForce theta (revParams 1e9 200) :=
    lt_of_lt_of_le (by norm_num) hsf_ge
  have hA_eq : |(lowerMountPosition theta (revParams 1e9 200).lowerMountDist).1 *
        (shockUnit theta (revParams 1e9 200)).2 -
      (lowerMountPosition theta (revParams 1e9 200).lowerMountDist).2 *
        (shockUnit theta (revParams 1e9 200)).1| =
      62500 * Real.cos theta / shockLength theta (revParams 1e9 200) := by
    rw [rev_cross 1e9 200 theta, abs_div, abs_neg,
      abs_of_nonneg (by nlinarith : (0 : ℝ) ≤ 62500 * Real.cos theta),
      abs_of_pos hlen_pos]
  have hA_ge : 62500 * 0.9517 / 298.98 ≤
      62500 * Real.cos theta / shockLength theta (revParams 1e9 200) := by
    apply div_le_div₀ (by nlinarith) (by nlinarith) hlen_pos hlen
  have hst : 62500 * 0.9517 / 298.98 * (1e9 * (1.02 / 25.4)) ≤
      springTorqueAt theta (revParams 1e9 200) := by
    unfold springTorqueAt
    rw [hA_eq]
    exact mul_le_mul hA_ge hsf_ge (by norm_num)
      (div_nonneg (by nlinarith) (le_of_lt hlen_pos))
  have hload_le : loadTorqueAt theta (revParams 1e9 200) ≤ 200 * 550 := by
    unfold loadTorqueAt axlePosition
    show (200 : ℝ) * |(550 : ℝ) * Real.cos theta| ≤ 200 * 550
    rw [abs_mul, abs_of_nonneg (by norm_num : (0 : ℝ) ≤ 550)]
    nlinarith [Real.abs_cos_le_one theta, abs_nonneg (Real.cos theta)]
  refine ⟨hsfpos, ?_⟩
  calc loadTorqueAt theta (revParams 1e9 200) ≤ 200 * 550 := hload_le
    _ ≤ 62500 * 0.9517 / 298.98 * (1e9 * (1.02 / 25.4)) := by norm_num
    _ ≤ springTorqueAt theta (revParams 1e9 200) := hst

/-- The triggering reversed-travel scan at `springRate 10^9`, `load 200`
settles strictly above the bottomed-out sag of the family. -/
theorem rev_trig_sag_gt :
    550 * Real.sin (fullyCompressedAngle (revParams 1e9 200)) -
      550 * Real.sin (fullyExtendedAngle (revParams 1e9 200)) <
    (computeSag (revParams 1e9 200)).sagMM := by
  have hpi := Real.pi_gt_three
  have hext := rev_ext_bounds 1e9 200
  have hcomp := rev_comp_bounds 1e9 200
  have htol := findAngle_tol 300 (revParams 1e9 200)
    (rev_bracket_300 1e9 200) (rev_lowerMountDist_le 1e9 200)
  have habs := abs_le.mp htol
  have hext_eq : fullyExtendedAngle (revParams 1e9 200) =
      findAngleForShockLength 300 (revParams 1e9 200) := rfl
  have hlen_ext : shockLength (fullyExtendedAngle (revParams 1e9 200)) (revParams 1e9 200) ≤
      300.001 := by
    rw [hext_eq]
    linarith [habs.2]
  have hgap := rev_len_gap 1e9 200
    (a := fullyExtendedAngle (revParams 1e9 200) - 0.0105)
    (b := fullyExtendedAngle (revParams 1e9 200))
    (by linarith [hext.1]) (by linarith [hext.2]) (by linarith)
  have hlen21 : shockLength (fullyExtendedAngle (revParams 1e9 200) - 0.0105)
      (revParams 1e9 200) ≤ 298.98 := by linarith
  have htr := rev_trig (fullyExtendedAngle (revParams 1e9 200) - 0.0105)
    (by linarith [hext.1]) (by linarith [hext.2]) hlen21
  have heq : fullyExtendedAngle (revParams 1e9 200) + (21 : ℕ) * (-0.0005 : ℝ) =
      fullyExtendedAngle (revParams 1e9 200) - 0.0105 := by
    push_cast
    ring
  have hang : fullyExtendedAngle (revParams 1e9 200) - 0.0105 ≤
      (computeSag (revParams 1e9 200)).angle := by
    unfold computeSag
    rw [rev_step 1e9 200]
    rw [show fullyExtendedAngle (revParams 1e9 200) - 0.0105 =
      fullyExtendedAngle (revParams 1e9 200) + (21 : ℕ) * (-0.0005 : ℝ) from heq.symm]
    apply sagScan_angle_ge_grid (revParams 1e9 200) _ (-0.0005) _ (by norm_num) 200000 21
      (fullyExtendedAngle (revParams 1e9 200)) (by norm_num) (by norm_num)
    · rw [heq]
      linarith [hcomp.2]
    · rw [heq]
      exact htr
  have hbnd : fullyCompressedAngle (revParams 1e9 200) ≤
      (computeSag (revParams 1e9 200)).angle ∧
      (computeSag (revParams 1e9 200)).angle ≤ fullyExtendedAngle (revParams 1e9 200) := by
    unfold computeSag
    rw [rev_step 1e9 200]
    exact sagScan_angle_bounds_neg _ _ _ _ (by norm_num) 200000 _
      (le_of_lt (rev_comp_lt_ext 1e9 200))
  have hsag : (computeSag (revParams 1e9 200)).sagMM =
      550 * Real.sin ((computeSag (revParams 1e9 200)).angle) -
        550 * Real.sin (fullyExtendedAngle (revParams 1e9 200)) := by
    unfold computeSag
    rw [sagScan_sagMM]
    rfl
  have hsinlt : Real.sin (fullyCompressedAngle (revParams 1e9 200)) <
      Real.sin ((computeSag (revParams 1e9 200)).angle) := by
    apply Real.strictMonoOn_sin ⟨?_, ?_⟩ ⟨?_, ?_⟩
      (lt_of_lt_of_le (by linarith [hcomp.2, hext.1] :
        fullyCompressedAngle (revParams 1e9 200) <
          fullyExtendedAngle (revParams 1e9 200) - 0.0105) hang)
    · linarith [hcomp.1]
    · linarith [hcomp.2]
    · linarith [hbnd.1, hcomp.1]
    · linarith [hbnd.2, hext.2]
  rw [hsag]
  linarith

/-! ### A negative swingarm length: the sag flips sign with the axle height

The witness geometry with `swingarmLength = -550`: travel limits and all
torques are unchanged (the load torque takes an absolute value), but
`axleY = swingarmLength * sin theta` is negated, so a later stop of the
scan now means a larger sag. -/

theorem geom_len_039_lt (rate load preload : ℝ) :
    shockLength 0.39 (geomParams 280 55 rate load preload) < 279.999 := by
  rw [shockLength_geom, Real.sqrt_lt' (by norm_num)]
  nlinarith [Real.sin_gt_sub_cube (show (0 : ℝ) < 0.39 by norm_num) (by norm_num)]

theorem geom_ext_lt_039 (rate load preload : ℝ) :
    fullyExtendedAngle (geomParams 280 55 rate load preload) < 0.39 := by
  have htol := findAngle_tol 280 (geomParams 280 55 rate load preload)
    (geom_bracket_280 rate load preload) (geom_lowerMountDist_le 280 55 rate load preload)
  have hmem := findAngleForShockLength_mem 280 (geomParams 280 55 rate load preload)
  have habs := abs_le.mp htol
  have hpi3 := Real.pi_gt_three
  have hext : fullyExtendedAngle (geomParams 280 55 rate load preload) =
      findAngleForShockLength 280 (geomParams 280 55 rate load preload) := rfl
  rw [hext]
  by_contra hc
  push_neg at hc
  have hanti := geom_len_anti 280 55 rate load preload (by linarith) hmem.2 hc
  linarith [geom_len_039_lt rate load preload]

set_option maxHeartbeats 1000000 in
/-- Quantitative drop of the witness-family shock length just past the
fully-extended angle. -/
theorem geom_len_gap (freeLength stroke rate load preload : ℝ) {a b : ℝ}
    (ha : (0.3 : ℝ) ≤ a) (hb : b ≤ 0.41) (hab : a < b) :
    100 * (b - a) ≤ shockLength a (geomParams freeLength stroke rate load preload) -
      shockLength b (geomParams freeLength stroke rate load preload) := by
  have harga : (0 : ℝ) ≤ 125000 * (1 - Real.sin a) := by
    nlinarith [Real.sin_le_one a]
  have hargb : (0 : ℝ) ≤ 125000 * (1 - Real.sin b) := by
    nlinarith [Real.sin_le_one b]
  have hla : shockLength a (geomParams freeLength stroke rate load preload) =
      Real.sqrt (125000 * (1 - Real.sin a)) := shockLength_geom _ _ _ _ _ _
  have hlb : shockLength b (geomParams freeLength stroke rate load preload) =
      Real.sqrt (125000 * (1 - Real.sin b)) := shockLength_geom _ _ _ _ _ _
  have hsqa : shockLength a (geomParams freeLength stroke rate load preload) ^ 2 =
      125000 * (1 - Real.sin a) := by
    rw [hla]
    exact Real.sq_sqrt harga
  have hsqb : shockLength b (geomParams freeLength stroke rate load preload) ^ 2 =
      125000 * (1 - Real.sin b) := by
    rw [hlb]
    exact Real.sq_sqrt hargb
  have hpi := Real.pi_gt_three
  have hmono : shockLength b (geomParams freeLength stroke rate load preload) ≤
      shockLength a (geomParams freeLength stroke rate load preload) :=
    geom_len_anti freeLength stroke rate load preload (by linarith) (by linarith)
      (le_of_lt hab)
  have hsub : Real.sin b - Real.sin a =
      2 * Real.sin ((b - a) / 2) * Real.cos ((b + a) / 2) := Real.sin_sub_sin b a
  have hh1 : (0 : ℝ) < (b - a) / 2 := by linarith
  have hh2 : (b - a) / 2 ≤ 0.055 := by linarith
  have hsinh := Real.sin_gt_sub_cube hh1 (by linarith : (b - a) / 2 ≤ 1)
  have hsq : ((b - a) / 2) * ((b - a) / 2) ≤ 0.055 * 0.055 := by nlinarith
  have hcube : ((b - a) / 2) ^ 3 ≤ ((b - a) / 2) * (0.055 * 0.055) := by
    nlinarith [mul_le_mul_of_nonneg_left hsq (le_of_lt hh1)]
  have hsinh' : 0.999 * ((b - a) / 2) ≤ Real.sin ((b - a) / 2) := by nlinarith
  have hmid : (0.9159 : ℝ) ≤ Real.cos ((b + a) / 2) := by
    have h := Real.one_sub_sq_div_two_le_cos (x := (b + a) / 2)
    nlinarith
  have hsinc : 114000 * (b - a) ≤ 125000 * (Real.sin b - Real.sin a) := by
    rw [hsub]
    have hs_nn : 0 ≤ Real.sin ((b - a) / 2) := by nlinarith
    nlinarith [mul_le_mul hsinh' hmid (by norm_num) hs_nn]
  have hla03 : shockLength a (geomParams freeLength stroke rate load preload) < 297.24 := by
    have hmono2 : shockLength a (geomParams freeLength stroke rate load preload) ≤
        shockLength 0.3 (geomParams freeLength stroke rate load preload) :=
      geom_len_anti freeLength stroke rate load preload (by linarith) (by linarith) ha
    have h03 : shockLength 0.3 (geomParams freeLength stroke rate load preload) < 297.24 := by
      rw [shockLength_geom]
      rw [Real.sqrt_lt' (by norm_num : (0 : ℝ) < 297.24)]
      have hs := Real.sin_gt_sub_cube (show (0 : ℝ) < 0.3 by norm_num) (by norm_num)
      nlinarith
    linarith
  have hlb_nn : 0 ≤ shockLength b (geomParams freeLength stroke rate load preload) := by
    rw [hlb]
    exact Real.sqrt_nonneg _
  have hsum : shockLength a (geomParams freeLength stroke rate load preload) +
      shockLength b (geomParams freeLength stroke rate load preload) ≤ 595 := by linarith
  have hdiff_nn : 0 ≤ shockLength a (geomParams freeLength stroke rate load preload) -
      shockLength b (geomParams freeLength stroke rate load preload) := by linarith
  have hfact : (shockLength a (geomParams freeLength stroke rate load preload) -
      shockLength b (geomParams freeLength stroke rate load preload)) *
      (shockLength a (geomParams freeLength stroke rate load preload) +
        shockLength b (geomParams freeLength stroke rate load preload)) =
      125000 * (Real.sin b - Real.sin a) := by
    have hr : (shockLength a (geomParams freeLength stroke rate load preload) -
        shockLength b (geomParams freeLength stroke rate load preload)) *
        (shockLength a (geomParams freeLength stroke rate load preload) +
          shockLength b (geomParams freeLength stroke rate load preload)) =
        shockLength a (geomParams freeLength stroke rate load preload) ^ 2 -
          shockLength b (geomParams freeLength stroke rate load preload) ^ 2 := by
      ring
    rw [hr, hsqa, hsqb]
    ring
  have h595 : 114000 * (b - a) ≤
      (shockLength a (geomParams freeLength stroke rate load preload) -
        shockLength b (geomParams freeLength stroke rate load preload)) * 595 := by
    calc 114000 * (b - a) ≤ 125000 * (Real.sin b - Real.sin a) := hsinc
      _ = (shockLength a (geomParams freeLength stroke rate load preload) -
          shockLength b (geomParams freeLength stroke rate load preload)) *
          (shockLength a (geomParams freeLength stroke rate load preload) +
            shockLength b (geomParams freeLength stroke rate load preload)) := hfact.symm
      _ ≤ (shockLength a (geomParams freeLength stroke rate load preload) -
          shockLength b (geomParams freeLength stroke rate load preload)) * 595 :=
            mul_le_mul_of_nonneg_left hsum hdiff_nn
  nlinarith [h595]

/-- Parametric version of the witness-family torque domination: for any
configuration meeting the stated numeric bound the spring torque stays
below the load torque on the whole scan range. -/
theorem geom_torque_lt_of_bounds (rate load preload theta : ℝ)
    (hrate0 : 0 ≤ rate) (hload0 : 0 ≤ load) (hpre : preload ≤ 0)
    (h1 : 0.3 ≤ theta) (h2 : theta ≤ 0.75)
    (hfinal : 62500 / 176 * (rate * (280 / 25.4)) < load * 550 * 0.71875) :
    springTorqueAt theta (geomParams 280 55 rate load preload) <
      loadTorqueAt theta (geomParams 280 55 rate load preload) := by
  have hθpos : (0 : ℝ) < theta := by linarith
  have hsinlt : Real.sin theta < 0.75 := lt_of_lt_of_le (Real.sin_lt hθpos) h2
  have hsinle1 : Real.sin theta ≤ 1 := Real.sin_le_one theta
  have hlen_eq : shockLength theta (geomParams 280 55 rate load preload) =
      Real.sqrt (125000 * (1 - Real.sin theta)) := shockLength_geom _ _ _ _ _ _
  have hlen_gt : (176 : ℝ) < shockLength theta (geomParams 280 55 rate load preload) := by
    rw [hlen_eq, Real.lt_sqrt (by norm_num)]
    nlinarith
  have hlen_pos : (0 : ℝ) < shockLength theta (geomParams 280 55 rate load preload) := by
    linarith
  have hcos_ge : (0.71875 : ℝ) ≤ Real.cos theta := by
    have := Real.one_sub_sq_div_two_le_cos (x := theta)
    nlinarith
  have hcos_le1 : Real.cos theta ≤ 1 := Real.cos_le_one theta
  have hsf_nn : 0 ≤ springForce theta (geomParams 280 55 rate load preload) :=
    mul_nonneg hrate0 (le_max_left _ _)
  have hsf_le : springForce theta (geomParams 280 55 rate load preload) ≤
      rate * (280 / 25.4) := by
    unfold springForce
    apply mul_le_mul_of_nonneg_left _ hrate0
    apply max_le (by norm_num)
    show (280 - shockLength theta (geomParams 280 55 rate load preload) + preload) / 25.4 ≤
      280 / 25.4
    apply (div_le_div_iff_of_pos_right (by norm_num : (0 : ℝ) < 25.4)).mpr
    linarith
  have hcross : (lowerMountPosition theta
        (geomParams 280 55 rate load preload).lowerMountDist).1 *
        (shockUnit theta (geomParams 280 55 rate load preload)).2 -
      (lowerMountPosition theta (geomParams 280 55 rate load preload).lowerMountDist).2 *
        (shockUnit theta (geomParams 280 55 rate load preload)).1 =
      62500 * Real.cos theta / shockLength theta (geomParams 280 55 rate load preload) := by
    unfold shockUnit lowerMountPosition
    show (250 : ℝ) * Real.cos theta *
        ((250 - 250 * Real.sin theta) /
          shockLength theta (geomParams 280 55 rate load preload)) -
      250 * Real.sin theta *
        ((0 - 250 * Real.cos theta) /
          shockLength theta (geomParams 280 55 rate load preload)) = _
    rw [← mul_div_assoc, ← mul_div_assoc, div_sub_div_same]
    congr 1
    ring
  have hA_nn : (0 : ℝ) ≤ 62500 * Real.cos theta /
      shockLength theta (geomParams 280 55 rate load preload) :=
    div_nonneg (by nlinarith) (le_of_lt hlen_pos)
  have hA_le : 62500 * Real.cos theta /
      shockLength theta (geomParams 280 55 rate load preload) ≤ 62500 / 176 :=
    div_le_div₀ (by norm_num) (by nlinarith) (by norm_num) (le_of_lt hlen_gt)
  have hst : springTorqueAt theta (geomParams 280 55 rate load preload) ≤
      62500 / 176 * (rate * (280 / 25.4)) := by
    unfold springTorqueAt
    rw [hcross, abs_of_nonneg hA_nn]
    exact mul_le_mul hA_le hsf_le hsf_nn (by norm_num)
  have hlt : load * 550 * 0.71875 ≤
      loadTorqueAt theta (geomParams 280 55 rate load preload) := by
    unfold loadTorqueAt axlePosition
    show load * 550 * 0.71875 ≤ load * |(550 : ℝ) * Real.cos theta|
    have habs : (550 : ℝ) * 0.71875 ≤ |(550 : ℝ) * Real.cos theta| := by
      calc (550 : ℝ) * 0.71875 ≤ 550 * Real.cos theta := by linarith
        _ ≤ |(550 : ℝ) * Real.cos theta| := le_abs_self _
    calc load * 550 * 0.71875 = load * (550 * 0.71875) := by ring
      _ ≤ load * |(550 : ℝ) * Real.cos theta| := mul_le_mul_of_nonneg_left habs hload0
  calc springTorqueAt theta (geomParams 280 55 rate load preload)
      ≤ 62500 / 176 * (rate * (280 / 25.4)) := hst
    _ < load * 550 * 0.71875 := hfinal
    _ ≤ loadTorqueAt theta (geomParams 280 55 rate load preload) := hlt

/-- The 21st scanned grid step of the witness geometry triggers at
`springRate 10^9`, `load 200`. -/
theorem geom_trig_21 (theta : ℝ) (h1 : (0.3105 : ℝ) ≤ theta) (h2 : theta ≤ 0.4005)
    (hlen : shockLength theta (geomParams 280 55 1e9 200 0) ≤ 279.05) :
    sagTrigger theta (geomParams 280 55 1e9 200 0) := by
  have hcos_lo : (0.9197 : ℝ) ≤ Real.cos theta := by
    have h := Real.one_sub_sq_div_two_le_cos (x := theta)
    nlinarith
  have hsin_lt : Real.sin theta < 0.4005 :=
    lt_of_lt_of_le (Real.sin_lt (by linarith)) h2
  have hlen_pos : (0 : ℝ) < shockLength theta (geomParams 280 55 1e9 200 0) := by
    rw [shockLength_geom, Real.lt_sqrt (by norm_num)]
    nlinarith
  have hsf_ge : (1e9 : ℝ) * (0.95 / 25.4) ≤
      springForce theta (geomParams 280 55 1e9 200 0) := by
    unfold springForce
    apply mul_le_mul_of_nonneg_left _ (by norm_num : (0 : ℝ) ≤ 1e9)
    have h2' : (0.95 : ℝ) / 25.4 ≤ (shockCompression theta (geomParams 280 55 1e9 200 0) +
        (geomParams 280 55 1e9 200 0).preload) / 25.4 := by
      show (0.95 : ℝ) / 25.4 ≤ (280 - shockLength theta (geomParams 280 55 1e9 200 0) + 0) / 25.4
      apply (div_le_div_iff_of_pos_right (by norm_num : (0 : ℝ) < 25.4)).mpr
      linarith
    exact le_trans h2' (le_max_right _ _)
  have hsfpos : 0 < springForce theta (geomParams 280 55 1e9 200 0) :=
    lt_of_lt_of_le (by norm_num) hsf_ge
  have hcross : (lowerMountPosition theta
        (geomParams 280 55 1e9 200 0).lowerMountDist).1 *
        (shockUnit theta (geomParams 280 55 1e9 200 0)).2 -
      (lowerMountPosition theta (geomParams 280 55 1e9 200 0).lowerMountDist).2 *
        (shockUnit theta (geomParams 280 55 1e9 200 0)).1 =
      62500 * Real.cos theta / shockLength theta (geomParams 280 55 1e9 200 0) := by
    unfold shockUnit lowerMountPosition
    show (250 : ℝ) * Real.cos theta *
        ((250 - 250 * Real.sin theta) / shockLength theta (geomParams 280 55 1e9 200 0)) -
      250 * Real.sin theta *
        ((0 - 250 * Real.cos theta) / shockLength theta (geomParams 280 55 1e9 200 0)) = _
    rw [← mul_div_assoc, ← mul_div_assoc, div_sub_div_same]
    congr 1
    ring
  have hA_nn : (0 : ℝ) ≤ 62500 * Real.cos theta /
      shockLength theta (geomParams 280 55 1e9 200 0) :=
    div_nonneg (by nlinarith) (le_of_lt hlen_pos)
  have hA_ge : 62500 * 0.9197 / 279.05 ≤
      62500 * Real.cos theta / shockLength theta (geomParams 280 55 1e9 200 0) :=
    div_le_div₀ (by nlinarith) (by nlinarith) hlen_pos hlen
  have hst : 62500 * 0.9197 / 279.05 * (1e9 * (0.95 / 25.4)) ≤
      springTorqueAt theta (geomParams 280 55 1e9 200 0) := by
    unfold springTorqueAt
    rw [hcross, abs_of_nonneg hA_nn]
    exact mul_le_mul hA_ge hsf_ge (by norm_num) hA_nn
  have hload_le : loadTorqueAt theta (geomParams 280 55 1e9 200 0) ≤ 200 * 550 := by
    unfold loadTorqueAt axlePosition
    show (200 : ℝ) * |(550 : ℝ) * Real.cos theta| ≤ 200 * 550
    rw [abs_mul, abs_of_nonneg (by norm_num : (0 : ℝ) ≤ 550)]
    nlinarith [Real.abs_cos_le_one theta, abs_nonneg (Real.cos theta)]
  refine ⟨hsfpos, ?_⟩
  calc loadTorqueAt theta (geomParams 280 55 1e9 200 0) ≤ 200 * 550 := hload_le
    _ ≤ 62500 * 0.9197 / 279.05 * (1e9 * (0.95 / 25.4)) := by norm_num
    _ ≤ springTorqueAt theta (geomParams 280 55 1e9 200 0) := hst

/-- The witness family with a negated swingarm length. -/
def negSwingParams (rate load : ℝ) : Params :=
  ⟨-550, 250, 0, 250, 280, 55, rate, load, 0⟩

theorem negSwing_shockLength (rate load theta : ℝ) :
    shockLength theta (negSwingParams rate load) =
      shockLength theta (geomParams 280 55 rate load 0) := rfl

theorem negSwing_ext_eq (rate load : ℝ) :
    fullyExtendedAngle (negSwingParams rate load) =
      fullyExtendedAngle (geomParams 280 55 rate load 0) :=
  findAngleForShockLength_congr _ _ _ (fun _ => rfl)

theorem negSwing_comp_eq (rate load : ℝ) :
    fullyCompressedAngle (negSwingParams rate load) =
      fullyCompressedAngle (geomParams 280 55 rate load 0) :=
  findAngleForShockLength_congr _ _ _ (fun _ => rfl)

theorem negSwing_step (rate load : ℝ) : sagStep (negSwingParams rate load) = 0.0005 := by
  unfold sagStep
  rw [negSwing_ext_eq, negSwing_comp_eq]
  exact if_pos (geom_ext_lt_comp rate load 0)

theorem negSwing_springTorque_eq (rate load theta : ℝ) :
    springTorqueAt theta (negSwingParams rate load) =
      springTorqueAt theta (geomParams 280 55 rate load 0) := rfl

theorem negSwing_loadTorque_eq (rate load theta : ℝ) :
    loadTorqueAt theta (negSwingParams rate load) =
      loadTorqueAt theta (geomParams 280 55 rate load 0) := by
  unfold loadTorqueAt axlePosition
  show load * |(-550 : ℝ) * Real.cos theta| = load * |(550 : ℝ) * Real.cos theta|
  rw [show ((-550 : ℝ) * Real.cos theta) = -((550 : ℝ) * Real.cos theta) by ring, abs_neg]

theorem negSwing_trigger_iff (rate load theta : ℝ) :
    sagTrigger theta (negSwingParams rate load) ↔
      sagTrigger theta (geomParams 280 55 rate load 0) := by
  unfold sagTrigger
  rw [negSwing_springTorque_eq, negSwing_loadTorque_eq]
  have hsf : springForce theta (negSwingParams rate load) =
      springForce theta (geomParams 280 55 rate load 0) := rfl
  rw [hsf]

/-- No in-range scanned grid point of the negated-swingarm family
triggers, for configurations meeting the numeric bound. -/
theorem negSwing_no_trigger_grid (rate load : ℝ) (hr : 0 ≤ rate) (hl : 0 ≤ load)
    (hfinal : 62500 / 176 * (rate * (280 / 25.4)) < load * 550 * 0.71875) :
    ∀ j : ℕ, 1 ≤ j → j ≤ 200000 →
      (0 < sagStep (negSwingParams rate load) → fullyExtendedAngle (negSwingParams rate load) +
        j * sagStep (negSwingParams rate load) ≤ fullyCompressedAngle (negSwingParams rate load)) →
      (sagStep (negSwingParams rate load) < 0 → fullyCompressedAngle (negSwingParams rate load) ≤
        fullyExtendedAngle (negSwingParams rate load) +
          j * sagStep (negSwingParams rate load)) →
      ¬ sagTrigger (fullyExtendedAngle (negSwingParams rate load) +
          j * sagStep (negSwingParams rate load)) (negSwingParams rate load) := by
  intro j hj1 hj2 hr1 hr2
  rw [negSwing_step rate load] at hr1 hr2 ⊢
  rw [negSwing_ext_eq rate load] at hr1 hr2 ⊢
  rw [negSwing_comp_eq rate load] at hr1
  rw [negSwing_trigger_iff]
  have hj1R : (1 : ℝ) ≤ (j : ℝ) := by exact_mod_cast hj1
  have hext := geom_ext_bounds rate load 0
  have hcomp := geom_comp_bounds rate load 0
  have hrange := hr1 (by norm_num)
  have hθ1 : (0.3 : ℝ) ≤ fullyExtendedAngle (geomParams 280 55 rate load 0) + j * 0.0005 := by
    nlinarith [hext.1]
  have hθ2 : fullyExtendedAngle (geomParams 280 55 rate load 0) + j * 0.0005 ≤ 0.75 := by
    linarith [hcomp.2]
  intro htr
  exact absurd htr.2 (not_le.mpr
    (geom_torque_lt_of_bounds rate load 0 _ hr hl (le_refl 0) hθ1 hθ2 hfinal))

/-- Configurations meeting the numeric bound bottom out on the
negated-swingarm family. -/
theorem negSwing_bottoms_out (rate load : ℝ) (hr : 0 ≤ rate) (hl : 0 ≤ load)
    (hfinal : 62500 / 176 * (rate * (280 / 25.4)) < load * 550 * 0.71875) :
    computeSag (negSwingParams rate load) =
      ⟨fullyCompressedAngle (negSwingParams rate load),
        (axlePosition (fullyCompressedAngle (negSwingParams rate load))
          (negSwingParams rate load).swingarmLength).2 -
        (axlePosition (fullyExtendedAngle (negSwingParams rate load))
          (negSwingParams rate load).swingarmLength).2⟩ := by
  unfold computeSag
  exact sagScan_no_trigger (negSwingParams rate load) _ _ _ 200000
    (fullyExtendedAngle (negSwingParams rate load))
    (fun j hj1 hj2 hr1 hr2 =>
      negSwing_no_trigger_grid rate load hr hl hfinal j hj1 hj2 hr1 hr2)

/-- The bottomed-out negated-swingarm sag, normalised to the canonical
witness-family travel-limit angles. -/
theorem negSwing_bottom_sagMM (rate load : ℝ) (hr : 0 ≤ rate) (hl : 0 ≤ load)
    (hfinal : 62500 / 176 * (rate * (280 / 25.4)) < load * 550 * 0.71875) :
    (computeSag (negSwingParams rate load)).sagMM =
      550 * Real.sin (fullyExtendedAngle (geomParams 280 55 600 1e9 0)) -
      550 * Real.sin (fullyCompressedAngle (geomParams 280 55 600 1e9 0)) := by
  rw [negSwing_bottoms_out rate load hr hl hfinal]
  show (axlePosition (fullyCompressedAngle (negSwingParams rate load))
      (negSwingParams rate load).swingarmLength).2 -
    (axlePosition (fullyExtendedAngle (negSwingParams rate load))
      (negSwingParams rate load).swingarmLength).2 = _
  rw [negSwing_ext_eq rate load, negSwing_comp_eq rate load,
    geom_ext_congr rate load 0, geom_comp_congr rate load 0]
  show (-550 : ℝ) * Real.sin (fullyCompressedAngle (geomParams 280 55 600 1e9 0)) -
    (-550 : ℝ) * Real.sin (fullyExtendedAngle (geomParams 280 55 600 1e9 0)) = _
  ring

/-- The triggering negated-swingarm scan at `springRate 10^9`, `load 200`
settles strictly above the bottomed-out sag of the family. -/
theorem negSwing_trig_sag_gt :
    550 * Real.sin (fullyExtendedAngle (geomParams 280 55 600 1e9 0)) -
      550 * Real.sin (fullyCompressedAngle (geomParams 280 55 600 1e9 0)) <
    (computeSag (negSwingParams 1e9 200)).sagMM := by
  have hpi := Real.pi_gt_three
  have hext := geom_ext_bounds 1e9 200 0
  have hext39 := geom_ext_lt_039 1e9 200 0
  have hcomp := geom_comp_bounds 1e9 200 0
  have htol := findAngle_tol 280 (geomParams 280 55 1e9 200 0)
    (geom_bracket_280 1e9 200 0) (geom_lowerMountDist_le 280 55 1e9 200 0)
  have habs := abs_le.mp htol
  have hext_eq : fullyExtendedAngle (geomParams 280 55 1e9 200 0) =
      findAngleForShockLength 280 (geomParams 280 55 1e9 200 0) := rfl
  have hlen_ext : shockLength (fullyExtendedAngle (geomParams 280 55 1e9 200 0))
      (geomParams 280 55 1e9 200 0) ≤ 280.001 := by
    rw [hext_eq]
    linarith [habs.2]
  have hgap := geom_len_gap 280 55 1e9 200 0
    (a := fullyExtendedAngle (geomParams 280 55 1e9 200 0))
    (b := fullyExtendedAngle (geomParams 280 55 1e9 200 0) + 0.0105)
    (by linarith [hext.1]) (by linarith [hext39]) (by linarith)
  have hlen21 : shockLength (fullyExtendedAngle (geomParams 280 55 1e9 200 0) + 0.0105)
      (geomParams 280 55 1e9 200 0) ≤ 279.05 := by linarith
  have htrG := geom_trig_21 (fullyExtendedAngle (geomParams 280 55 1e9 200 0) + 0.0105)
    (by linarith [hext.1]) (by linarith [hext39]) hlen21
  have htr : sagTrigger (fullyExtendedAngle (negSwingParams 1e9 200) + 0.0105)
      (negSwingParams 1e9 200) := by
    rw [negSwing_trigger_iff, negSwing_ext_eq]
    exact htrG
  have heq : fullyExtendedAngle (negSwingParams 1e9 200) + (21 : ℕ) * (0.0005 : ℝ) =
      fullyExtendedAngle (negSwingParams 1e9 200) + 0.0105 := by
    push_cast
    ring
  have hang : (computeSag (negSwingParams 1e9 200)).angle ≤
      fullyExtendedAngle (negSwingParams 1e9 200) + 0.0105 := by
    unfold computeSag
    rw [negSwing_step 1e9 200]
    rw [show fullyExtendedAngle (negSwingParams 1e9 200) + 0.0105 =
      fullyExtendedAngle (negSwingParams 1e9 200) + (21 : ℕ) * (0.0005 : ℝ) from heq.symm]
    apply sagScan_angle_le_grid (negSwingParams 1e9 200) _ 0.0005 _ (by norm_num) 200000 21
      (fullyExtendedAngle (negSwingParams 1e9 200)) (by norm_num) (by norm_num)
    · rw [heq, negSwing_ext_eq, negSwing_comp_eq]
      linarith [hcomp.1, hext39]
    · rw [heq]
      exact htr
  have hltEC : fullyExtendedAngle (negSwingParams 1e9 200) <
      fullyCompressedAngle (negSwingParams 1e9 200) := by
    rw [negSwing_ext_eq, negSwing_comp_eq]
    exact geom_ext_lt_comp 1e9 200 0
  have hbnd : fullyExtendedAngle (negSwingParams 1e9 200) ≤
      (computeSag (negSwingParams 1e9 200)).angle ∧
      (computeSag (negSwingParams 1e9 200)).angle ≤
        fullyCompressedAngle (negSwingParams 1e9 200) := by
    unfold computeSag
    rw [negSwing_step 1e9 200]
    exact sagScan_angle_bounds_pos _ _ _ _ (by norm_num) 200000 _ (le_of_lt hltEC)
  have hsag : (computeSag (negSwingParams 1e9 200)).sagMM =
      (-550) * Real.sin ((computeSag (negSwingParams 1e9 200)).angle) -
        (-550) * Real.sin (fullyExtendedAngle (negSwingParams 1e9 200)) := by
    unfold computeSag
    rw [sagScan_sagMM]
    rfl
  have hsinlt : Real.sin ((computeSag (negSwingParams 1e9 200)).angle) <
      Real.sin (fullyCompressedAngle (geomParams 280 55 600 1e9 0)) := by
    have hcompc : fullyCompressedAngle (geomParams 280 55 600 1e9 0) =
        fullyCompressedAngle (geomParams 280 55 1e9 200 0) :=
      (geom_comp_congr 1e9 200 0).symm
    have hbc := geom_comp_bounds 1e9 200 0
    apply Real.strictMonoOn_sin ⟨?_, ?_⟩ ⟨?_, ?_⟩ ?_
    · linarith [hbnd.1, hltEC, negSwing_ext_eq 1e9 200, hext.1]
    · rw [negSwing_ext_eq] at hang
      linarith [hang, hext39]
    · rw [hcompc]
      linarith [hbc.1]
    · rw [hcompc]
      linarith [hbc.2]
    · rw [hcompc]
      rw [negSwing_ext_eq] at hang
      linarith [hang, hext39, hbc.1]
  have hee : fullyExtendedAngle (negSwingParams 1e9 200) =
      fullyExtendedAngle (geomParams 280 55 600 1e9 0) :=
    (negSwing_ext_eq 1e9 200).trans (geom_ext_congr 1e9 200 0)
  rw [hsag, hee]
  nlinarith [hsinlt]

/-- C2 counterexample.  First, with the travel-limit geometry of the
witness family — nonnegative swingarm and extended angle below the
compressed one — a load of `10^9` lbs makes the scan bottom out, and the
bottomed-out sag does not change when `springRate` goes from 600 to 601
or `load` from `10^9` to `2*10^9`: sag is not strictly monotonic in either
field.  Second, on a geometry whose compressed angle lies below the
extended one, and likewise on the witness geometry with a negated
swingarm length, raising `springRate` (or `load`) strictly moves the sag
the opposite way, so even weak monotonicity needs both restrictions of
the amended claim. -/
theorem C2_sag_strict_monotonicity_counterexample :
    ((0 : ℝ) ≤ (geomParams 280 55 600 1e9 0).swingarmLength ∧
      fullyExtendedAngle (geomParams 280 55 600 1e9 0) ≤
        fullyCompressedAngle (geomParams 280 55 600 1e9 0) ∧
      (geomParams 280 55 600 1e9 0).springRate < (geomParams 280 55 601 1e9 0).springRate ∧
      (computeSag (geomParams 280 55 601 1e9 0)).sagMM =
        (computeSag (geomParams 280 55 600 1e9 0)).sagMM ∧
      (geomParams 280 55 600 1e9 0).load < (geomParams 280 55 600 2e9 0).load ∧
      (computeSag (geomParams 280 55 600 2e9 0)).sagMM =
        (computeSag (geomParams 280 55 600 1e9 0)).sagMM) ∧
    (fullyCompressedAngle (revParams 10 200) < fullyExtendedAngle (revParams 10 200) ∧
      (0 : ℝ) ≤ (revParams 10 200).swingarmLength ∧
      (revParams 10 200).springRate < (revParams 1e9 200).springRate ∧
      (computeSag (revParams 10 200)).sagMM < (computeSag (revParams 1e9 200)).sagMM ∧
      (revParams 1e9 200).load < (revParams 1e9 1e13).load ∧
      (computeSag (revParams 1e9 1e13)).sagMM < (computeSag (revParams 1e9 200)).sagMM) ∧
    ((negSwingParams 10 200).swingarmLength < 0 ∧
      fullyExtendedAngle (negSwingParams 10 200) ≤
        fullyCompressedAngle (negSwingParams 10 200) ∧
      (negSwingParams 10 200).springRate < (negSwingParams 1e9 200).springRate ∧
      (computeSag (negSwingParams 10 200)).sagMM <
        (computeSag (negSwingParams 1e9 200)).sagMM ∧
      (negSwingParams 1e9 200).load < (negSwingParams 1e9 1e13).load ∧
      (computeSag (negSwingParams 1e9 1e13)).sagMM <
        (computeSag (negSwingParams 1e9 200)).sagMM) := by
  refine ⟨⟨?_, ?_, ?_, ?_, ?_, ?_⟩, ⟨?_, ?_, ?_, ?_, ?_, ?_⟩, ⟨?_, ?_, ?_, ?_, ?_, ?_⟩⟩
  · show (0 : ℝ) ≤ 550
    norm_num
  · exact le_of_lt (geom_ext_lt_comp 600 1e9 0)
  · show (600 : ℝ) < 601
    norm_num
  · rw [geom_bottom_sagMM 601 1e9 (by norm_num) (by norm_num) (by norm_num),
      geom_bottom_sagMM 600 1e9 (by norm_num) (by norm_num) (by norm_num)]
  · show (1e9 : ℝ) < 2e9
    norm_num
  · rw [geom_bottom_sagMM 600 2e9 (by norm_num) (by norm_num) (by norm_num),
      geom_bottom_sagMM 600 1e9 (by norm_num) (by norm_num) (by norm_num)]
  · exact rev_comp_lt_ext 10 200
  · show (0 : ℝ) ≤ 550
    norm_num
  · show (10 : ℝ) < 1e9
    norm_num
  · rw [rev_bottom_sagMM 10 200 (by norm_num) (by norm_num) (by norm_num)]
    exact rev_trig_sag_gt
  · show (200 : ℝ) < 1e13
    norm_num
  · rw [rev_bottom_sagMM 1e9 1e13 (by norm_num) (by norm_num) (by norm_num)]
    exact rev_trig_sag_gt
  · show (-550 : ℝ) < 0
    norm_num
  · rw [negSwing_ext_eq, negSwing_comp_eq]
    exact le_of_lt (geom_ext_lt_comp 10 200 0)
  · show (10 : ℝ) < 1e9
    norm_num
  · rw [negSwing_bottom_sagMM 10 200 (by norm_num) (by norm_num) (by norm_num)]
    exact negSwing_trig_sag_gt
  · show (200 : ℝ) < 1e13
    norm_num
  · rw [negSwing_bottom_sagMM 1e9 1e13 (by norm_num) (by norm_num) (by norm_num)]
    exact negSwing_trig_sag_gt

/-- C2 (amended): holding every other field constant, `computeSag(p).sagMM`
is non-increasing in `springRate` and non-decreasing in `load` whenever
the swingarm length is nonnegative and the fully-extended angle does not
exceed the fully-compressed angle (both restrictions necessary by the
counterexample, which also shows strictness failing on scan plateaus);
and with the `DEFAULTS` record of section 6 the concrete chains remain
strict as claimed: raising `springRate` through 400, 600, 800, 1000 at
load 200 strictly decreases the sag at each step, and raising `load`
through 100, 150, 200, 250 at springRate 600 strictly increases it. -/
theorem C2_sag_monotonicity_amended :
    (∀ (p : Params) (r1 r2 : ℝ), r1 ≤ r2 → 0 ≤ p.swingarmLength →
      fullyExtendedAngle p ≤ fullyCompressedAngle p →
      (computeSag { p with springRate := r2 }).sagMM ≤
        (computeSag { p with springRate := r1 }).sagMM) ∧
    (∀ (p : Params) (l1 l2 : ℝ), l1 ≤ l2 → 0 ≤ p.swingarmLength →
      fullyExtendedAngle p ≤ fullyCompressedAngle p →
      (computeSag { p with load := l1 }).sagMM ≤
        (computeSag { p with load := l2 }).sagMM) ∧
    ((computeSag (defaultsParams 600 200)).sagMM <
        (computeSag (defaultsParams 400 200)).sagMM ∧
      (computeSag (defaultsParams 800 200)).sagMM <
        (computeSag (defaultsParams 600 200)).sagMM ∧
      (computeSag (defaultsParams 1000 200)).sagMM <
        (computeSag (defaultsParams 800 200)).sagMM) ∧
    ((computeSag (defaultsParams 600 100)).sagMM <
        (computeSag (defaultsParams 600 150)).sagMM ∧
      (computeSag (defaultsParams 600 150)).sagMM <
        (computeSag (defaultsParams 600 200)).sagMM ∧
      (computeSag (defaultsParams 600 200)).sagMM <
        (computeSag (defaultsParams 600 250)).sagMM) := by
  refine ⟨?_, ?_,
    ⟨defaults_chain_600_400, defaults_chain_800_600, defaults_chain_1000_800⟩,
    ⟨defaults_chain_100_150, defaults_chain_150_200, defaults_chain_200_250⟩⟩
  · intro p r1 r2 hr hsw hle
    apply computeSag_sagMM_le { p with springRate := r1 } { p with springRate := r2 }
      rfl hsw (fun theta => rfl) rfl rfl
    · have h1 : fullyExtendedAngle { p with springRate := r1 } = fullyExtendedAngle p :=
        findAngleForShockLength_congr _ _ _ (fun theta => rfl)
      have h2 : fullyCompressedAngle { p with springRate := r1 } = fullyCompressedAngle p :=
        findAngleForShockLength_congr _ _ _ (fun theta => rfl)
      rw [h1, h2]
      exact hle
    · exact fun theta h => sagTrigger_mono_rate p r1 r2 hr theta h
  · intro p l1 l2 hl hsw hle
    apply computeSag_sagMM_le { p with load := l2 } { p with load := l1 }
      rfl hsw (fun theta => rfl) rfl rfl
    · have h1 : fullyExtendedAngle { p with load := l2 } = fullyExtendedAngle p :=
        findAngleForShockLength_congr _ _ _ (fun theta => rfl)
      have h2 : fullyCompressedAngle { p with load := l2 } = fullyCompressedAngle p :=
        findAngleForShockLength_congr _ _ _ (fun theta => rfl)
      rw [h1, h2]
      exact hle
    · exact fun theta h => sagTrigger_anti_load p l1 l2 hl theta h

theorem C2_sag_monotonicity_amended_witness :
    (600 : ℝ) ≤ 800 ∧ (0 : ℝ) ≤ (geomParams 280 55 600 200 0).swingarmLength ∧
    fullyExtendedAngle (geomParams 280 55 600 200 0) ≤
      fullyCompressedAngle (geomParams 280 55 600 200 0) ∧
    (computeSag { geomParams 280 55 600 200 0 with springRate := 800 }).sagMM ≤
      (computeSag { geomParams 280 55 600 200 0 with springRate := 600 }).sagMM ∧
    (100 : ℝ) ≤ 150 ∧
    (computeSag { geomParams 280 55 600 200 0 with load := 100 }).sagMM ≤
      (computeSag { geomParams 280 55 600 200 0 with load := 150 }).sagMM := by
  have hle : fullyExtendedAngle (geomParams 280 55 600 200 0) ≤
      fullyCompressedAngle (geomParams 280 55 600 200 0) :=
    le_of_lt (geom_ext_lt_comp 600 200 0)
  have hsw : (0 : ℝ) ≤ (geomParams 280 55 600 200 0).swingarmLength := by
    show (0 : ℝ) ≤ 550
    norm_num
  exact ⟨by norm_num, hsw, hle,
    C2_sag_monotonicity_amended.1 (geomParams 280 55 600 200 0) 600 800 (by norm_num) hsw hle,
    by norm_num,
    C2_sag_monotonicity_amended.2.1 (geomParams 280 55 600 200 0) 100 150 (by norm_num) hsw hle⟩

/-! ### C9: the unguarded division in the sag scan is benign -/

theorem springTorqueAtGuarded_eq (theta : ℝ) (p : Params) (h : shockLength theta p ≠ 0) :
    springTorqueAtGuarded theta p = springTorqueAt theta p := by
  unfold springTorqueAtGuarded springTorqueAt shockUnitGuarded shockUnit
  rw [if_neg h]

theorem sagScanGuarded_eq_pos (p : Params) (c s e lb : ℝ) (hs : 0 < s)
    (H : ∀ x : ℝ, lb < x → x ≤ c → shockLength x p ≠ 0) :
    ∀ (fuel : ℕ) (theta : ℝ), lb ≤ theta →
      sagScanGuarded p c s e fuel theta = sagScan p c s e fuel theta := by
  intro fuel
  induction fuel with
  | zero => intro theta _; rfl
  | succ n ih =>
    intro theta hlb
    have hb2 : ¬(s < 0 ∧ theta + s < c) := fun h => absurd hs (not_lt.mpr (le_of_lt h.1))
    simp only [sagScanGuarded, sagScan]
    rcases Classical.em (s > 0 ∧ theta + s > c) with hb1 | hb1
    · rw [if_pos hb1, if_pos hb1]
    · rw [if_neg hb1, if_neg hb1, if_neg hb2, if_neg hb2]
      have hx : theta + s ≤ c := le_of_not_lt (fun hc => hb1 ⟨hs, hc⟩)
      have hlen := H (theta + s) (by linarith) hx
      rw [springTorqueAtGuarded_eq (theta + s) p hlen]
      rcases Classical.em (springForce (theta + s) p ≤ 0) with hsf | hsf
      · rw [if_pos hsf, if_pos hsf]
        exact ih (theta + s) (by linarith)
      · rw [if_neg hsf, if_neg hsf]
        rcases Classical.em (springTorqueAt (theta + s) p ≥ loadTorqueAt (theta + s) p) with
          ht | ht
        · rw [if_pos ht, if_pos ht]
        · rw [if_neg ht, if_neg ht]
          exact ih (theta + s) (by linarith)

theorem sagScanGuarded_eq_neg (p : Params) (c s e ub : ℝ) (hs : s < 0)
    (H : ∀ x : ℝ, x < ub → c ≤ x → shockLength x p ≠ 0) :
    ∀ (fuel : ℕ) (theta : ℝ), theta ≤ ub →
      sagScanGuarded p c s e fuel theta = sagScan p c s e fuel theta := by
  intro fuel
  induction fuel with
  | zero => intro theta _; rfl
  | succ n ih =>
    intro theta hub
    have hb1 : ¬(s > 0 ∧ theta + s > c) := fun h => absurd hs (not_lt.mpr (le_of_lt h.1))
    simp only [sagScanGuarded, sagScan]
    rw [if_neg hb1, if_neg hb1]
    rcases Classical.em (s < 0 ∧ theta + s < c) with hb2 | hb2
    · rw [if_pos hb2, if_pos hb2]
    · rw [if_neg hb2, if_neg hb2]
      have hx : c ≤ theta + s := le_of_not_lt (fun hc => hb2 ⟨hs, hc⟩)
      have hlen := H (theta + s) (by linarith) hx
      rw [springTorqueAtGuarded_eq (theta + s) p hlen]
      rcases Classical.em (springForce (theta + s) p ≤ 0) with hsf | hsf
      · rw [if_pos hsf, if_pos hsf]
        exact ih (theta + s) (by linarith)
      · rw [if_neg hsf, if_neg hsf]
        rcases Classical.em (springTorqueAt (theta + s) p ≥ loadTorqueAt (theta + s) p) with
          ht | ht
        · rw [if_pos ht, if_pos ht]
        · rw [if_neg ht, if_neg ht]
          exact ih (theta + s) (by linarith)

/-- C9: the shock direction inside `computeSag`'s loop divides by the
lower-to-upper mount distance with no zero guard; whenever that distance
is strictly positive on the whole travel interval, `computeSag` computes
exactly what the guarded variant computes, so no division by zero
affects any step of the scan. -/
theorem C9_computeSag_division_benign (p : Params)
    (H : ∀ theta : ℝ, min (fullyExtendedAngle p) (fullyCompressedAngle p) ≤ theta →
      theta ≤ max (fullyExtendedAngle p) (fullyCompressedAngle p) →
      0 < shockLength theta p) :
    computeSagGuarded p = computeSag p := by
  unfold computeSagGuarded computeSag
  by_cases hdir : fullyExtendedAngle p < fullyCompressedAngle p
  · have hstep : sagStep p = 0.0005 := if_pos hdir
    rw [hstep]
    apply sagScanGuarded_eq_pos p _ _ _ (fullyExtendedAngle p) (by norm_num) _ 200000 _
      (le_refl _)
    intro x hx1 hx2
    apply ne_of_gt
    apply H x
    · rw [min_eq_left (le_of_lt hdir)]
      linarith
    · rw [max_eq_right (le_of_lt hdir)]
      exact hx2
  · have hstep : sagStep p = -0.0005 := if_neg hdir
    rw [hstep]
    apply sagScanGuarded_eq_neg p _ _ _ (fullyExtendedAngle p) (by norm_num) _ 200000 _
      (le_refl _)
    intro x hx1 hx2
    apply ne_of_gt
    apply H x
    · rw [min_eq_right (not_lt.mp hdir)]
      exact hx2
    · rw [max_eq_left (not_lt.mp hdir)]
      linarith

theorem C9_computeSag_division_benign_witness :
    (∀ theta : ℝ,
      min (fullyExtendedAngle (geomParams 280 55 600 200 0))
        (fullyCompressedAngle (geomParams 280 55 600 200 0)) ≤ theta →
      theta ≤ max (fullyExtendedAngle (geomParams 280 55 600 200 0))
        (fullyCompressedAngle (geomParams 280 55 600 200 0)) →
      0 < shockLength theta (geomParams 280 55 600 200 0)) ∧
    computeSagGuarded (geomParams 280 55 600 200 0) =
      computeSag (geomParams 280 55 600 200 0) := by
  have hpi := Real.pi_pos
  have hmemE := fullyExtendedAngle_mem (geomParams 280 55 600 200 0)
  have hmemC := fullyCompressedAngle_mem (geomParams 280 55 600 200 0)
  have hsqrt2 := Real.sq_sqrt (show (0 : ℝ) ≤ 2 by norm_num)
  have hsqrt2nn := Real.sqrt_nonneg 2
  have H : ∀ theta : ℝ,
      min (fullyExtendedAngle (geomParams 280 55 600 200 0))
        (fullyCompressedAngle (geomParams 280 55 600 200 0)) ≤ theta →
      theta ≤ max (fullyExtendedAngle (geomParams 280 55 600 200 0))
        (fullyCompressedAngle (geomParams 280 55 600 200 0)) →
      0 < shockLength theta (geomParams 280 55 600 200 0) := by
    intro theta h1 h2
    have hlo : -(π / 2) ≤ theta := le_trans (le_min hmemE.1 hmemC.1) h1
    have hhi : theta ≤ π / 4 := le_trans h2 (max_le hmemE.2 hmemC.2)
    have hsin : Real.sin theta ≤ Real.sqrt 2 / 2 := by
      rw [← Real.sin_pi_div_four]
      apply Real.strictMonoOn_sin.monotoneOn ⟨hlo, by linarith⟩
        ⟨by linarith, by linarith⟩ hhi
    rw [shockLength_geom]
    apply Real.sqrt_pos.mpr
    nlinarith
  exact ⟨H, C9_computeSag_division_benign (geomParams 280 55 600 200 0) H⟩

/-! ### C3: a target whose bracketing product is exactly zero -/

theorem C3_tol_fail (mid : ℝ) (h1 : -(π / 8) ≤ mid) (h2 : mid ≤ π / 4) :
    ¬ |shockLength mid (geomParams 280 55 600 200 0) - 500| < 0.001 := by
  have hpi_lt : π < 3.15 := by
    calc π < 3.141593 := Real.pi_lt_d6
      _ < 3.15 := by norm_num
  have hpi_pos := Real.pi_pos
  have hsin : -(0.394 : ℝ) ≤ Real.sin mid := by
    rcases le_or_lt 0 mid with h | h
    · have := Real.sin_nonneg_of_nonneg_of_le_pi h (by linarith)
      linarith
    · have hslt : Real.sin (-mid) < -mid := Real.sin_lt (by linarith)
      rw [Real.sin_neg] at hslt
      nlinarith
  have hlen : shockLength mid (geomParams 280 55 600 200 0) ≤ 420 := by
    rw [shockLength_geom]
    have harg : 125000 * (1 - Real.sin mid) ≤ 176400 := by nlinarith
    calc Real.sqrt (125000 * (1 - Real.sin mid)) ≤ Real.sqrt 176400 := Real.sqrt_le_sqrt harg
      _ = 420 := by
          rw [show (176400 : ℝ) = 420 ^ 2 by norm_num]
          exact Real.sqrt_sq (by norm_num)
  intro habs
  rw [abs_lt] at habs
  linarith [habs.1]

theorem C3_loop_closed_form :
    ∀ (n : ℕ) (lo : ℝ), -(π / 2) ≤ lo → lo < π / 4 →
      findAngleLoop 500 (geomParams 280 55 600 200 0) 500 n lo (π / 4) =
        π / 4 - (π / 4 - lo) / 2 ^ (n + 1) := by
  intro n
  induction n with
  | zero =>
    intro lo h1 h2
    show (lo + π / 4) / 2 = π / 4 - (π / 4 - lo) / 2 ^ (0 + 1)
    simp only [zero_add, pow_one]
    ring
  | succ m ih =>
    intro lo h1 h2
    have hpi_pos := Real.pi_pos
    have hmid1 : -(π / 8) ≤ (lo + π / 4) / 2 := by linarith
    have hmid2 : (lo + π / 4) / 2 ≤ π / 4 := by linarith
    have hmid2' : (lo + π / 4) / 2 < π / 4 := by linarith
    have hmid0 : -(π / 2) ≤ (lo + π / 4) / 2 := by linarith
    have hsign : ¬ ((shockLength ((lo + π / 4) / 2) (geomParams 280 55 600 200 0) - 500) *
        ((500 : ℝ) - 500) < 0) := by norm_num
    simp only [findAngleLoop]
    rw [if_neg (C3_tol_fail ((lo + π / 4) / 2) hmid1 hmid2), if_neg hsign,
      ih ((lo + π / 4) / 2) hmid0 hmid2',
      show π / 4 - (lo + π / 4) / 2 = (π / 4 - lo) / 2 by ring, div_div, ← pow_succ']

/-- C3 counterexample: at `targetLength = 500` with the witness geometry
the bracketing product is exactly zero (hence non-negative, and the
lower endpoint is the strictly closer one, at distance zero), yet
`findAngleForShockLength` runs the bisection loop and returns
`pi/4 - (3*pi/4)/2^101`, an interior point that is neither endpoint. -/
theorem C3_endpoint_policy_counterexample :
    ((500 : ℝ) - shockLength (-(π / 2)) (geomParams 280 55 600 200 0)) *
      (500 - shockLength (π / 4) (geomParams 280 55 600 200 0)) = 0 ∧
    |(500 : ℝ) - shockLength (-(π / 2)) (geomParams 280 55 600 200 0)| <
      |(500 : ℝ) - shockLength (π / 4) (geomParams 280 55 600 200 0)| ∧
    findAngleForShockLength 500 (geomParams 280 55 600 200 0) =
      π / 4 - 3 * π / 4 / 2 ^ 101 ∧
    findAngleForShockLength 500 (geomParams 280 55 600 200 0) ≠ -(π / 2) ∧
    findAngleForShockLength 500 (geomParams 280 55 600 200 0) ≠ π / 4 := by
  have hpi_pos := Real.pi_pos
  have hlenHi := geom_shockLength_pi_div_four_lt 280 55 600 200 0
  have hlenHinn : 0 ≤ shockLength (π / 4) (geomParams 280 55 600 200 0) := by
    rw [shockLength_geom]
    exact Real.sqrt_nonneg _
  have heval : findAngleForShockLength 500 (geomParams 280 55 600 200 0) =
      π / 4 - 3 * π / 4 / 2 ^ 101 := by
    unfold findAngleForShockLength
    rw [shockLength_geom_neg_pi_div_two]
    have hcond : ¬ (((500 : ℝ) - 500) *
        (500 - shockLength (π / 4) (geomParams 280 55 600 200 0)) > 0) := by
      norm_num
    rw [if_neg hcond, C3_loop_closed_form 100 (-(π / 2)) (le_refl _) (by linarith)]
    ring
  have hsmall : 0 < 3 * π / 4 / 2 ^ 101 := by positivity
  have hsmall2 : 3 * π / 4 / 2 ^ 101 < 3 * π / 4 :=
    div_lt_self (by linarith) (by norm_num)
  refine ⟨?_, ?_, heval, ?_, ?_⟩
  · rw [shockLength_geom_neg_pi_div_two]
    ring
  · rw [shockLength_geom_neg_pi_div_two]
    rw [abs_of_nonneg (by linarith : (0 : ℝ) ≤ 500 - shockLength (π / 4)
      (geomParams 280 55 600 200 0))]
    rw [show (500 : ℝ) - 500 = 0 by ring, abs_zero]
    linarith
  · rw [heval]
    intro h
    nlinarith
  · rw [heval]
    intro h
    nlinarith

/-- C3 (amended): whenever the bracketing product is strictly positive,
`findAngleForShockLength` returns the endpoint whose shock length is
numerically closer to the target: the lower endpoint `-pi/2` when it is
strictly closer, otherwise the upper endpoint `pi/4`. -/
theorem C3_unbracketed_endpoint_amended (targetLength : ℝ) (p : Params)
    (h : (targetLength - shockLength (-(π / 2)) p) *
      (targetLength - shockLength (π / 4) p) > 0) :
    findAngleForShockLength targetLength p =
      if |targetLength - shockLength (-(π / 2)) p| < |targetLength - shockLength (π / 4) p|
      then -(π / 2) else π / 4 := by
  unfold findAngleForShockLength
  rw [if_pos h]

theorem C3_unbracketed_endpoint_amended_witness :
    ((600 : ℝ) - shockLength (-(π / 2)) (geomParams 280 55 600 200 0)) *
      (600 - shockLength (π / 4) (geomParams 280 55 600 200 0)) > 0 ∧
    findAngleForShockLength 600 (geomParams 280 55 600 200 0) = -(π / 2) := by
  have hlenHi := geom_shockLength_pi_div_four_lt 280 55 600 200 0
  have hlenHinn : 0 ≤ shockLength (π / 4) (geomParams 280 55 600 200 0) := by
    rw [shockLength_geom]
    exact Real.sqrt_nonneg _
  have h : ((600 : ℝ) - shockLength (-(π / 2)) (geomParams 280 55 600 200 0)) *
      (600 - shockLength (π / 4) (geomParams 280 55 600 200 0)) > 0 := by
    rw [shockLength_geom_neg_pi_div_two]
    nlinarith
  refine ⟨h, ?_⟩
  rw [C3_unbracketed_endpoint_amended 600 (geomParams 280 55 600 200 0) h]
  rw [if_pos ?_]
  rw [shockLength_geom_neg_pi_div_two]
  rw [abs_of_nonneg (by linarith : (0 : ℝ) ≤ 600 - shockLength (π / 4)
    (geomParams 280 55 600 200 0))]
  rw [show (600 : ℝ) - 500 = 100 by ring]
  rw [abs_of_nonneg (by norm_num : (0 : ℝ) ≤ 100)]
  linarith

/-! ### C1: an extreme geometry on which the bisection misses its tolerance

With the lower mount at radius `10^33` mm and the upper mount at
`(0, 10^33)`, the shock length is `10^33 * sqrt (2 - 2 sin theta)`, whose
slope in the angle is of order `10^33`: after 100 bisection halvings the
bracket still maps to a shock-length interval several millimetres wide,
so neither the `0.001` mm tolerance nor the `0.1` mm round-trip bound can
be met.  The free length is chosen to put the fully-extended root at
exactly `-pi/4`, one third of the way through the search interval, so the
bisection iterates follow the exact ternary pattern computed below. -/

noncomputable def ceR : ℝ := 1e33

noncomputable def pce : Params :=
  ⟨550, ceR, 0, ceR, ceR * Real.sqrt (2 + Real.sqrt 2),
    ceR * (Real.sqrt (2 + Real.sqrt 2) - Real.sqrt 3), 600, 200, 0⟩

theorem ceR_pos : 0 < ceR := by
  unfold ceR
  norm_num

theorem ce_len (theta : ℝ) :
    shockLength theta pce = ceR * Real.sqrt (2 - 2 * Real.sin theta) := by
  show Real.sqrt ((0 - ceR * Real.cos theta) ^ 2 + (ceR - ceR * Real.sin theta) ^ 2) = _
  rw [show (0 - ceR * Real.cos theta) ^ 2 + (ceR - ceR * Real.sin theta) ^ 2 =
      ceR ^ 2 * (2 - 2 * Real.sin theta) by nlinarith [Real.sin_sq_add_cos_sq theta],
    Real.sqrt_mul (sq_nonneg ceR), Real.sqrt_sq (le_of_lt ceR_pos)]

theorem ce_lenLo : shockLength (-(π / 2)) pce = 2 * ceR := by
  rw [ce_len, Real.sin_neg, Real.sin_pi_div_two]
  rw [show (2 : ℝ) - 2 * -1 = 2 ^ 2 by norm_num, Real.sqrt_sq (by norm_num)]
  ring

theorem ce_t : shockLength (-(π / 4)) pce = pce.shockFreeLength := by
  rw [ce_len, Real.sin_neg, Real.sin_pi_div_four]
  show ceR * Real.sqrt (2 - 2 * -(Real.sqrt 2 / 2)) = ceR * Real.sqrt (2 + Real.sqrt 2)
  rw [show (2 : ℝ) - 2 * -(Real.sqrt 2 / 2) = 2 + Real.sqrt 2 by ring]

theorem ce_t2 : shockLength (-(π / 6)) pce = pce.shockFreeLength - pce.shockStroke := by
  rw [ce_len, Real.sin_neg, Real.sin_pi_div_six]
  show ceR * Real.sqrt (2 - 2 * -(1 / 2)) =
    ceR * Real.sqrt (2 + Real.sqrt 2) - ceR * (Real.sqrt (2 + Real.sqrt 2) - Real.sqrt 3)
  rw [show (2 : ℝ) - 2 * -(1 / 2) = 3 by norm_num]
  ring

theorem ce_lenHi : shockLength (π / 4) pce = ceR * Real.sqrt (2 - Real.sqrt 2) := by
  rw [ce_len, Real.sin_pi_div_four]
  rw [show (2 : ℝ) - 2 * (Real.sqrt 2 / 2) = 2 - Real.sqrt 2 by ring]

theorem ce_len_anti {a b : ℝ} (ha : -(π / 2) ≤ a) (hb : b ≤ π / 4) (hab : a < b) :
    shockLength b pce < shockLength a pce := by
  rw [ce_len, ce_len]
  have hpi := Real.pi_pos
  have hsin : Real.sin a < Real.sin b :=
    Real.strictMonoOn_sin ⟨ha, by linarith⟩ ⟨by linarith, by linarith⟩ hab
  have h2 : (0 : ℝ) ≤ 2 - 2 * Real.sin b := by nlinarith [Real.sin_le_one b]
  exact mul_lt_mul_of_pos_left (Real.sqrt_lt_sqrt h2 (by linarith)) ceR_pos

theorem ce_len_gap {a b : ℝ} (ha : -(5 * π / 16) ≤ a) (hb : b ≤ -(π / 8)) (hab : a < b) :
    ceR / 8 * (b - a) ≤ shockLength a pce - shockLength b pce := by
  have hpi3 := Real.pi_gt_three
  have hpi315 : π < 3.15 := by
    calc π < 3.141593 := Real.pi_lt_d6
      _ < 3.15 := by norm_num
  have hbox : b - a ≤ 3 * π / 16 := by linarith
  have hsinab : (b - a) / 4 ≤ Real.sin b - Real.sin a := by
    rw [Real.sin_sub_sin]
    have hs1 : (0 : ℝ) < (b - a) / 2 := by linarith
    have hs2 : (b - a) / 2 ≤ 1 := by nlinarith
    have hsin_half : (b - a) / 2 / 2 ≤ Real.sin ((b - a) / 2) := by
      have hcube := Real.sin_gt_sub_cube hs1 hs2
      have hx2 : ((b - a) / 2) ^ 2 ≤ 1 := by nlinarith
      have hx3 : ((b - a) / 2) ^ 3 ≤ (b - a) / 2 := by nlinarith
      linarith
    have hcos_half : (1 : ℝ) / 2 ≤ Real.cos ((b + a) / 2) := by
      have := Real.one_sub_sq_div_two_le_cos (x := (b + a) / 2)
      have hc1 : -(5 * π / 16) ≤ (b + a) / 2 := by linarith
      have hc2 : (b + a) / 2 ≤ -(π / 8) := by linarith
      nlinarith
    have hsin_nn : 0 ≤ Real.sin ((b - a) / 2) := by linarith
    have hp : Real.sin ((b - a) / 2) * (1 / 2) ≤
        Real.sin ((b - a) / 2) * Real.cos ((b + a) / 2) :=
      mul_le_mul_of_nonneg_left hcos_half hsin_nn
    nlinarith
  have hla := ce_len a
  have hlb := ce_len b
  have hsa : (0 : ℝ) ≤ 2 - 2 * Real.sin a := by linarith [Real.sin_le_one a]
  have hsb : (0 : ℝ) ≤ 2 - 2 * Real.sin b := by linarith [Real.sin_le_one b]
  have hsqa : shockLength a pce ^ 2 = ceR ^ 2 * (2 - 2 * Real.sin a) := by
    rw [hla, mul_pow, Real.sq_sqrt hsa]
  have hsqb : shockLength b pce ^ 2 = ceR ^ 2 * (2 - 2 * Real.sin b) := by
    rw [hlb, mul_pow, Real.sq_sqrt hsb]
  have hsqrt4 : Real.sqrt 4 = 2 := by
    rw [show (4 : ℝ) = 2 ^ 2 by norm_num, Real.sqrt_sq (by norm_num : (0 : ℝ) ≤ 2)]
  have hub_a : shockLength a pce ≤ 2 * ceR := by
    rw [hla]
    have h4 : (2 : ℝ) - 2 * Real.sin a ≤ 4 := by linarith [Real.neg_one_le_sin a]
    have hs : Real.sqrt (2 - 2 * Real.sin a) ≤ 2 := by
      calc Real.sqrt (2 - 2 * Real.sin a) ≤ Real.sqrt 4 := Real.sqrt_le_sqrt h4
        _ = 2 := hsqrt4
    linarith [mul_le_mul_of_nonneg_left hs (le_of_lt ceR_pos)]
  have hub_b : shockLength b pce ≤ 2 * ceR := by
    rw [hlb]
    have h4 : (2 : ℝ) - 2 * Real.sin b ≤ 4 := by linarith [Real.neg_one_le_sin b]
    have hs : Real.sqrt (2 - 2 * Real.sin b) ≤ 2 := by
      calc Real.sqrt (2 - 2 * Real.sin b) ≤ Real.sqrt 4 := Real.sqrt_le_sqrt h4
        _ = 2 := hsqrt4
    linarith [mul_le_mul_of_nonneg_left hs (le_of_lt ceR_pos)]
  have hprod : (shockLength a pce - shockLength b pce) *
      (shockLength a pce + shockLength b pce) = 2 * ceR ^ 2 * (Real.sin b - Real.sin a) := by
    have hexp : (shockLength a pce - shockLength b pce) *
        (shockLength a pce + shockLength b pce) =
        shockLength a pce ^ 2 - shockLength b pce ^ 2 := by ring
    rw [hexp, hsqa, hsqb]
    ring
  have hDnn : 0 ≤ shockLength a pce - shockLength b pce := by
    have := ce_len_anti (a := a) (b := b) (by linarith) (by linarith) hab
    linarith
  have hsum_le : shockLength a pce + shockLength b pce ≤ 4 * ceR := by linarith
  have hkey : 2 * ceR ^ 2 * ((b - a) / 4) ≤
      (shockLength a pce - shockLength b pce) * (4 * ceR) := by
    have h1 : 2 * ceR ^ 2 * ((b - a) / 4) ≤ 2 * ceR ^ 2 * (Real.sin b - Real.sin a) :=
      mul_le_mul_of_nonneg_left hsinab (by positivity)
    have h2 : (shockLength a pce - shockLength b pce) *
        (shockLength a pce + shockLength b pce) ≤
        (shockLength a pce - shockLength b pce) * (4 * ceR) :=
      mul_le_mul_of_nonneg_left hsum_le hDnn
    calc 2 * ceR ^ 2 * ((b - a) / 4)
        ≤ 2 * ceR ^ 2 * (Real.sin b - Real.sin a) := h1
      _ = (shockLength a pce - shockLength b pce) *
          (shockLength a pce + shockLength b pce) := hprod.symm
      _ ≤ (shockLength a pce - shockLength b pce) * (4 * ceR) := h2
  have hkey2 : (ceR / 8 * (b - a)) * (4 * ceR) ≤
      (shockLength a pce - shockLength b pce) * (4 * ceR) := by
    calc (ceR / 8 * (b - a)) * (4 * ceR) = 2 * ceR ^ 2 * ((b - a) / 4) := by ring
      _ ≤ (shockLength a pce - shockLength b pce) * (4 * ceR) := hkey
  exact le_of_mul_le_mul_right hkey2 (by linarith [ceR_pos])

theorem findAngleLoop_succ (t : ℝ) (p : Params) (lenLo : ℝ) (fuel : ℕ) (lo hi : ℝ) :
    findAngleLoop t p lenLo (fuel + 1) lo hi =
      if |shockLength ((lo + hi) / 2) p - t| < 0.001 then (lo + hi) / 2
      else if (shockLength ((lo + hi) / 2) p - t) * (lenLo - t) < 0 then
        findAngleLoop t p lenLo fuel lo ((lo + hi) / 2)
      else findAngleLoop t p lenLo fuel ((lo + hi) / 2) hi := rfl

theorem ce_small_pos : (0 : ℝ) < π / 4 ^ 51 := by positivity

theorem ce_tol_bound : (0.5 : ℝ) ≤ ceR / 8 * (π / 4 ^ 51) := by
  have hpi3 := Real.pi_gt_three
  have hrw : ceR / 8 * (π / 4 ^ 51) = ceR / (8 * 4 ^ 51) * π := by ring
  have hge : ceR / (8 * 4 ^ 51) * 3 ≤ ceR / (8 * 4 ^ 51) * π :=
    mul_le_mul_of_nonneg_left (by linarith) (by unfold ceR; positivity)
  have hnum : (0.5 : ℝ) ≤ ceR / (8 * 4 ^ 51) * 3 := by
    unfold ceR
    norm_num
  linarith [hrw ▸ (hnum.trans hge)]

theorem ce_tol_fail (mid : ℝ) (h1 : -(5 * π / 16) ≤ mid) (h2 : mid ≤ -(π / 8))
    (hfar : π / 4 ^ 51 ≤ |mid - -(π / 4)|) :
    ¬ |shockLength mid pce - pce.shockFreeLength| < 0.001 := by
  have hpi3 := Real.pi_gt_three
  have hsp := ce_small_pos
  have hc8 : (0 : ℝ) ≤ ceR / 8 := by
    unfold ceR
    norm_num
  rcases le_or_lt mid (-(π / 4)) with hm | hm
  · have habs : |mid - -(π / 4)| = -(π / 4) - mid := by
      rw [abs_of_nonpos (by linarith)]
      ring
    rw [habs] at hfar
    have hgap := ce_len_gap (a := mid) (b := -(π / 4)) h1 (by linarith) (by linarith)
    rw [ce_t] at hgap
    intro hc
    rw [abs_lt] at hc
    have hmul := mul_le_mul_of_nonneg_left hfar hc8
    linarith [hc.2, ce_tol_bound]
  · have habs : |mid - -(π / 4)| = mid - -(π / 4) := abs_of_nonneg (by linarith)
    rw [habs] at hfar
    have hgap := ce_len_gap (a := -(π / 4)) (b := mid) (by linarith) h2 hm
    rw [ce_t] at hgap
    intro hc
    rw [abs_lt] at hc
    have hmul := mul_le_mul_of_nonneg_left hfar hc8
    linarith [hc.1, ce_tol_bound]

theorem ce_sqrt2_lt : Real.sqrt 2 < 1.5 := by
  rw [Real.sqrt_lt' (by norm_num)]
  norm_num

theorem ce_sqrt2_gt : (1 : ℝ) < Real.sqrt 2 := by
  rw [show (1 : ℝ) = Real.sqrt 1 by rw [Real.sqrt_one]]
  exact Real.sqrt_lt_sqrt (by norm_num) (by norm_num)

theorem ce_free_lt_lenLo : pce.shockFreeLength < shockLength (-(π / 2)) pce := by
  rw [ce_lenLo]
  show ceR * Real.sqrt (2 + Real.sqrt 2) < 2 * ceR
  have h : Real.sqrt (2 + Real.sqrt 2) < 2 := by
    rw [Real.sqrt_lt' (by norm_num)]
    linarith [ce_sqrt2_lt]
  nlinarith [ceR_pos]

theorem ce_lenHi_lt_free : shockLength (π / 4) pce < pce.shockFreeLength := by
  rw [ce_lenHi]
  show ceR * Real.sqrt (2 - Real.sqrt 2) < ceR * Real.sqrt (2 + Real.sqrt 2)
  have h : Real.sqrt (2 - Real.sqrt 2) < Real.sqrt (2 + Real.sqrt 2) := by
    apply Real.sqrt_lt_sqrt (by linarith [ce_sqrt2_lt]) (by linarith [ce_sqrt2_gt])
  exact mul_lt_mul_of_pos_left h ceR_pos

theorem ce_loop_step2 (n : ℕ) (d : ℝ) (hd1 : 4 * (π / 4 ^ 51) ≤ d) (hd2 : d ≤ π / 4) :
    findAngleLoop pce.shockFreeLength pce (shockLength (-(π / 2)) pce) (n + 2)
        (-(π / 4) - d) (-(π / 4) + 2 * d) =
      findAngleLoop pce.shockFreeLength pce (shockLength (-(π / 2)) pce) n
        (-(π / 4) - d / 4) (-(π / 4) + d / 2) := by
  have hpi3 := Real.pi_gt_three
  have hsp := ce_small_pos
  have hdpos : 0 < d := by linarith
  have hlo := ce_free_lt_lenLo
  rw [show n + 2 = (n + 1) + 1 from rfl, findAngleLoop_succ]
  rw [show (-(π / 4) - d + (-(π / 4) + 2 * d)) / 2 = -(π / 4) + d / 2 by ring]
  rw [if_neg (ce_tol_fail (-(π / 4) + d / 2) (by linarith) (by linarith)
    (by rw [abs_of_nonneg (by linarith : (0:ℝ) ≤ -(π / 4) + d / 2 - -(π / 4))]; linarith))]
  have hmid1_lt : shockLength (-(π / 4) + d / 2) pce < pce.shockFreeLength := by
    rw [← ce_t]
    exact ce_len_anti (by linarith) (by linarith) (by linarith)
  rw [if_pos (mul_neg_of_neg_of_pos (by linarith) (by linarith))]
  rw [findAngleLoop_succ]
  rw [show (-(π / 4) - d + (-(π / 4) + d / 2)) / 2 = -(π / 4) - d / 4 by ring]
  rw [if_neg (ce_tol_fail (-(π / 4) - d / 4) (by linarith) (by linarith)
    (by rw [abs_of_nonpos (by linarith : -(π / 4) - d / 4 - -(π / 4) ≤ 0)]; linarith))]
  have hmid2_gt : pce.shockFreeLength < shockLength (-(π / 4) - d / 4) pce := by
    rw [← ce_t]
    exact ce_len_anti (by linarith) (by linarith) (by linarith)
  rw [if_neg (not_lt.mpr (le_of_lt (mul_pos (by linarith) (by linarith))))]

theorem ce_loop_descent :
    ∀ m : ℕ, m ≤ 50 →
      findAngleLoop pce.shockFreeLength pce (shockLength (-(π / 2)) pce) 100
          (-(π / 2)) (π / 4) =
        findAngleLoop pce.shockFreeLength pce (shockLength (-(π / 2)) pce) (100 - 2 * m)
          (-(π / 4) - π / 4 ^ (m + 1)) (-(π / 4) + 2 * (π / 4 ^ (m + 1))) := by
  intro m
  induction m with
  | zero =>
    intro _
    have e1 : -(π / 4) - π / 4 ^ (0 + 1) = -(π / 2) := by
      rw [pow_one]
      ring
    have e2 : -(π / 4) + 2 * (π / 4 ^ (0 + 1)) = π / 4 := by
      rw [pow_one]
      ring
    rw [e1, e2]
  | succ k ih =>
    intro hm
    rw [ih (by omega)]
    have hfuel : 100 - 2 * k = 100 - 2 * (k + 1) + 2 := by omega
    rw [hfuel]
    have hd1 : 4 * (π / 4 ^ 51) ≤ π / 4 ^ (k + 1) := by
      have hrw : (4 : ℝ) * (π / 4 ^ 51) = π / 4 ^ 50 := by
        rw [show (51 : ℕ) = 50 + 1 from rfl, pow_succ]
        field_simp
        ring
      rw [hrw]
      apply div_le_div_of_nonneg_left (le_of_lt Real.pi_pos) (by positivity)
      exact pow_le_pow_right₀ (by norm_num) (by omega)
    have hd2 : π / 4 ^ (k + 1) ≤ π / 4 := by
      rw [show (π / 4 : ℝ) = π / 4 ^ 1 by rw [pow_one]]
      apply div_le_div_of_nonneg_left (le_of_lt Real.pi_pos) (by positivity)
      exact pow_le_pow_right₀ (by norm_num) (by omega)
    rw [ce_loop_step2 (100 - 2 * (k + 1)) (π / 4 ^ (k + 1)) hd1 hd2]
    have e1 : π / 4 ^ (k + 1) / 4 = π / 4 ^ (k + 1 + 1) := by
      rw [pow_succ _ (k + 1), div_div]
    have e2 : π / 4 ^ (k + 1) / 2 = 2 * (π / 4 ^ (k + 1 + 1)) := by
      rw [pow_succ _ (k + 1)]
      field_simp
      ring
    rw [e1, e2]

theorem ce_fullyExtendedAngle :
    fullyExtendedAngle pce = -(π / 4) + π / 4 ^ 51 / 2 := by
  have hlo := ce_free_lt_lenLo
  have hhi := ce_lenHi_lt_free
  have hnot : ¬ ((pce.shockFreeLength - shockLength (-(π / 2)) pce) *
      (pce.shockFreeLength - shockLength (π / 4) pce) > 0) :=
    not_lt.mpr (le_of_lt (mul_neg_of_neg_of_pos (by linarith) (by linarith)))
  show findAngleForShockLength pce.shockFreeLength pce = _
  unfold findAngleForShockLength
  rw [if_neg hnot, ce_loop_descent 50 (le_refl 50)]
  show (-(π / 4) - π / 4 ^ (50 + 1) + (-(π / 4) + 2 * (π / 4 ^ (50 + 1)))) / 2 = _
  ring

/-- C1 counterexample: the parameter set `pce` is physically valid in
the sense of the data-model constraints, both travel-limit targets are
strictly bracketed by the shock length on `[-pi/2, pi/4]`, and yet the
shock compression at the fully-extended angle exceeds 0.1 mm: with a
lower-mount radius of `10^33` mm the bisection can never meet its fixed
0.001 mm tolerance, and the residual bracket after 100 iterations is
still several millimetres wide in shock length. -/
theorem C1_travel_limit_round_trip_counterexample :
    (0 < pce.swingarmLength ∧ 0 < pce.lowerMountDist ∧ 0 < pce.shockFreeLength ∧
      0 < pce.shockStroke ∧ pce.shockStroke < pce.shockFreeLength ∧
      0 < pce.springRate ∧ 0 ≤ pce.load ∧ 0 ≤ pce.preload) ∧
    (pce.shockFreeLength - shockLength (-(π / 2)) pce) *
      (pce.shockFreeLength - shockLength (π / 4) pce) < 0 ∧
    (pce.shockFreeLength - pce.shockStroke - shockLength (-(π / 2)) pce) *
      (pce.shockFreeLength - pce.shockStroke - shockLength (π / 4) pce) < 0 ∧
    0.1 < |shockCompression (fullyExtendedAngle pce) pce| := by
  have hpi3 := Real.pi_gt_three
  have hsp := ce_small_pos
  have hs2lt := ce_sqrt2_lt
  have hs2gt := ce_sqrt2_gt
  have hsqrt3_lt : Real.sqrt 3 < Real.sqrt (2 + Real.sqrt 2) :=
    Real.sqrt_lt_sqrt (by norm_num) (by linarith)
  have hsqrt3_nn : (0 : ℝ) < Real.sqrt 3 := Real.sqrt_pos.mpr (by norm_num)
  have hsqrt3_gt : Real.sqrt (2 - Real.sqrt 2) < Real.sqrt 3 :=
    Real.sqrt_lt_sqrt (by linarith) (by linarith)
  have hsqrt3_lt2 : Real.sqrt 3 < 2 := by
    rw [Real.sqrt_lt' (by norm_num)]
    norm_num
  refine ⟨⟨?_, ceR_pos, ?_, ?_, ?_, ?_, ?_, ?_⟩, ?_, ?_, ?_⟩
  · show (0 : ℝ) < 550
    norm_num
  · show 0 < ceR * Real.sqrt (2 + Real.sqrt 2)
    exact mul_pos ceR_pos (Real.sqrt_pos.mpr (by linarith))
  · show 0 < ceR * (Real.sqrt (2 + Real.sqrt 2) - Real.sqrt 3)
    exact mul_pos ceR_pos (by linarith)
  · show ceR * (Real.sqrt (2 + Real.sqrt 2) - Real.sqrt 3) < ceR * Real.sqrt (2 + Real.sqrt 2)
    have := mul_lt_mul_of_pos_left (show Real.sqrt (2 + Real.sqrt 2) - Real.sqrt 3 <
      Real.sqrt (2 + Real.sqrt 2) by linarith) ceR_pos
    linarith
  · show (0 : ℝ) < 600
    norm_num
  · show (0 : ℝ) ≤ 200
    norm_num
  · show (0 : ℝ) ≤ 0
    norm_num
  · exact mul_neg_of_neg_of_pos (by linarith [ce_free_lt_lenLo])
      (by linarith [ce_lenHi_lt_free])
  · have ht2 : pce.shockFreeLength - pce.shockStroke = ceR * Real.sqrt 3 := by
      show ceR * Real.sqrt (2 + Real.sqrt 2) -
        ceR * (Real.sqrt (2 + Real.sqrt 2) - Real.sqrt 3) = ceR * Real.sqrt 3
      ring
    rw [ht2, ce_lenLo, ce_lenHi]
    apply mul_neg_of_neg_of_pos
    · nlinarith [ceR_pos]
    · have := mul_lt_mul_of_pos_left hsqrt3_gt ceR_pos
      linarith
  · have hret := ce_fullyExtendedAngle
    have hbox2 : -(π / 4) + π / 4 ^ 51 / 2 ≤ -(π / 8) := by
      have h51 : π / 4 ^ 51 ≤ π / 4 := by
        rw [show (π / 4 : ℝ) = π / 4 ^ 1 by rw [pow_one]]
        apply div_le_div_of_nonneg_left (le_of_lt Real.pi_pos) (by positivity)
        exact pow_le_pow_right₀ (by norm_num) (by omega)
      linarith
    have hgap := ce_len_gap (a := -(π / 4)) (b := -(π / 4) + π / 4 ^ 51 / 2)
      (by linarith) hbox2 (by linarith)
    rw [ce_t] at hgap
    have hcomp : shockCompression (fullyExtendedAngle pce) pce =
        pce.shockFreeLength - shockLength (-(π / 4) + π / 4 ^ 51 / 2) pce := by
      unfold shockCompression
      rw [hret]
    rw [hcomp]
    have hlarge : (0.1 : ℝ) < ceR / 8 * (-(π / 4) + π / 4 ^ 51 / 2 - -(π / 4)) := by
      rw [show -(π / 4) + π / 4 ^ 51 / 2 - -(π / 4) = π / 4 ^ 51 / 2 by ring]
      have hb := ce_tol_bound
      have : ceR / 8 * (π / 4 ^ 51 / 2) = ceR / 8 * (π / 4 ^ 51) / 2 := by ring
      rw [this]
      linarith
    rw [abs_of_pos (by linarith)]
    linarith

end Suspension
